import Mathlib

/-!
Verification of the bomb-grid game core (rules.js, bot.js, server.js)
against its natural-language specification.  The JavaScript source is
shallowly embedded: grids are functions from coordinates to tile codes,
JS numbers carrying times are rationals, mutable room state is an explicit
record, and `Math.random` is an oracle stream consumed by index.
-/

set_option maxHeartbeats 1600000
set_option maxRecDepth 4000

namespace BombIt

/-! ### Tile codes and constants (map.js / rules.js) -/

abbrev Pos := ℤ × ℤ

/-- A grid is read `grid y x`, mirroring the JS `grid[ny][nx]`. -/
abbrev Grid := ℤ → ℤ → ℕ

def EMPTY : ℕ := 0
def WALL : ℕ := 1
def BLOCK : ℕ := 2
def POWERUP_FLAMETHROWER : ℕ := 3
def POWERUP_RAYGUN : ℕ := 4
def POWERUP_SHIELD : ℕ := 5

def BOMB_FUSE : ℤ := 2000
def DEFAULT_POWER : ℕ := 2
def MAX_BOMBS : ℤ := 1

/-- Bounds test `nx < 0 || nx >= cols || ny < 0 || ny >= rows`, negated. -/
def inB (cols rows x y : ℤ) : Bool :=
  decide (0 ≤ x ∧ x < cols ∧ 0 ≤ y ∧ y < rows)

theorem inB_iff {cols rows x y : ℤ} :
    inB cols rows x y = true ↔ 0 ≤ x ∧ x < cols ∧ 0 ≤ y ∧ y < rows := by
  simp [inB]

/-! ### Blast arms (rules.js computeExplosion / computeRaygunExplosion)

One JS `for (let i = 1; i <= power; i++)` loop walking outward from the
origin in direction `(dx, dy)`.  `stopAtBlock` distinguishes the standard
bomb (stops at the first BLOCK) from the raygun (passes through BLOCKs).
`i` is the current step index, the second argument the remaining fuel
(`power - i + 1` at entry). -/

def armFrom (stopAtBlock : Bool) (grid : Grid) (cols rows x0 y0 dx dy : ℤ) :
    ℕ → ℕ → List Pos × List Pos
  | _, 0 => ([], [])
  | i, fuel+1 =>
    let nx := x0 + dx * (i : ℤ)
    let ny := y0 + dy * (i : ℤ)
    if inB cols rows nx ny = false then ([], [])
    else if grid ny nx = WALL then ([], [])
    else if stopAtBlock = true ∧ grid ny nx = BLOCK then ([(nx, ny)], [(nx, ny)])
    else
      let rest := armFrom stopAtBlock grid cols rows x0 y0 dx dy (i+1) fuel
      ((nx, ny) :: rest.1,
       if grid ny nx = BLOCK then (nx, ny) :: rest.2 else rest.2)

/-- rules.js `computeExplosion`: origin plus the four cardinal arms
(DIRS order: up, down, left, right), each up to `power` tiles. -/
def computeExplosion (grid : Grid) (x0 y0 : ℤ) (power : ℕ) (cols rows : ℤ) :
    List Pos × List Pos :=
  let up := armFrom true grid cols rows x0 y0 0 (-1) 1 power
  let down := armFrom true grid cols rows x0 y0 0 1 1 power
  let left := armFrom true grid cols rows x0 y0 (-1) 0 1 power
  let right := armFrom true grid cols rows x0 y0 1 0 1 power
  ((x0, y0) :: (up.1 ++ (down.1 ++ (left.1 ++ right.1))),
   up.2 ++ (down.2 ++ (left.2 ++ right.2)))

/-- rules.js `computeRaygunExplosion`: four arms with fuel
`Math.max(cols, rows)`, passing through blocks. -/
def computeRaygunExplosion (grid : Grid) (x0 y0 : ℤ) (cols rows : ℤ) :
    List Pos × List Pos :=
  let mp := (max cols rows).toNat
  let up := armFrom false grid cols rows x0 y0 0 (-1) 1 mp
  let down := armFrom false grid cols rows x0 y0 0 1 1 mp
  let left := armFrom false grid cols rows x0 y0 (-1) 0 1 mp
  let right := armFrom false grid cols rows x0 y0 1 0 1 mp
  ((x0, y0) :: (up.1 ++ (down.1 ++ (left.1 ++ right.1))),
   up.2 ++ (down.2 ++ (left.2 ++ right.2)))

/-- rules.js `DIR_MAP`, with the `|| DIR_MAP.down` fallback. -/
def DIR_MAP (dir : String) : ℤ × ℤ :=
  if dir = "up" then (0, -1)
  else if dir = "down" then (0, 1)
  else if dir = "left" then (-1, 0)
  else if dir = "right" then (1, 0)
  else (0, 1)

/-- rules.js `computeRaygunShot`: one arm, passes through blocks,
no origin tile. -/
def computeRaygunShot (grid : Grid) (x y : ℤ) (dir : String) (cols rows : ℤ) :
    List Pos × List Pos :=
  let d := DIR_MAP dir
  armFrom false grid cols rows x y d.1 d.2 1 ((max cols rows).toNat)

/-! ### Flamethrower variants (rules.js) -/

/-- rules.js `dedup` (first occurrence kept). -/
def dedupAux : List Pos → List Pos → List Pos
  | _, [] => []
  | seen, p :: rest =>
    if p ∈ seen then dedupAux seen rest
    else p :: dedupAux (p :: seen) rest

def dedup (l : List Pos) : List Pos := dedupAux [] l

/-- One perpendicular neighbour of a flamethrower arm tile: skipped when
out of bounds or a WALL, otherwise included (and destroyed if a BLOCK). -/
def perpSide (grid : Grid) (cols rows px py : ℤ) : List Pos × List Pos :=
  if inB cols rows px py = false then ([], [])
  else if grid py px = WALL then ([], [])
  else ([(px, py)], if grid py px = BLOCK then [(px, py)] else [])

/-- The extra-tile loop of rules.js `computeFlamethrowerExplosion` for one
PERP entry: walk the arm, adding both perpendicular neighbours of every
arm tile, stopping the walk at WALL (excluded) or after a BLOCK. -/
def flameArm (grid : Grid) (cols rows x0 y0 dx dy pdx pdy : ℤ) :
    ℕ → ℕ → List Pos × List Pos
  | _, 0 => ([], [])
  | i, fuel+1 =>
    let tx := x0 + dx * (i : ℤ)
    let ty := y0 + dy * (i : ℤ)
    if inB cols rows tx ty = false then ([], [])
    else if grid ty tx = WALL then ([], [])
    else
      let s1 := perpSide grid cols rows (tx - pdx) (ty - pdy)
      let s2 := perpSide grid cols rows (tx + pdx) (ty + pdy)
      if grid ty tx = BLOCK then (s1.1 ++ s2.1, s1.2 ++ s2.2)
      else
        let rest := flameArm grid cols rows x0 y0 dx dy pdx pdy (i+1) fuel
        (s1.1 ++ s2.1 ++ rest.1, s1.2 ++ s2.2 ++ rest.2)

/-- rules.js `computeFlamethrowerExplosion`: standard power-5 blast plus
one-tile perpendicular spread along each arm, deduplicated. -/
def computeFlamethrowerExplosion (grid : Grid) (x0 y0 : ℤ) (cols rows : ℤ) :
    List Pos × List Pos :=
  let base := computeExplosion grid x0 y0 5 cols rows
  let e1 := flameArm grid cols rows x0 y0 0 (-1) 1 0 1 5
  let e2 := flameArm grid cols rows x0 y0 0 1 1 0 1 5
  let e3 := flameArm grid cols rows x0 y0 (-1) 0 0 1 1 5
  let e4 := flameArm grid cols rows x0 y0 1 0 0 1 1 5
  (dedup (base.1 ++ (e1.1 ++ (e2.1 ++ (e3.1 ++ e4.1)))),
   dedup (base.2 ++ (e1.2 ++ (e2.2 ++ (e3.2 ++ e4.2)))))

/-- The directional loop of rules.js `computeFlamethrowerShot`: main tile
first, then both perpendicular neighbours; a BLOCK main tile is destroyed
and stops the walk. -/
def flameShotArm (grid : Grid) (cols rows x0 y0 dx dy pdx pdy : ℤ) :
    ℕ → ℕ → List Pos × List Pos
  | _, 0 => ([], [])
  | i, fuel+1 =>
    let nx := x0 + dx * (i : ℤ)
    let ny := y0 + dy * (i : ℤ)
    if inB cols rows nx ny = false then ([], [])
    else if grid ny nx = WALL then ([], [])
    else
      let s1 := perpSide grid cols rows (nx - pdx) (ny - pdy)
      let s2 := perpSide grid cols rows (nx + pdx) (ny + pdy)
      if grid ny nx = BLOCK then
        ((nx, ny) :: (s1.1 ++ s2.1), (s1.2 ++ s2.2) ++ [(nx, ny)])
      else
        let rest := flameShotArm grid cols rows x0 y0 dx dy pdx pdy (i+1) fuel
        ((nx, ny) :: (s1.1 ++ s2.1) ++ rest.1, (s1.2 ++ s2.2) ++ rest.2)

/-- rules.js `computeFlamethrowerShot`. -/
def computeFlamethrowerShot (grid : Grid) (x y : ℤ) (dir : String)
    (cols rows : ℤ) : List Pos × List Pos :=
  let d := DIR_MAP dir
  let pdx : ℤ := if d.1 = 0 then 1 else 0
  let pdy : ℤ := if d.2 = 0 then 1 else 0
  let r := flameShotArm grid cols rows x y d.1 d.2 pdx pdy 1 5
  (dedup r.1, dedup r.2)

/-! ### Blast-arm characterization -/

/-- The four cardinal unit directions of rules.js `DIRS`. -/
def Dir4 (dx dy : ℤ) : Prop :=
  (dx = 0 ∧ dy = -1) ∨ (dx = 0 ∧ dy = 1) ∨ (dx = -1 ∧ dy = 0) ∨ (dx = 1 ∧ dy = 0)

/-- The tile `i` steps from the origin in direction `(dx, dy)`. -/
def pAt (x0 y0 dx dy : ℤ) (i : ℕ) : Pos := (x0 + dx * (i : ℤ), y0 + dy * (i : ℤ))

/-- Step `k` of an arm is in bounds and not a WALL. -/
abbrev armStepOK (grid : Grid) (cols rows x0 y0 dx dy : ℤ) (k : ℕ) : Prop :=
  inB cols rows (x0 + dx * (k : ℤ)) (y0 + dy * (k : ℤ)) = true ∧
  grid (y0 + dy * (k : ℤ)) (x0 + dx * (k : ℤ)) ≠ WALL

/-- Step `k` of an arm does not stop the expansion (no BLOCK, unless the
arm passes through blocks). -/
abbrev armStepFree (stopAtBlock : Bool) (grid : Grid) (x0 y0 dx dy : ℤ) (k : ℕ) : Prop :=
  ¬(stopAtBlock = true ∧ grid (y0 + dy * (k : ℤ)) (x0 + dx * (k : ℤ)) = BLOCK)

theorem pAt_inj {x0 y0 dx dy : ℤ} (hd : Dir4 dx dy) {i j : ℕ}
    (h : pAt x0 y0 dx dy i = pAt x0 y0 dx dy j) : i = j := by
  rcases hd with ⟨h1, h2⟩ | ⟨h1, h2⟩ | ⟨h1, h2⟩ | ⟨h1, h2⟩ <;> subst h1 <;> subst h2 <;>
    simp [pAt, Prod.ext_iff] at h <;> omega

theorem pAt_ne_origin {x0 y0 dx dy : ℤ} (hd : Dir4 dx dy) {j : ℕ} (hj : 1 ≤ j) :
    pAt x0 y0 dx dy j ≠ (x0, y0) := by
  rcases hd with ⟨h1, h2⟩ | ⟨h1, h2⟩ | ⟨h1, h2⟩ | ⟨h1, h2⟩ <;> subst h1 <;> subst h2 <;>
    simp [pAt, Prod.ext_iff] <;> omega

theorem pAt_cross {x0 y0 dx dy dx' dy' : ℤ} (hd : Dir4 dx dy) (hd' : Dir4 dx' dy')
    {j j' : ℕ} (hj : 1 ≤ j) (hj' : 1 ≤ j')
    (h : pAt x0 y0 dx dy j = pAt x0 y0 dx' dy' j') : dx = dx' ∧ dy = dy' ∧ j = j' := by
  rcases hd with ⟨h1, h2⟩ | ⟨h1, h2⟩ | ⟨h1, h2⟩ | ⟨h1, h2⟩ <;>
    rcases hd' with ⟨h3, h4⟩ | ⟨h3, h4⟩ | ⟨h3, h4⟩ | ⟨h3, h4⟩ <;>
    subst h1 <;> subst h2 <;> subst h3 <;> subst h4 <;>
    simp_all [pAt, Prod.ext_iff] <;> omega

/-- Unfolding equation for one arm step, with the recursion exposed. -/
theorem armFrom_succ (stopB : Bool) (grid : Grid) (cols rows x0 y0 dx dy : ℤ)
    (s fuel : ℕ) :
    armFrom stopB grid cols rows x0 y0 dx dy s (fuel+1)
    = (if inB cols rows (x0 + dx * (s : ℤ)) (y0 + dy * (s : ℤ)) = false then ([], [])
       else if grid (y0 + dy * (s : ℤ)) (x0 + dx * (s : ℤ)) = WALL then ([], [])
       else if stopB = true ∧ grid (y0 + dy * (s : ℤ)) (x0 + dx * (s : ℤ)) = BLOCK then
         ([(x0 + dx * (s : ℤ), y0 + dy * (s : ℤ))], [(x0 + dx * (s : ℤ), y0 + dy * (s : ℤ))])
       else
         ((x0 + dx * (s : ℤ), y0 + dy * (s : ℤ))
            :: (armFrom stopB grid cols rows x0 y0 dx dy (s+1) fuel).1,
          if grid (y0 + dy * (s : ℤ)) (x0 + dx * (s : ℤ)) = BLOCK then
            (x0 + dx * (s : ℤ), y0 + dy * (s : ℤ))
              :: (armFrom stopB grid cols rows x0 y0 dx dy (s+1) fuel).2
          else (armFrom stopB grid cols rows x0 y0 dx dy (s+1) fuel).2)) := rfl

/-- Membership in an arm's tile list: exactly the steps `s ≤ j < s + fuel`
whose whole prefix is in bounds and wall-free, with no expansion-stopping
tile strictly before them. -/
theorem armFrom_mem (stopB : Bool) (grid : Grid) (cols rows x0 y0 dx dy : ℤ)
    (hd : Dir4 dx dy) :
    ∀ fuel s j,
      (pAt x0 y0 dx dy j ∈ (armFrom stopB grid cols rows x0 y0 dx dy s fuel).1
      ↔ s ≤ j ∧ j < s + fuel
        ∧ (∀ k, s ≤ k → k ≤ j → armStepOK grid cols rows x0 y0 dx dy k)
        ∧ (∀ k, s ≤ k → k < j → armStepFree stopB grid x0 y0 dx dy k)) := by
  intro fuel
  induction fuel with
  | zero =>
    intro s j
    rw [armFrom]
    constructor
    · intro h; exact absurd h (List.not_mem_nil _)
    · rintro ⟨h1, h2, -, -⟩; omega
  | succ fuel ih =>
    intro s j
    rw [armFrom_succ]
    by_cases hin : inB cols rows (x0 + dx * (s : ℤ)) (y0 + dy * (s : ℤ)) = false
    · rw [if_pos hin]
      constructor
      · intro h; exact absurd h (List.not_mem_nil _)
      · rintro ⟨h1, h2, hok, -⟩
        have h3 := (hok s le_rfl h1).1
        rw [h3] at hin; cases hin
    · rw [if_neg hin]
      have hin' : inB cols rows (x0 + dx * (s : ℤ)) (y0 + dy * (s : ℤ)) = true := by
        cases h : inB cols rows (x0 + dx * (s : ℤ)) (y0 + dy * (s : ℤ)) with
        | false => exact absurd h hin
        | true => rfl
      by_cases hwall : grid (y0 + dy * (s : ℤ)) (x0 + dx * (s : ℤ)) = WALL
      · rw [if_pos hwall]
        constructor
        · intro h; exact absurd h (List.not_mem_nil _)
        · rintro ⟨h1, h2, hok, -⟩
          exact absurd hwall (hok s le_rfl h1).2
      · rw [if_neg hwall]
        by_cases hstop : stopB = true ∧ grid (y0 + dy * (s : ℤ)) (x0 + dx * (s : ℤ)) = BLOCK
        · rw [if_pos hstop]
          constructor
          · intro h
            have hh : pAt x0 y0 dx dy j = pAt x0 y0 dx dy s := List.mem_singleton.mp h
            have hjs : j = s := pAt_inj hd hh
            subst hjs
            refine ⟨le_rfl, by omega, ?_, ?_⟩
            · intro k hk1 hk2
              have hks : k = j := le_antisymm hk2 hk1
              subst hks
              exact ⟨hin', hwall⟩
            · intro k hk1 hk2; omega
          · rintro ⟨h1, h2, hok, hfree⟩
            have hjs : j = s := by
              by_contra hne
              have hjlt : s < j := lt_of_le_of_ne h1 (Ne.symm hne)
              exact (hfree s le_rfl hjlt) hstop
            subst hjs
            exact List.mem_singleton.mpr rfl
        · rw [if_neg hstop]
          constructor
          · intro h
            rcases List.mem_cons.mp h with h | h
            · have hjs : j = s := pAt_inj hd h
              subst hjs
              refine ⟨le_rfl, by omega, ?_, ?_⟩
              · intro k hk1 hk2
                have hks : k = j := le_antisymm hk2 hk1
                subst hks; exact ⟨hin', hwall⟩
              · intro k hk1 hk2; omega
            · obtain ⟨h1, h2, hok, hfree⟩ := (ih (s+1) j).mp h
              refine ⟨by omega, by omega, ?_, ?_⟩
              · intro k hk1 hk2
                rcases Nat.eq_or_lt_of_le hk1 with hk | hk
                · subst hk; exact ⟨hin', hwall⟩
                · exact hok k hk hk2
              · intro k hk1 hk2
                rcases Nat.eq_or_lt_of_le hk1 with hk | hk
                · subst hk; exact hstop
                · exact hfree k hk hk2
          · rintro ⟨h1, h2, hok, hfree⟩
            rcases Nat.eq_or_lt_of_le h1 with hjs | hjs
            · refine List.mem_cons.mpr (Or.inl ?_)
              rw [← hjs]; rfl
            · refine List.mem_cons.mpr (Or.inr ((ih (s+1) j).mpr ?_))
              refine ⟨by omega, by omega, ?_, ?_⟩
              · intro k hk1 hk2; exact hok k (by omega) hk2
              · intro k hk1 hk2; exact hfree k (by omega) hk2

/-- Every element of an arm's tile list is some `pAt` step in range. -/
theorem armFrom_tiles_shape (stopB : Bool) (grid : Grid) (cols rows x0 y0 dx dy : ℤ) :
    ∀ fuel s q, q ∈ (armFrom stopB grid cols rows x0 y0 dx dy s fuel).1 →
      ∃ m, s ≤ m ∧ m < s + fuel ∧ q = pAt x0 y0 dx dy m := by
  intro fuel
  induction fuel with
  | zero =>
    intro s q h
    rw [armFrom] at h
    exact absurd h (List.not_mem_nil _)
  | succ fuel ih =>
    intro s q h
    rw [armFrom_succ] at h
    by_cases hin : inB cols rows (x0 + dx * (s : ℤ)) (y0 + dy * (s : ℤ)) = false
    · rw [if_pos hin] at h; exact absurd h (List.not_mem_nil _)
    · rw [if_neg hin] at h
      by_cases hwall : grid (y0 + dy * (s : ℤ)) (x0 + dx * (s : ℤ)) = WALL
      · rw [if_pos hwall] at h; exact absurd h (List.not_mem_nil _)
      · rw [if_neg hwall] at h
        by_cases hstop : stopB = true ∧ grid (y0 + dy * (s : ℤ)) (x0 + dx * (s : ℤ)) = BLOCK
        · rw [if_pos hstop] at h
          exact ⟨s, le_rfl, by omega, List.mem_singleton.mp h⟩
        · rw [if_neg hstop] at h
          rcases List.mem_cons.mp h with h | h
          · exact ⟨s, le_rfl, by omega, h⟩
          · obtain ⟨m, hm1, hm2, hm3⟩ := ih (s+1) q h
            exact ⟨m, by omega, by omega, hm3⟩

/-- An arm's destroyed list is exactly its BLOCK tiles. -/
theorem armFrom_mem_destroyed (stopB : Bool) (grid : Grid) (cols rows x0 y0 dx dy : ℤ) :
    ∀ fuel s q,
      (q ∈ (armFrom stopB grid cols rows x0 y0 dx dy s fuel).2
      ↔ q ∈ (armFrom stopB grid cols rows x0 y0 dx dy s fuel).1 ∧ grid q.2 q.1 = BLOCK) := by
  intro fuel
  induction fuel with
  | zero =>
    intro s q
    rw [armFrom]
    constructor
    · intro h; exact absurd h (List.not_mem_nil _)
    · rintro ⟨h, -⟩; exact absurd h (List.not_mem_nil _)
  | succ fuel ih =>
    intro s q
    rw [armFrom_succ]
    by_cases hin : inB cols rows (x0 + dx * (s : ℤ)) (y0 + dy * (s : ℤ)) = false
    · rw [if_pos hin]
      constructor
      · intro h; exact absurd h (List.not_mem_nil _)
      · rintro ⟨h, -⟩; exact absurd h (List.not_mem_nil _)
    · rw [if_neg hin]
      by_cases hwall : grid (y0 + dy * (s : ℤ)) (x0 + dx * (s : ℤ)) = WALL
      · rw [if_pos hwall]
        constructor
        · intro h; exact absurd h (List.not_mem_nil _)
        · rintro ⟨h, -⟩; exact absurd h (List.not_mem_nil _)
      · rw [if_neg hwall]
        by_cases hstop : stopB = true ∧ grid (y0 + dy * (s : ℤ)) (x0 + dx * (s : ℤ)) = BLOCK
        · rw [if_pos hstop]
          constructor
          · intro h
            have hq := List.mem_singleton.mp h
            subst hq
            exact ⟨List.mem_singleton.mpr rfl, hstop.2⟩
          · rintro ⟨h, -⟩; exact h
        · rw [if_neg hstop]
          by_cases hblk : grid (y0 + dy * (s : ℤ)) (x0 + dx * (s : ℤ)) = BLOCK
          · rw [if_pos hblk]
            constructor
            · intro h
              rcases List.mem_cons.mp h with h | h
              · subst h
                exact ⟨List.mem_cons.mpr (Or.inl rfl), hblk⟩
              · obtain ⟨h1, h2⟩ := (ih (s+1) q).mp h
                exact ⟨List.mem_cons.mpr (Or.inr h1), h2⟩
            · rintro ⟨h, h2⟩
              rcases List.mem_cons.mp h with h | h
              · exact List.mem_cons.mpr (Or.inl h)
              · exact List.mem_cons.mpr (Or.inr ((ih (s+1) q).mpr ⟨h, h2⟩))
          · rw [if_neg hblk]
            constructor
            · intro h
              obtain ⟨h1, h2⟩ := (ih (s+1) q).mp h
              exact ⟨List.mem_cons.mpr (Or.inr h1), h2⟩
            · rintro ⟨h, h2⟩
              rcases List.mem_cons.mp h with h | h
              · subst h; exact absurd h2 hblk
              · exact (ih (s+1) q).mpr ⟨h, h2⟩

/-- Shared shape of `computeExplosion` and `computeRaygunExplosion`:
origin plus the four arms. -/
def blastKit (stopB : Bool) (grid : Grid) (cols rows x0 y0 : ℤ) (fuel : ℕ) :
    List Pos × List Pos :=
  let up := armFrom stopB grid cols rows x0 y0 0 (-1) 1 fuel
  let down := armFrom stopB grid cols rows x0 y0 0 1 1 fuel
  let left := armFrom stopB grid cols rows x0 y0 (-1) 0 1 fuel
  let right := armFrom stopB grid cols rows x0 y0 1 0 1 fuel
  ((x0, y0) :: (up.1 ++ (down.1 ++ (left.1 ++ right.1))),
   up.2 ++ (down.2 ++ (left.2 ++ right.2)))

theorem computeExplosion_eq_blastKit (grid : Grid) (x0 y0 : ℤ) (power : ℕ)
    (cols rows : ℤ) :
    computeExplosion grid x0 y0 power cols rows
    = blastKit true grid cols rows x0 y0 power := rfl

theorem computeRaygunExplosion_eq_blastKit (grid : Grid) (x0 y0 cols rows : ℤ) :
    computeRaygunExplosion grid x0 y0 cols rows
    = blastKit false grid cols rows x0 y0 ((max cols rows).toNat) := rfl

theorem blastKit_mem_tiles (stopB : Bool) (grid : Grid) (cols rows x0 y0 : ℤ)
    (fuel : ℕ) (q : Pos) :
    q ∈ (blastKit stopB grid cols rows x0 y0 fuel).1
    ↔ q = (x0, y0) ∨ ∃ dx dy j, Dir4 dx dy ∧ 1 ≤ j ∧ j < 1 + fuel
        ∧ q = pAt x0 y0 dx dy j
        ∧ (∀ k, 1 ≤ k → k ≤ j → armStepOK grid cols rows x0 y0 dx dy k)
        ∧ (∀ k, 1 ≤ k → k < j → armStepFree stopB grid x0 y0 dx dy k) := by
  have dup : Dir4 0 (-1) := Or.inl ⟨rfl, rfl⟩
  have ddown : Dir4 0 1 := Or.inr (Or.inl ⟨rfl, rfl⟩)
  have dleft : Dir4 (-1) 0 := Or.inr (Or.inr (Or.inl ⟨rfl, rfl⟩))
  have dright : Dir4 1 0 := Or.inr (Or.inr (Or.inr ⟨rfl, rfl⟩))
  constructor
  · intro h
    rcases List.mem_cons.mp h with h | h
    · exact Or.inl h
    · refine Or.inr ?_
      have harm : ∀ dx dy, Dir4 dx dy →
          q ∈ (armFrom stopB grid cols rows x0 y0 dx dy 1 fuel).1 →
          ∃ dx' dy' j, Dir4 dx' dy' ∧ 1 ≤ j ∧ j < 1 + fuel ∧ q = pAt x0 y0 dx' dy' j
            ∧ (∀ k, 1 ≤ k → k ≤ j → armStepOK grid cols rows x0 y0 dx' dy' k)
            ∧ (∀ k, 1 ≤ k → k < j → armStepFree stopB grid x0 y0 dx' dy' k) := by
        intro dx dy hd hmem
        obtain ⟨m, hm1, hm2, hm3⟩ :=
          armFrom_tiles_shape stopB grid cols rows x0 y0 dx dy fuel 1 q hmem
        subst hm3
        obtain ⟨h1, h2, hok, hfree⟩ := (armFrom_mem stopB grid cols rows x0 y0 dx dy hd fuel 1 m).mp hmem
        exact ⟨dx, dy, m, hd, h1, h2, rfl, hok, hfree⟩
      rcases List.mem_append.mp h with h | h
      · exact harm 0 (-1) dup h
      · rcases List.mem_append.mp h with h | h
        · exact harm 0 1 ddown h
        · rcases List.mem_append.mp h with h | h
          · exact harm (-1) 0 dleft h
          · exact harm 1 0 dright h
  · rintro (h | ⟨dx, dy, j, hd, h1, h2, hq, hok, hfree⟩)
    · exact List.mem_cons.mpr (Or.inl h)
    · subst hq
      have hmem := (armFrom_mem stopB grid cols rows x0 y0 dx dy hd fuel 1 j).mpr
        ⟨h1, h2, fun k hk1 hk2 => hok k hk1 hk2, fun k hk1 hk2 => hfree k hk1 hk2⟩
      refine List.mem_cons.mpr (Or.inr ?_)
      rcases hd with ⟨e1, e2⟩ | ⟨e1, e2⟩ | ⟨e1, e2⟩ | ⟨e1, e2⟩ <;> subst e1 <;> subst e2
      · exact List.mem_append.mpr (Or.inl hmem)
      · exact List.mem_append.mpr (Or.inr (List.mem_append.mpr (Or.inl hmem)))
      · exact List.mem_append.mpr (Or.inr (List.mem_append.mpr (Or.inr
          (List.mem_append.mpr (Or.inl hmem)))))
      · exact List.mem_append.mpr (Or.inr (List.mem_append.mpr (Or.inr
          (List.mem_append.mpr (Or.inr hmem)))))

theorem blastKit_mem_destroyed (stopB : Bool) (grid : Grid) (cols rows x0 y0 : ℤ)
    (fuel : ℕ) (q : Pos) :
    q ∈ (blastKit stopB grid cols rows x0 y0 fuel).2
    ↔ q ≠ (x0, y0) ∧ q ∈ (blastKit stopB grid cols rows x0 y0 fuel).1
      ∧ grid q.2 q.1 = BLOCK := by
  have dup : Dir4 0 (-1) := Or.inl ⟨rfl, rfl⟩
  have ddown : Dir4 0 1 := Or.inr (Or.inl ⟨rfl, rfl⟩)
  have dleft : Dir4 (-1) 0 := Or.inr (Or.inr (Or.inl ⟨rfl, rfl⟩))
  have dright : Dir4 1 0 := Or.inr (Or.inr (Or.inr ⟨rfl, rfl⟩))
  have harm : ∀ dx dy, Dir4 dx dy →
      q ∈ (armFrom stopB grid cols rows x0 y0 dx dy 1 fuel).2 →
      q ≠ (x0, y0) ∧ q ∈ (armFrom stopB grid cols rows x0 y0 dx dy 1 fuel).1
        ∧ grid q.2 q.1 = BLOCK := by
    intro dx dy hd hmem
    obtain ⟨h1, h2⟩ :=
      (armFrom_mem_destroyed stopB grid cols rows x0 y0 dx dy fuel 1 q).mp hmem
    obtain ⟨m, hm1, hm2, hm3⟩ :=
      armFrom_tiles_shape stopB grid cols rows x0 y0 dx dy fuel 1 q h1
    subst hm3
    exact ⟨pAt_ne_origin hd hm1, h1, h2⟩
  constructor
  · intro h
    rcases List.mem_append.mp h with h | h
    · obtain ⟨hne, hmem, hblk⟩ := harm 0 (-1) dup h
      exact ⟨hne, List.mem_cons.mpr (Or.inr (List.mem_append.mpr (Or.inl hmem))), hblk⟩
    · rcases List.mem_append.mp h with h | h
      · obtain ⟨hne, hmem, hblk⟩ := harm 0 1 ddown h
        exact ⟨hne, List.mem_cons.mpr (Or.inr (List.mem_append.mpr (Or.inr
          (List.mem_append.mpr (Or.inl hmem))))), hblk⟩
      · rcases List.mem_append.mp h with h | h
        · obtain ⟨hne, hmem, hblk⟩ := harm (-1) 0 dleft h
          exact ⟨hne, List.mem_cons.mpr (Or.inr (List.mem_append.mpr (Or.inr
            (List.mem_append.mpr (Or.inr (List.mem_append.mpr (Or.inl hmem))))))), hblk⟩
        · obtain ⟨hne, hmem, hblk⟩ := harm 1 0 dright h
          exact ⟨hne, List.mem_cons.mpr (Or.inr (List.mem_append.mpr (Or.inr
            (List.mem_append.mpr (Or.inr (List.mem_append.mpr (Or.inr hmem))))))), hblk⟩
  · rintro ⟨hne, hmem, hblk⟩
    rcases List.mem_cons.mp hmem with h | h
    · exact absurd h hne
    · have toDest : ∀ dx dy, Dir4 dx dy →
          q ∈ (armFrom stopB grid cols rows x0 y0 dx dy 1 fuel).1 →
          q ∈ (armFrom stopB grid cols rows x0 y0 dx dy 1 fuel).2 := by
        intro dx dy hd hm
        exact (armFrom_mem_destroyed stopB grid cols rows x0 y0 dx dy fuel 1 q).mpr ⟨hm, hblk⟩
      rcases List.mem_append.mp h with h | h
      · exact List.mem_append.mpr (Or.inl (toDest 0 (-1) dup h))
      · rcases List.mem_append.mp h with h | h
        · exact List.mem_append.mpr (Or.inr (List.mem_append.mpr (Or.inl
            (toDest 0 1 ddown h))))
        · rcases List.mem_append.mp h with h | h
          · exact List.mem_append.mpr (Or.inr (List.mem_append.mpr (Or.inr
              (List.mem_append.mpr (Or.inl (toDest (-1) 0 dleft h))))))
          · exact List.mem_append.mpr (Or.inr (List.mem_append.mpr (Or.inr
              (List.mem_append.mpr (Or.inr (toDest 1 0 dright h))))))

theorem armFrom_zero (stopB : Bool) (grid : Grid) (cols rows x0 y0 dx dy : ℤ)
    (s : ℕ) : armFrom stopB grid cols rows x0 y0 dx dy s 0 = ([], []) := rfl

/-- A power-2 arm over two in-bounds EMPTY tiles contains exactly those
two tiles and destroys nothing. -/
theorem armFrom_two (grid : Grid) (cols rows x0 y0 dx dy : ℤ)
    (h1b : inB cols rows (x0 + dx * ((1:ℕ) : ℤ)) (y0 + dy * ((1:ℕ) : ℤ)) = true)
    (h1 : grid (y0 + dy * ((1:ℕ) : ℤ)) (x0 + dx * ((1:ℕ) : ℤ)) = EMPTY)
    (h2b : inB cols rows (x0 + dx * ((1+1:ℕ) : ℤ)) (y0 + dy * ((1+1:ℕ) : ℤ)) = true)
    (h2 : grid (y0 + dy * ((1+1:ℕ) : ℤ)) (x0 + dx * ((1+1:ℕ) : ℤ)) = EMPTY) :
    armFrom true grid cols rows x0 y0 dx dy 1 (0+1+1)
    = ([(x0 + dx * ((1:ℕ) : ℤ), y0 + dy * ((1:ℕ) : ℤ)),
        (x0 + dx * ((1+1:ℕ) : ℤ), y0 + dy * ((1+1:ℕ) : ℤ))], []) := by
  rw [armFrom_succ]
  rw [if_neg (by rw [h1b]; simp)]
  rw [if_neg (by rw [h1]; decide)]
  rw [if_neg (by rw [h1]; decide)]
  rw [armFrom_succ]
  rw [if_neg (by rw [h2b]; simp)]
  rw [if_neg (by rw [h2]; decide)]
  rw [if_neg (by rw [h2]; decide)]
  rw [armFrom_zero]
  rw [if_neg (by rw [h2]; decide)]
  rw [if_neg (by rw [h1]; decide)]

/-- C3: the standard bomb blast expands from the origin along the four
cardinal directions up to `power` tiles; a Wall stops expansion and is not
included; a Block is included, appears in the destroyed set, and stops
further expansion in its direction; Empty and powerup tiles are included
and expansion continues; the origin is always included.  On an
all-interior-Empty grid with a power-2 bomb at least two tiles from every
Wall, detonation yields exactly 9 distinct affected tiles and an empty
destroyed set. -/
theorem claim_C3 (grid : Grid) (x0 y0 : ℤ) (power : ℕ) (cols rows : ℤ) :
    ((x0, y0) ∈ (computeExplosion grid x0 y0 power cols rows).1)
    ∧ (∀ q, q ∈ (computeExplosion grid x0 y0 power cols rows).1
        ↔ q = (x0, y0) ∨ ∃ dx dy j, Dir4 dx dy ∧ 1 ≤ j ∧ j ≤ power
            ∧ q = pAt x0 y0 dx dy j
            ∧ (∀ k, 1 ≤ k → k ≤ j → armStepOK grid cols rows x0 y0 dx dy k)
            ∧ (∀ k, 1 ≤ k → k < j →
                grid (y0 + dy * (k : ℤ)) (x0 + dx * (k : ℤ)) ≠ BLOCK))
    ∧ (∀ q, q ∈ (computeExplosion grid x0 y0 power cols rows).2
        ↔ q ≠ (x0, y0) ∧ q ∈ (computeExplosion grid x0 y0 power cols rows).1
            ∧ grid q.2 q.1 = BLOCK)
    ∧ (power = 2 → 3 ≤ x0 → x0 ≤ cols - 4 → 3 ≤ y0 → y0 ≤ rows - 4 →
        (∀ x y : ℤ, 0 < x → x < cols - 1 → 0 < y → y < rows - 1 → grid y x = EMPTY) →
        (computeExplosion grid x0 y0 power cols rows).1.length = 9
        ∧ (computeExplosion grid x0 y0 power cols rows).1.Nodup
        ∧ (computeExplosion grid x0 y0 power cols rows).2 = []) := by
  refine ⟨?_, ?_, ?_, ?_⟩
  · rw [computeExplosion_eq_blastKit]
    exact (blastKit_mem_tiles true grid cols rows x0 y0 power (x0, y0)).mpr (Or.inl rfl)
  · intro q
    rw [computeExplosion_eq_blastKit, blastKit_mem_tiles]
    constructor
    · rintro (h | ⟨dx, dy, j, hd, h1, h2, hq, hok, hfree⟩)
      · exact Or.inl h
      · refine Or.inr ⟨dx, dy, j, hd, h1, by omega, hq, hok, ?_⟩
        intro k hk1 hk2
        have h3 := hfree k hk1 hk2
        simp only [armStepFree, true_and] at h3
        exact h3
    · rintro (h | ⟨dx, dy, j, hd, h1, h2, hq, hok, hfree⟩)
      · exact Or.inl h
      · refine Or.inr ⟨dx, dy, j, hd, h1, by omega, hq, hok, ?_⟩
        intro k hk1 hk2
        simp only [armStepFree, true_and]
        exact hfree k hk1 hk2
  · intro q
    rw [computeExplosion_eq_blastKit]
    exact blastKit_mem_destroyed true grid cols rows x0 y0 power q
  · intro hpow hx1 hx2 hy1 hy2 hint
    subst hpow
    rw [computeExplosion_eq_blastKit]
    have e2 : (2:ℕ) = 0+1+1 := rfl
    rw [e2]
    simp only [blastKit]
    have hup := armFrom_two grid cols rows x0 y0 0 (-1)
      (by rw [inB_iff]; push_cast; omega)
      (by apply hint <;> push_cast <;> omega)
      (by rw [inB_iff]; push_cast; omega)
      (by apply hint <;> push_cast <;> omega)
    have hdown := armFrom_two grid cols rows x0 y0 0 1
      (by rw [inB_iff]; push_cast; omega)
      (by apply hint <;> push_cast <;> omega)
      (by rw [inB_iff]; push_cast; omega)
      (by apply hint <;> push_cast <;> omega)
    have hleft := armFrom_two grid cols rows x0 y0 (-1) 0
      (by rw [inB_iff]; push_cast; omega)
      (by apply hint <;> push_cast <;> omega)
      (by rw [inB_iff]; push_cast; omega)
      (by apply hint <;> push_cast <;> omega)
    have hright := armFrom_two grid cols rows x0 y0 1 0
      (by rw [inB_iff]; push_cast; omega)
      (by apply hint <;> push_cast <;> omega)
      (by rw [inB_iff]; push_cast; omega)
      (by apply hint <;> push_cast <;> omega)
    rw [hup, hdown, hleft, hright]
    refine ⟨by simp, ?_, by simp⟩
    simp only [List.cons_append, List.nil_append, List.nodup_cons, List.mem_cons,
      List.mem_singleton, List.not_mem_nil, List.nodup_nil, Prod.mk.injEq,
      not_or, and_true]
    push_cast
    norm_num

/-- C3 witness: a concrete all-EMPTY 7 by 7 grid with a power-2 bomb at
(3,3) yields 9 distinct tiles and no destroyed blocks. -/
theorem claim_C3_witness :
    (computeExplosion (fun _ _ => EMPTY) 3 3 2 7 7).1.length = 9
    ∧ (computeExplosion (fun _ _ => EMPTY) 3 3 2 7 7).1.Nodup
    ∧ (computeExplosion (fun _ _ => EMPTY) 3 3 2 7 7).2 = [] :=
  (claim_C3 (fun _ _ => EMPTY) 3 3 2 7 7).2.2.2 rfl (by norm_num) (by norm_num)
    (by norm_num) (by norm_num) (fun _ _ _ _ _ _ => rfl)

/-- C9: the raygun blast travels outward in each cardinal direction until
the grid edge or the first Wall; it never includes a tile at or beyond the
first Wall in a direction; every Block in its path before that Wall is in
the destroyed set without halting the beam. -/
theorem claim_C9 (grid : Grid) (x0 y0 cols rows : ℤ) :
    (∀ q, q ∈ (computeRaygunExplosion grid x0 y0 cols rows).1
      ↔ q = (x0, y0) ∨ ∃ (dx dy : ℤ) (j : ℕ), Dir4 dx dy ∧ 1 ≤ j ∧ j ≤ (max cols rows).toNat
          ∧ q = pAt x0 y0 dx dy j
          ∧ (∀ k, 1 ≤ k → k ≤ j → armStepOK grid cols rows x0 y0 dx dy k))
    ∧ (∀ (dx dy : ℤ) (m j : ℕ), Dir4 dx dy → 1 ≤ m → m ≤ j →
        grid (y0 + dy * (m : ℤ)) (x0 + dx * (m : ℤ)) = WALL →
        pAt x0 y0 dx dy j ∉ (computeRaygunExplosion grid x0 y0 cols rows).1)
    ∧ (∀ q, q ∈ (computeRaygunExplosion grid x0 y0 cols rows).2
      ↔ q ≠ (x0, y0) ∧ q ∈ (computeRaygunExplosion grid x0 y0 cols rows).1
          ∧ grid q.2 q.1 = BLOCK) := by
  have hiff : ∀ q, q ∈ (computeRaygunExplosion grid x0 y0 cols rows).1
      ↔ q = (x0, y0) ∨ ∃ (dx dy : ℤ) (j : ℕ), Dir4 dx dy ∧ 1 ≤ j ∧ j ≤ (max cols rows).toNat
          ∧ q = pAt x0 y0 dx dy j
          ∧ (∀ k, 1 ≤ k → k ≤ j → armStepOK grid cols rows x0 y0 dx dy k) := by
    intro q
    rw [computeRaygunExplosion_eq_blastKit, blastKit_mem_tiles]
    constructor
    · rintro (h | ⟨dx, dy, j, hd, h1, h2, hq, hok, -⟩)
      · exact Or.inl h
      · exact Or.inr ⟨dx, dy, j, hd, h1, by omega, hq, hok⟩
    · rintro (h | ⟨dx, dy, j, hd, h1, h2, hq, hok⟩)
      · exact Or.inl h
      · refine Or.inr ⟨dx, dy, j, hd, h1, by omega, hq, hok, ?_⟩
        intro k hk1 hk2
        simp [armStepFree]
  refine ⟨hiff, ?_, ?_⟩
  · intro dx dy m j hd hm1 hmj hwall hmem
    have hj1 : 1 ≤ j := le_trans hm1 hmj
    rcases (hiff (pAt x0 y0 dx dy j)).mp hmem with h | ⟨dx', dy', j', hd', h1, h2, hq, hok⟩
    · exact pAt_ne_origin hd hj1 h
    · obtain ⟨e1, e2, e3⟩ := pAt_cross hd hd' hj1 h1 hq
      subst e1; subst e2; subst e3
      exact (hok m hm1 hmj).2 hwall
  · intro q
    rw [computeRaygunExplosion_eq_blastKit]
    exact blastKit_mem_destroyed false grid cols rows x0 y0 ((max cols rows).toNat) q

/-- C9 witness: on a 5 by 5 grid with a Wall at (3,2), the tile one past
the Wall to the right of the origin (1,2) is not in the raygun blast. -/
theorem claim_C9_witness :
    pAt 1 2 1 0 3 ∉ (computeRaygunExplosion
      (fun y x => if y = 2 ∧ x = 3 then WALL else EMPTY) 1 2 5 5).1 :=
  (claim_C9 (fun y x => if y = 2 ∧ x = 3 then WALL else EMPTY) 1 2 5 5).2.1
    1 0 2 3 (Or.inr (Or.inr (Or.inr ⟨rfl, rfl⟩))) (by decide) (by decide) (by decide)

/-! ### Bot decision engine (bot.js `BotBrain`)

`Math.random` is modelled as an oracle stream `Rng` consumed by index; the
mutable fields of a `BotBrain` instance are an explicit `BotState` record,
and each method that mutates them returns the updated record. -/

abbrev Rng := ℕ → ℚ

/-- One entry of bot.js `DIRS`. -/
structure DirE where
  dx : ℤ
  dy : ℤ
  name : String
deriving DecidableEq

def DIRS : List DirE :=
  [⟨0, -1, "up"⟩, ⟨0, 1, "down"⟩, ⟨-1, 0, "left"⟩, ⟨1, 0, "right"⟩]

/-- A difficulty profile from bot.js `DIFFICULTY`; `chaseRange = none`
encodes the JS `Infinity`. -/
structure BotCfg where
  tickRate : ℤ
  mistakeRate : ℚ
  useBfsForChase : Bool
  useBfsForAttack : Bool
  dangerAwareness : String
  chainAwareness : Bool
  escapeCheck : Bool
  trapLogic : Bool
  chaseEnabled : Bool
  chaseRange : Option ℤ
  bombCooldown : ℤ
  bombChanceNearPlayer : ℚ
  nearPlayerDist : ℤ
  seekPowerups : Bool
deriving DecidableEq

/-- The probabilities 0.20, 0.15, 0.05 as explicit reduced fractions. -/
def q1o5 : ℚ := ⟨1, 5, by decide, by decide⟩

def q3o20 : ℚ := ⟨3, 20, by decide, by decide⟩

def q1o20 : ℚ := ⟨1, 20, by decide, by decide⟩

def easyCfg : BotCfg :=
  ⟨300, q1o5, false, false, "adjacent", false, true, false, false, none, 3500, q1o5, 2, false⟩

def mediumCfg : BotCfg :=
  ⟨200, q3o20, true, true, "full", false, true, false, true, some 5, 2500, 1, 0, true⟩

def hardCfg : BotCfg :=
  ⟨150, q1o20, true, true, "full", true, true, true, true, none, 2000, 1, 0, true⟩

/-- bot.js `DIFFICULTY[difficulty] || DIFFICULTY.medium`. -/
def DIFFICULTY (d : String) : BotCfg :=
  if d = "easy" then easyCfg
  else if d = "medium" then mediumCfg
  else if d = "hard" then hardCfg
  else mediumCfg

/-- A combatant record (PlayerState / NPCState share these fields). -/
structure Ent where
  x : ℤ
  y : ℤ
  alive : Bool
  bombsAvailable : ℤ
  power : ℕ
  playerIndex : ℕ
  powerupType : ℕ
  powerupUses : ℤ
  hasShield : Bool
  facing : String
  lives : ℤ
  kills : ℤ
  respawnAt : ℤ
  spawnX : ℤ
  spawnY : ℤ
  invincibleUntil : ℤ
  difficulty : String
  npcIndex : ℕ
deriving DecidableEq

/-- A live bomb record (BombState). -/
structure BombRec where
  x : ℤ
  y : ℤ
  ownerId : String
  explodeAt : ℤ
deriving DecidableEq

/-- One element of the `alivePlayers` array handed to the bots. -/
structure PInfo where
  x : ℤ
  y : ℤ
  id : String
deriving DecidableEq

inductive Action where
  | move (dir : String)
  | bomb
  | fire (dir : String)
deriving DecidableEq

def actDir : Action → Option String
  | Action.move d => some d
  | _ => none

/-- The mutable fields of a `BotBrain` instance. -/
structure BotState where
  npcId : String
  config : BotCfg
  cols : ℤ
  rows : ℤ
  elapsed : ℤ
  lastBombTime : ℤ
  lastDir : Option String
  commitTicks : ℤ
  fleeBombPos : Option Pos
deriving DecidableEq

/-- The `BotBrain` constructor. -/
def mkBotBrain (npcId : String) (difficulty : String) (cols rows : ℤ) : BotState :=
  ⟨npcId, DIFFICULTY difficulty, cols, rows, 0, 0, none, 0, none⟩

def manhattanDist (ax ay bx yb : ℤ) : ℤ := |ax - bx| + |ay - yb|

def isPassable (tile : ℕ) : Bool := decide (tile ≠ WALL ∧ tile ≠ BLOCK)

/-- bot.js `buildBombSet` (a JS `Set` of position keys). -/
def buildBombSet (bombs : List BombRec) : Finset Pos :=
  bombs.foldl (fun st b => insert (b.x, b.y) st) ∅

def listSwap {α : Type} (l : List α) (i j : ℕ) : List α :=
  match l.get? i, l.get? j with
  | some a, some b => (l.set i b).set j a
  | _, _ => l

/-- Fisher-Yates `shuffle`, consuming one oracle draw per swap. -/
def shuffleAux {α : Type} (rng : Rng) : ℕ → List α → ℕ → List α × ℕ
  | 0, arr, ri => (arr, ri)
  | i+1, arr, ri =>
    let j := (⌊rng ri * ((i+1+1 : ℕ) : ℚ)⌋).toNat
    shuffleAux rng i (listSwap arr (i+1) j) (ri+1)

def shuffle {α : Type} (rng : Rng) (ri : ℕ) (arr : List α) : List α × ℕ :=
  shuffleAux rng (arr.length - 1) arr ri

/-- `BotBrain.getExplosionTiles`. -/
def getExplosionTiles (s : BotState) (grid : Grid) (bx yb : ℤ)
    (powerupType : ℕ) (power : ℕ) : List Pos × List Pos :=
  if powerupType = 1 then computeFlamethrowerExplosion grid bx yb s.cols s.rows
  else if powerupType = 2 then computeRaygunExplosion grid bx yb s.cols s.rows
  else computeExplosion grid bx yb power s.cols s.rows

/-! #### Danger map (`BotBrain.buildDangerMap`) -/

/-- An entry of the local `bombList` (power is always DEFAULT_POWER). -/
structure DBomb where
  x : ℤ
  y : ℤ
  explodeAt : ℤ
  power : ℕ
deriving DecidableEq

def dangerBombList (bombs : List BombRec) : List DBomb :=
  bombs.map (fun b => ⟨b.x, b.y, b.explodeAt, DEFAULT_POWER⟩)

/-- One `(bombA, bombB)` check of the chain-awareness pass: if bombA's
blast covers bombB, lower bombB's time to the minimum.  (The blast depends
only on bombA's fixed position, so recomputing it per pair is the same as
the JS hoisting per outer iteration.) -/
def chainStep (grid : Grid) (cols rows : ℤ) (l : List DBomb) (a b : ℕ) :
    List DBomb × Bool :=
  match l.get? a, l.get? b with
  | some ba, some bb =>
    if a = b then (l, false)
    else
      let blastA := (computeExplosion grid ba.x ba.y ba.power cols rows).1
      if (bb.x, bb.y) ∈ blastA then
        let earlier := min ba.explodeAt bb.explodeAt
        if earlier < bb.explodeAt then
          (l.set b { bb with explodeAt := earlier }, true)
        else (l, false)
      else (l, false)
  | _, _ => (l, false)

def pairSeq (n : ℕ) : List (ℕ × ℕ) :=
  (List.range n).foldr (fun a acc => ((List.range n).map (fun b => (a, b))) ++ acc) []

/-- One full pass of the chain-awareness `while (changed)` loop. -/
def chainPass (grid : Grid) (cols rows : ℤ) (l : List DBomb) : List DBomb × Bool :=
  (pairSeq l.length).foldl
    (fun st ab =>
      let r := chainStep grid cols rows st.1 ab.1 ab.2
      (r.1, st.2 || r.2))
    (l, false)

/-- The `while (changed)` loop, with fuel (it stabilizes within
`n * n + 1` passes). -/
def chainIter (grid : Grid) (cols rows : ℤ) : ℕ → List DBomb → List DBomb
  | 0, l => l
  | fuel+1, l =>
    let r := chainPass grid cols rows l
    if r.2 then chainIter grid cols rows fuel r.1 else r.1

/-- `BotBrain.buildDangerMap` as a function from tile (read `dm y x`) to
the earliest unsafe timestamp, `none` when safe. -/
def buildDangerMap (cfg : BotCfg) (cols rows : ℤ) (grid : Grid)
    (bombs : List BombRec) : ℤ → ℤ → Option ℤ :=
  let bombList := dangerBombList bombs
  let bombList2 :=
    if cfg.chainAwareness then
      chainIter grid cols rows (bombList.length * bombList.length + 1) bombList
    else bombList
  bombList2.foldl
    (fun dm b =>
      let tiles := (computeExplosion grid b.x b.y b.power cols rows).1
      tiles.foldl
        (fun dm2 t =>
          fun y x =>
            if y = t.2 ∧ x = t.1 then
              match dm2 t.2 t.1 with
              | none => some b.explodeAt
              | some v => if v > b.explodeAt then some b.explodeAt else some v
            else dm2 y x)
        dm)
    (fun _ _ => none)

/-! #### BFS (`BotBrain.bfs`) and flood fill (`BotBrain.bfsFlood`) -/

structure BStep where
  x : ℤ
  y : ℤ
  dir : String
deriving DecidableEq

structure BNode where
  x : ℤ
  y : ℤ
  firstStep : Option BStep
deriving DecidableEq

/-- The `while (queue.length > 0)` loop of `BotBrain.bfs`.  The JS `Set`
of visited keys is a `Finset Pos`; each iteration pops the queue head and
enqueues unvisited passable non-bomb neighbours in `DIRS` order. -/
def bfsAux (cols rows : ℤ) (grid : Grid) (bombSet : Finset Pos)
    (goal : ℤ → ℤ → Bool) : ℕ → Finset Pos → List BNode → Option BStep
  | _, _, [] => none
  | 0, _, _ :: _ => none
  | fuel+1, visited, cur :: queue =>
    if cur.firstStep ≠ none ∧ goal cur.x cur.y = true then cur.firstStep
    else
      let st := DIRS.foldl
        (fun (st : Finset Pos × List BNode) d =>
          let nx := cur.x + d.dx
          let ny := cur.y + d.dy
          if inB cols rows nx ny = true ∧ (nx, ny) ∉ st.1
             ∧ isPassable (grid ny nx) = true ∧ (nx, ny) ∉ bombSet then
            (insert (nx, ny) st.1,
             st.2 ++ [⟨nx, ny, some (cur.firstStep.getD ⟨nx, ny, d.name⟩)⟩])
          else st)
        (visited, queue)
      bfsAux cols rows grid bombSet goal fuel st.1 st.2

/-- `BotBrain.bfs`; the fuel `cols * rows + 1` bounds the number of loop
iterations (each iteration pops one node, and at most `cols * rows` cells
are ever enqueued after the start). -/
def botBfs (s : BotState) (grid : Grid) (startX startY : ℤ)
    (bombs : List BombRec) (goal : ℤ → ℤ → Bool) : Option BStep :=
  bfsAux s.cols s.rows grid (buildBombSet bombs) goal
    (s.cols.toNat * s.rows.toNat + 1) {(startX, startY)} [⟨startX, startY, none⟩]

/-- The loop of `BotBrain.bfsFlood`; the JS `Map` keeps insertion order,
so it is a list of (position, distance) pairs. -/
def bfsFloodAux (cols rows : ℤ) (grid : Grid) (bombSet : Finset Pos)
    (excl : Option Pos) : ℕ → List (Pos × ℕ) → List (Pos × ℕ) → List (Pos × ℕ)
  | _, visited, [] => visited
  | 0, visited, _ :: _ => visited
  | fuel+1, visited, cur :: queue =>
    let st := DIRS.foldl
      (fun (st : List (Pos × ℕ) × List (Pos × ℕ)) d =>
        let nx := cur.1.1 + d.dx
        let ny := cur.1.2 + d.dy
        if inB cols rows nx ny = true ∧ (st.1.all (fun e => !decide (e.1 = (nx, ny)))) = true
           ∧ isPassable (grid ny nx) = true
           ∧ ¬ excl = some (nx, ny)
           ∧ ¬ ((nx, ny) ∈ bombSet ∧ ¬ excl = some (nx, ny)) then
          (st.1 ++ [((nx, ny), cur.2 + 1)], st.2 ++ [((nx, ny), cur.2 + 1)])
        else st)
      (visited, queue)
    bfsFloodAux cols rows grid bombSet excl fuel st.1 st.2

def bfsFlood (s : BotState) (grid : Grid) (startX startY : ℤ)
    (bombs : List BombRec) (excl : Option Pos) : List (Pos × ℕ) :=
  bfsFloodAux s.cols s.rows grid (buildBombSet bombs) excl
    (s.cols.toNat * s.rows.toNat + 1) [((startX, startY), 0)] [((startX, startY), 0)]

/-- `BotBrain.canEscapeAfterBomb`: some blast-free tile is reachable
(excluding the hypothetical bomb's own tile) in time
`(dist + 1) * tickRate < BOMB_FUSE`. -/
def canEscapeAfterBomb (s : BotState) (npc : Ent) (grid : Grid)
    (bombs : List BombRec) (bx yb : ℤ) : Bool :=
  let blastTiles := (getExplosionTiles s grid bx yb npc.powerupType npc.power).1
  let blastSet : Finset Pos := blastTiles.foldl (fun st t => insert t st) ∅
  let reachable := bfsFlood s grid npc.x npc.y bombs (some (bx, yb))
  reachable.any (fun e =>
    if e.1 ∉ blastSet then
      decide (((e.2 : ℤ) + 1) * s.config.tickRate < BOMB_FUSE)
    else false)

/-- `BotBrain.scoreTrapPlacement`. -/
def scoreTrapPlacement (s : BotState) (grid : Grid) (bombs : List BombRec)
    (bx yb : ℤ) (npc : Ent) (alivePlayers : List PInfo) : ℤ :=
  let blastTiles := (getExplosionTiles s grid bx yb npc.powerupType npc.power).1
  let blastSet : Finset Pos := blastTiles.foldl (fun st t => insert t st) ∅
  alivePlayers.foldl
    (fun score p =>
      let reachable := bfsFlood s grid p.x p.y bombs none
      let safe := (reachable.filter
        (fun e => e.1 ∉ blastSet ∧ (e.2 : ℤ) * 120 < BOMB_FUSE)).length
      let score2 := score +
        (if safe = 0 then 100 else if safe ≤ 2 then 50 else if safe ≤ 5 then 20 else 0)
      score2 + (if (p.x, p.y) ∈ blastSet then 30 else 0))
    0

/-- `BotBrain.prioritySurvive`. -/
def prioritySurvive (s : BotState) (npc : Ent) (grid : Grid)
    (bombs : List BombRec) (dm : ℤ → ℤ → Option ℤ) : Option Action :=
  let myDanger := dm npc.y npc.x
  let proceed : Bool :=
    if s.config.dangerAwareness = "adjacent" then
      if myDanger = none then
        DIRS.any (fun d =>
          decide (inB s.cols s.rows (npc.x + d.dx) (npc.y + d.dy) = true
            ∧ dm (npc.y + d.dy) (npc.x + d.dx) ≠ none))
      else true
    else decide (myDanger ≠ none)
  if proceed then
    match botBfs s grid npc.x npc.y bombs (fun x y => decide (dm y x = none)) with
    | some step => some (Action.move step.dir)
    | none => none
  else none

def firstSome {α β : Type} : List α → (α → Option β) → Option β
  | [], _ => none
  | a :: rest, f =>
    match f a with
    | some b => some b
    | none => firstSome rest f

/-- `BotBrain.tryWeaponFire`. -/
def tryWeaponFire (s : BotState) (npc : Ent) (grid : Grid)
    (alivePlayers : List PInfo) : Option Action :=
  if npc.powerupType = 0 ∨ npc.powerupUses ≤ 0 then none
  else
    firstSome ["up", "down", "left", "right"] (fun dir =>
      let result : Option (List Pos × List Pos) :=
        if npc.powerupType = 1 then
          some (computeFlamethrowerShot grid npc.x npc.y dir s.cols s.rows)
        else if npc.powerupType = 2 then
          some (computeRaygunShot grid npc.x npc.y dir s.cols s.rows)
        else none
      match result with
      | none => none
      | some r =>
        if alivePlayers.any (fun p => r.1.any (fun t => decide (t.1 = p.x ∧ t.2 = p.y)))
        then some (Action.fire dir) else none)

/-- `BotBrain.priorityAttack` (also returns the updated brain state). -/
def priorityAttack (s : BotState) (npc : Ent) (grid : Grid)
    (bombs : List BombRec) (alivePlayers : List PInfo)
    (dm : ℤ → ℤ → Option ℤ) (now : ℤ) : Option Action × BotState :=
  match tryWeaponFire s npc grid alivePlayers with
  | some a => (some a, s)
  | none =>
    if now - s.lastBombTime < s.config.bombCooldown then (none, s)
    else if npc.bombsAvailable ≤ 0 then (none, s)
    else
      let blastTiles := (getExplosionTiles s grid npc.x npc.y npc.powerupType npc.power).1
      let hitsPlayer :=
        alivePlayers.any (fun p => blastTiles.any (fun t => decide (t.1 = p.x ∧ t.2 = p.y)))
      if hitsPlayer = false then (none, s)
      else if s.config.escapeCheck = true
              ∧ canEscapeAfterBomb s npc grid bombs npc.x npc.y = false then (none, s)
      else if s.config.trapLogic = true
              ∧ scoreTrapPlacement s grid bombs npc.x npc.y npc alivePlayers < 10 then (none, s)
      else (some Action.bomb,
            { s with lastBombTime := now, fleeBombPos := some (npc.x, npc.y),
                     commitTicks := 0 })

/-- The player loop of `BotBrain.easyBombLogic`, consuming one oracle draw
per player within `nearPlayerDist`. -/
def easyBombLoop (s : BotState) (npc : Ent) (now : ℤ) (rng : Rng) :
    List PInfo → ℕ → Option Action × BotState × ℕ
  | [], ri => (none, s, ri)
  | p :: rest, ri =>
    if manhattanDist npc.x npc.y p.x p.y ≤ s.config.nearPlayerDist then
      if rng ri < s.config.bombChanceNearPlayer then
        (some Action.bomb,
         { s with lastBombTime := now, fleeBombPos := some (npc.x, npc.y) }, ri + 1)
      else easyBombLoop s npc now rng rest (ri + 1)
    else easyBombLoop s npc now rng rest ri

/-- `BotBrain.easyBombLogic`. -/
def easyBombLogic (s : BotState) (npc : Ent) (alivePlayers : List PInfo)
    (now : ℤ) (rng : Rng) (ri : ℕ) : Option Action × BotState × ℕ :=
  if now - s.lastBombTime < s.config.bombCooldown then (none, s, ri)
  else if npc.bombsAvailable ≤ 0 then (none, s, ri)
  else easyBombLoop s npc now rng alivePlayers ri

/-- `BotBrain.prioritySeekPowerup`. -/
def prioritySeekPowerup (s : BotState) (npc : Ent) (grid : Grid)
    (bombs : List BombRec) (dm : ℤ → ℤ → Option ℤ) : Option Action × BotState :=
  match botBfs s grid npc.x npc.y bombs
      (fun x y => decide (3 ≤ grid y x ∧ grid y x ≤ 5)) with
  | some st =>
    if dm st.y st.x = none then
      (some (Action.move st.dir), { s with lastDir := some st.dir, commitTicks := 2 })
    else (none, s)
  | none => (none, s)

/-- The nearest-player fold shared by `priorityChase` and `priorityClear`. -/
def nearestOf (npc : Ent) (ps : List PInfo) : Option (PInfo × ℤ) :=
  ps.foldl
    (fun acc p =>
      let d := manhattanDist npc.x npc.y p.x p.y
      match acc with
      | none => some (p, d)
      | some (q, dq) => if d < dq then some (p, d) else some (q, dq))
    none

/-- `nearestDist > chaseRange`, with `none` as Infinity. -/
def gtRange (d : ℤ) : Option ℤ → Bool
  | none => false
  | some r => decide (d > r)

/-- `BotBrain.priorityChase`. -/
def priorityChase (s : BotState) (npc : Ent) (grid : Grid)
    (bombs : List BombRec) (alivePlayers : List PInfo)
    (dm : ℤ → ℤ → Option ℤ) : Option Action × BotState :=
  match nearestOf npc alivePlayers with
  | none => (none, s)
  | some (p, d) =>
    if gtRange d s.config.chaseRange = true then (none, s)
    else
      match botBfs s grid npc.x npc.y bombs (fun x y => decide (x = p.x ∧ y = p.y)) with
      | some st =>
        if dm st.y st.x = none then
          (some (Action.move st.dir), { s with lastDir := some st.dir, commitTicks := 2 })
        else (none, s)
      | none => (none, s)

/-- `BotBrain.priorityClear`.  (The JS method computes a nearest player
but never uses it; that computation is pure and is dropped here.) -/
def priorityClear (s : BotState) (npc : Ent) (grid : Grid)
    (bombs : List BombRec) (alivePlayers : List PInfo)
    (dm : ℤ → ℤ → Option ℤ) (now : ℤ) : Option Action × BotState :=
  let hasAdjacentBlock := DIRS.any (fun d =>
    decide (inB s.cols s.rows (npc.x + d.dx) (npc.y + d.dy) = true
      ∧ grid (npc.y + d.dy) (npc.x + d.dx) = BLOCK))
  let bfsPart : Option Action × BotState :=
    match botBfs s grid npc.x npc.y bombs
        (fun x y => DIRS.any (fun d =>
          decide (inB s.cols s.rows (x + d.dx) (y + d.dy) = true
            ∧ grid (y + d.dy) (x + d.dx) = BLOCK))) with
    | some st =>
      if dm st.y st.x = none then
        (some (Action.move st.dir), { s with lastDir := some st.dir, commitTicks := 2 })
      else (none, s)
    | none => (none, s)
  if hasAdjacentBlock = true ∧ 0 < npc.bombsAvailable
     ∧ s.config.bombCooldown ≤ now - s.lastBombTime then
    if s.config.escapeCheck = false
       ∨ canEscapeAfterBomb s npc grid bombs npc.x npc.y = true then
      (some Action.bomb,
       { s with lastBombTime := now, fleeBombPos := some (npc.x, npc.y),
                commitTicks := 0 })
    else bfsPart
  else bfsPart

/-- The direction loop of `BotBrain.randomMove`, with the reverse of the
last direction kept only as a fallback. -/
def randomMoveLoop (cols rows : ℤ) (grid : Grid) (bombSet : Finset Pos)
    (npc : Ent) (reverseDir : Option String) :
    List DirE → Option Action → Option Action
  | [], fallback => fallback
  | d :: rest, fallback =>
    let nx := npc.x + d.dx
    let ny := npc.y + d.dy
    if inB cols rows nx ny = false then
      randomMoveLoop cols rows grid bombSet npc reverseDir rest fallback
    else if isPassable (grid ny nx) = false then
      randomMoveLoop cols rows grid bombSet npc reverseDir rest fallback
    else if (nx, ny) ∈ bombSet then
      randomMoveLoop cols rows grid bombSet npc reverseDir rest fallback
    else if reverseDir = some d.name then
      randomMoveLoop cols rows grid bombSet npc reverseDir rest (some (Action.move d.name))
    else some (Action.move d.name)

/-- `BotBrain.randomMove` (shuffles `DIRS`, consuming oracle draws). -/
def randomMove (s : BotState) (npc : Ent) (grid : Grid)
    (bombs : List BombRec) (rng : Rng) (ri : ℕ) : Option Action × ℕ :=
  let bombSet := buildBombSet bombs
  let sh := shuffle rng ri DIRS
  let reverseDir : Option String :=
    match s.lastDir with
    | some "up" => some "down"
    | some "down" => some "up"
    | some "left" => some "right"
    | some "right" => some "left"
    | _ => none
  (randomMoveLoop s.cols s.rows grid bombSet npc reverseDir sh.1 none, sh.2)

/-! #### `BotBrain.update`, split into its sequential stages -/

/-- Priority 4 (Clear) and the final random-move fallback of
`BotBrain.update`. -/
def updateClearStage (s : BotState) (npc : Ent) (grid : Grid)
    (bombs : List BombRec) (alivePlayers : List PInfo)
    (dm : ℤ → ℤ → Option ℤ) (now : ℤ) (rng : Rng) (ri : ℕ) :
    Option Action × BotState × ℕ :=
  let r := priorityClear s npc grid bombs alivePlayers dm now
  match r.1 with
  | some a => (some a, r.2, ri)
  | none =>
    let r2 := randomMove r.2 npc grid bombs rng ri
    match r2.1 with
    | some a => (some a, { r.2 with lastDir := actDir a }, r2.2)
    | none => (none, r.2, r2.2)

/-- Priority 3 (Chase, when enabled) of `BotBrain.update`. -/
def updateChaseStage (s : BotState) (npc : Ent) (grid : Grid)
    (bombs : List BombRec) (alivePlayers : List PInfo)
    (dm : ℤ → ℤ → Option ℤ) (now : ℤ) (rng : Rng) (ri : ℕ) :
    Option Action × BotState × ℕ :=
  let r := if s.config.chaseEnabled then priorityChase s npc grid bombs alivePlayers dm
           else (none, s)
  match r.1 with
  | some a => (some a, r.2, ri)
  | none => updateClearStage r.2 npc grid bombs alivePlayers dm now rng ri

/-- Priority 2.5 (Seek Powerups, when enabled) of `BotBrain.update`. -/
def updateSeekStage (s : BotState) (npc : Ent) (grid : Grid)
    (bombs : List BombRec) (alivePlayers : List PInfo)
    (dm : ℤ → ℤ → Option ℤ) (now : ℤ) (rng : Rng) (ri : ℕ) :
    Option Action × BotState × ℕ :=
  let r := if s.config.seekPowerups then prioritySeekPowerup s npc grid bombs dm
           else (none, s)
  match r.1 with
  | some a => (some a, r.2, ri)
  | none => updateChaseStage r.2 npc grid bombs alivePlayers dm now rng ri

/-- Priorities 2..4 and the final fallback of `BotBrain.update` (the part
after the mistake roll): BFS attack (or the easy bomb logic), then seek,
chase, clear, random. -/
def updatePriorities (s : BotState) (npc : Ent) (grid : Grid)
    (bombs : List BombRec) (alivePlayers : List PInfo)
    (dm : ℤ → ℤ → Option ℤ) (now : ℤ) (rng : Rng) (ri : ℕ) :
    Option Action × BotState × ℕ :=
  let r : Option Action × BotState × ℕ :=
    if s.config.useBfsForAttack then
      let r0 := priorityAttack s npc grid bombs alivePlayers dm now
      (r0.1, r0.2, ri)
    else easyBombLogic s npc alivePlayers now rng ri
  match r.1 with
  | some a => (some a, r.2.1, r.2.2)
  | none => updateSeekStage r.2.1 npc grid bombs alivePlayers dm now rng r.2.2

/-- The mistake roll of `BotBrain.update` (one oracle draw), then the
priority chain. -/
def updateMistake (s : BotState) (npc : Ent) (grid : Grid)
    (bombs : List BombRec) (alivePlayers : List PInfo)
    (dm : ℤ → ℤ → Option ℤ) (now : ℤ) (rng : Rng) (ri : ℕ) :
    Option Action × BotState × ℕ :=
  if rng ri < s.config.mistakeRate then
    let r := randomMove s npc grid bombs rng (ri + 1)
    match r.1 with
    | some a => (some a, { s with lastDir := actDir a }, r.2)
    | none => (none, s, r.2)
  else updatePriorities s npc grid bombs alivePlayers dm now rng (ri + 1)

/-- The direction-commitment window of `BotBrain.update`. -/
def updateCommit (s : BotState) (npc : Ent) (grid : Grid)
    (bombs : List BombRec) (alivePlayers : List PInfo)
    (dm : ℤ → ℤ → Option ℤ) (now : ℤ) (rng : Rng) (ri : ℕ) :
    Option Action × BotState × ℕ :=
  if 0 < s.commitTicks ∧ s.lastDir ≠ none then
    let s1 := { s with commitTicks := s.commitTicks - 1 }
    match DIRS.find? (fun d => decide (some d.name = s1.lastDir)) with
    | some d =>
      let nx := npc.x + d.dx
      let ny := npc.y + d.dy
      let bombSet := buildBombSet bombs
      if inB s1.cols s1.rows nx ny = true ∧ isPassable (grid ny nx) = true
         ∧ (nx, ny) ∉ bombSet ∧ dm ny nx = none then
        (some (Action.move d.name), s1, ri)
      else updateMistake { s1 with commitTicks := 0 } npc grid bombs alivePlayers dm now rng ri
    | none => updateMistake { s1 with commitTicks := 0 } npc grid bombs alivePlayers dm now rng ri
  else updateMistake s npc grid bombs alivePlayers dm now rng ri

/-- The post-bomb flee stage of `BotBrain.update`. -/
def updateFlee (s : BotState) (npc : Ent) (grid : Grid)
    (bombs : List BombRec) (alivePlayers : List PInfo)
    (dm : ℤ → ℤ → Option ℤ) (now : ℤ) (rng : Rng) (ri : ℕ) :
    Option Action × BotState × ℕ :=
  match s.fleeBombPos with
  | some fp =>
    if manhattanDist npc.x npc.y fp.1 fp.2 ≤ 2 then
      match botBfs s grid npc.x npc.y bombs
          (fun x y => decide (dm y x = none ∧ 2 < manhattanDist x y fp.1 fp.2)) with
      | some st => (some (Action.move st.dir), { s with lastDir := some st.dir }, ri)
      | none =>
        updateCommit { s with fleeBombPos := none } npc grid bombs alivePlayers dm now rng ri
    else updateCommit { s with fleeBombPos := none } npc grid bombs alivePlayers dm now rng ri
  | none => updateCommit s npc grid bombs alivePlayers dm now rng ri

/-- `BotBrain.update`: tick gate, alive gate, danger map, then Survive
first, then the flee / commitment / mistake / priority stages. -/
def botUpdate (s : BotState) (dt : ℤ) (npc : Ent) (grid : Grid)
    (bombs : List BombRec) (alivePlayers : List PInfo) (now : ℤ)
    (rng : Rng) (ri : ℕ) : Option Action × BotState × ℕ :=
  let s0 := { s with elapsed := s.elapsed + dt }
  if s0.elapsed < s0.config.tickRate then (none, s0, ri)
  else
    let s1 := { s0 with
      elapsed := min (s0.elapsed - s0.config.tickRate) (s0.config.tickRate * 2) }
    if npc.alive = false then (none, s1, ri)
    else
      let dm := buildDangerMap s1.config s1.cols s1.rows grid bombs
      match prioritySurvive s1 npc grid bombs dm with
      | some a =>
        (some a, { s1 with lastDir := actDir a, commitTicks := 0, fleeBombPos := none }, ri)
      | none => updateFlee s1 npc grid bombs alivePlayers dm now rng ri

/-! ### C8: Survive runs first and is never replaced by the mistake roll -/

theorem prioritySurvive_fires (s : BotState) (npc : Ent) (grid : Grid)
    (bombs : List BombRec) (dm : ℤ → ℤ → Option ℤ) (step : BStep)
    (hhaz : dm npc.y npc.x ≠ none
      ∨ (s.config.dangerAwareness = "adjacent"
         ∧ DIRS.any (fun d =>
             decide (inB s.cols s.rows (npc.x + d.dx) (npc.y + d.dy) = true
               ∧ dm (npc.y + d.dy) (npc.x + d.dx) ≠ none)) = true))
    (hstep : botBfs s grid npc.x npc.y bombs (fun x y => decide (dm y x = none))
      = some step) :
    prioritySurvive s npc grid bombs dm = some (Action.move step.dir) := by
  dsimp only [prioritySurvive]
  by_cases hadj : s.config.dangerAwareness = "adjacent"
  · rw [if_pos hadj]
    by_cases hmd : dm npc.y npc.x = none
    · rw [if_pos hmd]
      have hany : DIRS.any (fun d =>
          decide (inB s.cols s.rows (npc.x + d.dx) (npc.y + d.dy) = true
            ∧ dm (npc.y + d.dy) (npc.x + d.dx) ≠ none)) = true := by
        rcases hhaz with h | ⟨-, h⟩
        · exact absurd hmd h
        · exact h
      rw [if_pos hany, hstep]
    · rw [if_neg hmd]
      rw [if_pos rfl, hstep]
  · rw [if_neg hadj]
    have hne : dm npc.y npc.x ≠ none := by
      rcases hhaz with h | ⟨hc, -⟩
      · exact h
      · exact absurd hc hadj
    rw [if_pos (by simpa using hne), hstep]

/-- C8: on every decision tick (the tick interval has elapsed and the bot
is alive), if the bot's tile — or, under adjacent-only awareness, a tile
adjacent to it — carries a hazard stamp and the BFS toward a stamp-free
tile returns a step, the emitted action is exactly that one-step move,
regardless of the oracle (so the mistake roll never replaces it) and ahead
of every other priority. -/
theorem claim_C8 (s : BotState) (dt : ℤ) (npc : Ent) (grid : Grid)
    (bombs : List BombRec) (alivePlayers : List PInfo) (now : ℤ)
    (rng : Rng) (ri : ℕ) (step : BStep)
    (htick : s.config.tickRate ≤ s.elapsed + dt)
    (halive : npc.alive = true)
    (hhaz : buildDangerMap s.config s.cols s.rows grid bombs npc.y npc.x ≠ none
      ∨ (s.config.dangerAwareness = "adjacent"
         ∧ DIRS.any (fun d =>
             decide (inB s.cols s.rows (npc.x + d.dx) (npc.y + d.dy) = true
               ∧ buildDangerMap s.config s.cols s.rows grid bombs
                   (npc.y + d.dy) (npc.x + d.dx) ≠ none)) = true))
    (hstep : botBfs s grid npc.x npc.y bombs
      (fun x y => decide (buildDangerMap s.config s.cols s.rows grid bombs y x = none))
      = some step) :
    (botUpdate s dt npc grid bombs alivePlayers now rng ri).1
    = some (Action.move step.dir) := by
  dsimp only [botUpdate]
  rw [if_neg (not_lt.mpr htick)]
  rw [if_neg (by simp [halive])]
  have hfire := prioritySurvive_fires
    { s with elapsed := min (s.elapsed + dt - s.config.tickRate) (s.config.tickRate * 2) }
    npc grid bombs (buildDangerMap s.config s.cols s.rows grid bombs) step hhaz hstep
  rw [hfire]

/-! ### C1: the escape-route gate on bomb placement -/

theorem canEscapeAfterBomb_eq_of (s t : BotState) (npc : Ent) (grid : Grid)
    (bombs : List BombRec) (bx yb : ℤ) (h1 : s.config = t.config)
    (h2 : s.cols = t.cols) (h3 : s.rows = t.rows) :
    canEscapeAfterBomb s npc grid bombs bx yb
    = canEscapeAfterBomb t npc grid bombs bx yb := by
  unfold canEscapeAfterBomb getExplosionTiles bfsFlood
  rw [h1, h2, h3]

theorem canEscapeAfterBomb_false_transport (s t : BotState) (npc : Ent)
    (grid : Grid) (bombs : List BombRec) (h1 : t.config = s.config)
    (h2 : t.cols = s.cols) (h3 : t.rows = s.rows)
    (hno : canEscapeAfterBomb s npc grid bombs npc.x npc.y = false) :
    canEscapeAfterBomb t npc grid bombs npc.x npc.y = false := by
  rw [canEscapeAfterBomb_eq_of t s npc grid bombs npc.x npc.y h1 h2 h3]
  exact hno

theorem prioritySurvive_not_bomb (s : BotState) (npc : Ent) (grid : Grid)
    (bombs : List BombRec) (dm : ℤ → ℤ → Option ℤ) :
    prioritySurvive s npc grid bombs dm ≠ some Action.bomb := by
  dsimp only [prioritySurvive]
  repeat' split
  all_goals simp

theorem firstSome_not_bomb {α : Type} (l : List α) (f : α → Option Action)
    (hf : ∀ a, f a ≠ some Action.bomb) : firstSome l f ≠ some Action.bomb := by
  induction l with
  | nil => simp [firstSome]
  | cons a rest ih =>
    dsimp only [firstSome]
    split
    · rename_i b hb
      intro hc
      simp only [Option.some.injEq] at hc
      rw [hc] at hb
      exact hf a hb
    · exact ih

theorem tryWeaponFire_not_bomb (s : BotState) (npc : Ent) (grid : Grid)
    (alivePlayers : List PInfo) :
    tryWeaponFire s npc grid alivePlayers ≠ some Action.bomb := by
  dsimp only [tryWeaponFire]
  split
  · simp
  · refine firstSome_not_bomb _ _ ?_
    intro dir
    repeat' split
    all_goals simp

theorem randomMoveLoop_not_bomb (cols rows : ℤ) (grid : Grid)
    (bombSet : Finset Pos) (npc : Ent) (reverseDir : Option String) :
    ∀ (l : List DirE) (fb : Option Action), fb ≠ some Action.bomb →
      randomMoveLoop cols rows grid bombSet npc reverseDir l fb ≠ some Action.bomb := by
  intro l
  induction l with
  | nil => intro fb hfb; exact hfb
  | cons d rest ih =>
    intro fb hfb
    dsimp only [randomMoveLoop]
    repeat' split
    · exact ih fb hfb
    · exact ih fb hfb
    · exact ih fb hfb
    · exact ih (some (Action.move d.name)) (by simp)
    · simp

theorem randomMove_not_bomb (s : BotState) (npc : Ent) (grid : Grid)
    (bombs : List BombRec) (rng : Rng) (ri : ℕ) :
    (randomMove s npc grid bombs rng ri).1 ≠ some Action.bomb := by
  dsimp only [randomMove]
  exact randomMoveLoop_not_bomb _ _ _ _ _ _ _ none (by simp)

theorem prioritySeekPowerup_not_bomb (s : BotState) (npc : Ent) (grid : Grid)
    (bombs : List BombRec) (dm : ℤ → ℤ → Option ℤ) :
    (prioritySeekPowerup s npc grid bombs dm).1 ≠ some Action.bomb := by
  dsimp only [prioritySeekPowerup]
  repeat' split
  all_goals simp

theorem priorityChase_not_bomb (s : BotState) (npc : Ent) (grid : Grid)
    (bombs : List BombRec) (alivePlayers : List PInfo) (dm : ℤ → ℤ → Option ℤ) :
    (priorityChase s npc grid bombs alivePlayers dm).1 ≠ some Action.bomb := by
  dsimp only [priorityChase]
  repeat' split
  all_goals simp

theorem priorityAttack_no_bomb_of_no_escape (s : BotState) (npc : Ent)
    (grid : Grid) (bombs : List BombRec) (alivePlayers : List PInfo)
    (dm : ℤ → ℤ → Option ℤ) (now : ℤ)
    (hesc : s.config.escapeCheck = true)
    (hno : canEscapeAfterBomb s npc grid bombs npc.x npc.y = false) :
    (priorityAttack s npc grid bombs alivePlayers dm now).1 ≠ some Action.bomb := by
  dsimp only [priorityAttack]
  split
  · rename_i a ha
    intro hcontra
    simp only [Option.some.injEq] at hcontra
    rw [hcontra] at ha
    exact tryWeaponFire_not_bomb s npc grid alivePlayers ha
  · repeat' split
    all_goals simp_all

theorem priorityClear_no_bomb_of_no_escape (s : BotState) (npc : Ent)
    (grid : Grid) (bombs : List BombRec) (alivePlayers : List PInfo)
    (dm : ℤ → ℤ → Option ℤ) (now : ℤ)
    (hesc : s.config.escapeCheck = true)
    (hno : canEscapeAfterBomb s npc grid bombs npc.x npc.y = false) :
    (priorityClear s npc grid bombs alivePlayers dm now).1 ≠ some Action.bomb := by
  dsimp only [priorityClear]
  repeat' split
  all_goals simp_all

theorem priorityAttack_preserves (s : BotState) (npc : Ent) (grid : Grid)
    (bombs : List BombRec) (alivePlayers : List PInfo)
    (dm : ℤ → ℤ → Option ℤ) (now : ℤ) :
    (priorityAttack s npc grid bombs alivePlayers dm now).2.config = s.config
    ∧ (priorityAttack s npc grid bombs alivePlayers dm now).2.cols = s.cols
    ∧ (priorityAttack s npc grid bombs alivePlayers dm now).2.rows = s.rows := by
  dsimp only [priorityAttack]
  repeat' split
  all_goals exact ⟨rfl, rfl, rfl⟩

theorem prioritySeekPowerup_preserves (s : BotState) (npc : Ent) (grid : Grid)
    (bombs : List BombRec) (dm : ℤ → ℤ → Option ℤ) :
    (prioritySeekPowerup s npc grid bombs dm).2.config = s.config
    ∧ (prioritySeekPowerup s npc grid bombs dm).2.cols = s.cols
    ∧ (prioritySeekPowerup s npc grid bombs dm).2.rows = s.rows := by
  dsimp only [prioritySeekPowerup]
  repeat' split
  all_goals exact ⟨rfl, rfl, rfl⟩

theorem priorityChase_preserves (s : BotState) (npc : Ent) (grid : Grid)
    (bombs : List BombRec) (alivePlayers : List PInfo) (dm : ℤ → ℤ → Option ℤ) :
    (priorityChase s npc grid bombs alivePlayers dm).2.config = s.config
    ∧ (priorityChase s npc grid bombs alivePlayers dm).2.cols = s.cols
    ∧ (priorityChase s npc grid bombs alivePlayers dm).2.rows = s.rows := by
  dsimp only [priorityChase]
  repeat' split
  all_goals exact ⟨rfl, rfl, rfl⟩

theorem updateClearStage_no_bomb (s : BotState) (npc : Ent) (grid : Grid)
    (bombs : List BombRec) (alivePlayers : List PInfo)
    (dm : ℤ → ℤ → Option ℤ) (now : ℤ) (rng : Rng) (ri : ℕ)
    (hesc : s.config.escapeCheck = true)
    (hno : canEscapeAfterBomb s npc grid bombs npc.x npc.y = false) :
    (updateClearStage s npc grid bombs alivePlayers dm now rng ri).1
    ≠ some Action.bomb := by
  dsimp only [updateClearStage]
  rcases hC : priorityClear s npc grid bombs alivePlayers dm now with ⟨oc, sc⟩
  dsimp only
  cases oc with
  | some a =>
    have h1 := priorityClear_no_bomb_of_no_escape s npc grid bombs alivePlayers dm now hesc hno
    rw [hC] at h1
    simpa using h1
  | none =>
    rcases hR : randomMove sc npc grid bombs rng ri with ⟨orr, ri2⟩
    dsimp only
    cases orr with
    | some a =>
      have h2 := randomMove_not_bomb sc npc grid bombs rng ri
      rw [hR] at h2
      simpa using h2
    | none => simp

theorem updateChaseStage_no_bomb (s : BotState) (npc : Ent) (grid : Grid)
    (bombs : List BombRec) (alivePlayers : List PInfo)
    (dm : ℤ → ℤ → Option ℤ) (now : ℤ) (rng : Rng) (ri : ℕ)
    (hesc : s.config.escapeCheck = true)
    (hno : canEscapeAfterBomb s npc grid bombs npc.x npc.y = false) :
    (updateChaseStage s npc grid bombs alivePlayers dm now rng ri).1
    ≠ some Action.bomb := by
  dsimp only [updateChaseStage]
  by_cases hch : s.config.chaseEnabled = true
  · rw [if_pos hch]
    rcases hH : priorityChase s npc grid bombs alivePlayers dm with ⟨o, st⟩
    dsimp only
    cases o with
    | some a =>
      have h1 := priorityChase_not_bomb s npc grid bombs alivePlayers dm
      rw [hH] at h1
      simpa using h1
    | none =>
      have hp := priorityChase_preserves s npc grid bombs alivePlayers dm
      rw [hH] at hp
      obtain ⟨hc1, hc2, hc3⟩ := hp
      refine updateClearStage_no_bomb st npc grid bombs alivePlayers dm now rng ri ?_ ?_
      · rw [hc1]; exact hesc
      · rw [canEscapeAfterBomb_eq_of st s npc grid bombs npc.x npc.y hc1 hc2 hc3]
        exact hno
  · rw [if_neg hch]
    dsimp only
    exact updateClearStage_no_bomb s npc grid bombs alivePlayers dm now rng ri hesc hno

theorem updateSeekStage_no_bomb (s : BotState) (npc : Ent) (grid : Grid)
    (bombs : List BombRec) (alivePlayers : List PInfo)
    (dm : ℤ → ℤ → Option ℤ) (now : ℤ) (rng : Rng) (ri : ℕ)
    (hesc : s.config.escapeCheck = true)
    (hno : canEscapeAfterBomb s npc grid bombs npc.x npc.y = false) :
    (updateSeekStage s npc grid bombs alivePlayers dm now rng ri).1
    ≠ some Action.bomb := by
  dsimp only [updateSeekStage]
  by_cases hsk : s.config.seekPowerups = true
  · rw [if_pos hsk]
    rcases hS : prioritySeekPowerup s npc grid bombs dm with ⟨o, st⟩
    dsimp only
    cases o with
    | some a =>
      have h1 := prioritySeekPowerup_not_bomb s npc grid bombs dm
      rw [hS] at h1
      simpa using h1
    | none =>
      have hp := prioritySeekPowerup_preserves s npc grid bombs dm
      rw [hS] at hp
      obtain ⟨hc1, hc2, hc3⟩ := hp
      refine updateChaseStage_no_bomb st npc grid bombs alivePlayers dm now rng ri ?_ ?_
      · rw [hc1]; exact hesc
      · rw [canEscapeAfterBomb_eq_of st s npc grid bombs npc.x npc.y hc1 hc2 hc3]
        exact hno
  · rw [if_neg hsk]
    dsimp only
    exact updateChaseStage_no_bomb s npc grid bombs alivePlayers dm now rng ri hesc hno

theorem updatePriorities_no_bomb (s : BotState) (npc : Ent) (grid : Grid)
    (bombs : List BombRec) (alivePlayers : List PInfo)
    (dm : ℤ → ℤ → Option ℤ) (now : ℤ) (rng : Rng) (ri : ℕ)
    (hesc : s.config.escapeCheck = true)
    (hbfs : s.config.useBfsForAttack = true)
    (hno : canEscapeAfterBomb s npc grid bombs npc.x npc.y = false) :
    (updatePriorities s npc grid bombs alivePlayers dm now rng ri).1
    ≠ some Action.bomb := by
  dsimp only [updatePriorities]
  rw [if_pos hbfs]
  rcases hA : priorityAttack s npc grid bombs alivePlayers dm now with ⟨oa, sa⟩
  dsimp only
  cases oa with
  | some a =>
    have h1 := priorityAttack_no_bomb_of_no_escape s npc grid bombs alivePlayers dm now hesc hno
    rw [hA] at h1
    simpa using h1
  | none =>
    have hp := priorityAttack_preserves s npc grid bombs alivePlayers dm now
    rw [hA] at hp
    obtain ⟨hc1, hc2, hc3⟩ := hp
    refine updateSeekStage_no_bomb sa npc grid bombs alivePlayers dm now rng ri ?_ ?_
    · rw [hc1]; exact hesc
    · rw [canEscapeAfterBomb_eq_of sa s npc grid bombs npc.x npc.y hc1 hc2 hc3]
      exact hno

theorem updateMistake_no_bomb (s : BotState) (npc : Ent) (grid : Grid)
    (bombs : List BombRec) (alivePlayers : List PInfo)
    (dm : ℤ → ℤ → Option ℤ) (now : ℤ) (rng : Rng) (ri : ℕ)
    (hesc : s.config.escapeCheck = true)
    (hbfs : s.config.useBfsForAttack = true)
    (hno : canEscapeAfterBomb s npc grid bombs npc.x npc.y = false) :
    (updateMistake s npc grid bombs alivePlayers dm now rng ri).1
    ≠ some Action.bomb := by
  dsimp only [updateMistake]
  split
  · rcases hR : randomMove s npc grid bombs rng (ri + 1) with ⟨orr, ri2⟩
    dsimp only
    cases orr with
    | some a =>
      have h2 := randomMove_not_bomb s npc grid bombs rng (ri + 1)
      rw [hR] at h2
      simpa using h2
    | none => simp
  · exact updatePriorities_no_bomb s npc grid bombs alivePlayers dm now rng (ri + 1)
      hesc hbfs hno

theorem updateCommit_no_bomb (s : BotState) (npc : Ent) (grid : Grid)
    (bombs : List BombRec) (alivePlayers : List PInfo)
    (dm : ℤ → ℤ → Option ℤ) (now : ℤ) (rng : Rng) (ri : ℕ)
    (hesc : s.config.escapeCheck = true)
    (hbfs : s.config.useBfsForAttack = true)
    (hno : canEscapeAfterBomb s npc grid bombs npc.x npc.y = false) :
    (updateCommit s npc grid bombs alivePlayers dm now rng ri).1
    ≠ some Action.bomb := by
  dsimp only [updateCommit]
  split
  · split
    · split
      · simp
      · refine updateMistake_no_bomb _ npc grid bombs alivePlayers dm now rng ri hesc hbfs ?_
        exact canEscapeAfterBomb_false_transport s _ npc grid bombs rfl rfl rfl hno
    · refine updateMistake_no_bomb _ npc grid bombs alivePlayers dm now rng ri hesc hbfs ?_
      exact canEscapeAfterBomb_false_transport s _ npc grid bombs rfl rfl rfl hno
  · exact updateMistake_no_bomb s npc grid bombs alivePlayers dm now rng ri hesc hbfs hno

theorem updateFlee_no_bomb (s : BotState) (npc : Ent) (grid : Grid)
    (bombs : List BombRec) (alivePlayers : List PInfo)
    (dm : ℤ → ℤ → Option ℤ) (now : ℤ) (rng : Rng) (ri : ℕ)
    (hesc : s.config.escapeCheck = true)
    (hbfs : s.config.useBfsForAttack = true)
    (hno : canEscapeAfterBomb s npc grid bombs npc.x npc.y = false) :
    (updateFlee s npc grid bombs alivePlayers dm now rng ri).1
    ≠ some Action.bomb := by
  dsimp only [updateFlee]
  split
  · split
    · split
      · simp
      · refine updateCommit_no_bomb _ npc grid bombs alivePlayers dm now rng ri hesc hbfs ?_
        exact canEscapeAfterBomb_false_transport s _ npc grid bombs rfl rfl rfl hno
    · refine updateCommit_no_bomb _ npc grid bombs alivePlayers dm now rng ri hesc hbfs ?_
      exact canEscapeAfterBomb_false_transport s _ npc grid bombs rfl rfl rfl hno
  · exact updateCommit_no_bomb s npc grid bombs alivePlayers dm now rng ri hesc hbfs hno

/-- C1 (amended): a bot whose profile enables the escape-route check and
uses the BFS attack logic (the medium and hard profiles) never emits a
bomb-placement action on a tick when the engine's flood-fill finds no
hazard-free tile reachable from its position — excluding the hypothetical
bomb's own tile — within the fuse duration at the bot's tick rate; the
tick's action is then a non-bomb action.  (The easy profile also sets
`escapeCheck` but its naive bomb logic bypasses the check, see the
counterexample.) -/
theorem claim_C1_amended (s : BotState) (dt : ℤ) (npc : Ent) (grid : Grid)
    (bombs : List BombRec) (alivePlayers : List PInfo) (now : ℤ)
    (rng : Rng) (ri : ℕ)
    (hesc : s.config.escapeCheck = true)
    (hbfs : s.config.useBfsForAttack = true)
    (hno : canEscapeAfterBomb s npc grid bombs npc.x npc.y = false) :
    (botUpdate s dt npc grid bombs alivePlayers now rng ri).1
    ≠ some Action.bomb := by
  dsimp only [botUpdate]
  split
  · simp
  · split
    · simp
    · split
      · rename_i a heq
        intro hc
        simp only [Option.some.injEq] at hc
        rw [hc] at heq
        exact prioritySurvive_not_bomb _ npc grid bombs _ heq
      · refine updateFlee_no_bomb _ npc grid bombs alivePlayers _ now rng ri hesc hbfs ?_
        exact canEscapeAfterBomb_false_transport s _ npc grid bombs rfl rfl rfl hno

def cexGrid : Grid := fun y x => if y = 1 ∧ (x = 1 ∨ x = 3) then EMPTY else WALL

def cexEnt : Ent := ⟨1, 1, true, 1, 2, 0, 0, 0, false, "down", 1, 0, 0, 1, 1, 0, "easy", 0⟩

def cexRng : Rng := fun i => if i = 0 then 1 else 0

/-- C1 counterexample: the easy profile enables the escape-route check,
yet on a 5 by 3 grid where the bot at (1,1) is boxed in by walls on all
four sides — so no hazard-free tile is reachable within the fuse window
after a hypothetical bomb at its own tile — its naive bomb logic still
emits a bomb-placement action against a player two tiles away. -/
theorem claim_C1_counterexample :
    (mkBotBrain "npc_0" "easy" 5 3).config.escapeCheck = true
    ∧ canEscapeAfterBomb (mkBotBrain "npc_0" "easy" 5 3) cexEnt cexGrid [] 1 1 = false
    ∧ (botUpdate (mkBotBrain "npc_0" "easy" 5 3) 300 cexEnt cexGrid []
        [⟨3, 1, "p1"⟩] 5000 cexRng 0).1 = some Action.bomb :=
  ⟨rfl, by decide, by decide⟩

/-- C1 witness: a medium bot in the same boxed-in position emits no bomb. -/
theorem claim_C1_witness :
    (botUpdate (mkBotBrain "npc_0" "medium" 5 3) 200 cexEnt cexGrid []
      [⟨3, 1, "p1"⟩] 5000 cexRng 0).1 ≠ some Action.bomb :=
  claim_C1_amended (mkBotBrain "npc_0" "medium" 5 3) 200 cexEnt cexGrid []
    [⟨3, 1, "p1"⟩] 5000 cexRng 0 rfl rfl (by decide)

def wGrid5 : Grid := fun y x => if x = 0 ∨ x = 4 ∨ y = 0 ∨ y = 4 then WALL else EMPTY

def wEnt : Ent := ⟨1, 1, true, 1, 2, 0, 0, 0, false, "down", 1, 0, 0, 1, 1, 0, "medium", 0⟩

def oneRng : Rng := fun _ => 1

/-- C8 witness: a medium bot standing on a live bomb's tile on a bordered
5 by 5 grid flees one step toward the nearest stamp-free tile. -/
theorem claim_C8_witness :
    (botUpdate (mkBotBrain "npc_0" "medium" 5 5) 200 wEnt wGrid5
      [⟨1, 1, "p1", 1000⟩] [] 5000 oneRng 0).1 = some (Action.move "down") :=
  claim_C8 (mkBotBrain "npc_0" "medium" 5 5) 200 wEnt wGrid5 [⟨1, 1, "p1", 1000⟩]
    [] 5000 oneRng 0 ⟨1, 2, "down"⟩ (by decide) rfl (Or.inl (by decide)) (by decide)

/-! ### C6: monotonicity of the danger map under bomb addition

The chain-awareness pass only ever lowers effective detonation times, and
every time it produces is the initial time of some chain-ancestor bomb;
conversely at its fixpoint every chain inequality holds.  Those two facts
compare the passes over `bombs` and `bombs ++ [c]`. -/

/-- The detonation time of entry `i` (0 outside the list). -/
def tAt (l : List DBomb) (i : ℕ) : ℤ := ((l.get? i).map (fun b => b.explodeAt)).getD 0

/-- The immutable part of entry `i`: position and power. -/
def shapeAt (l : List DBomb) (i : ℕ) : Option (ℤ × ℤ × ℕ) :=
  (l.get? i).map (fun b => (b.x, b.y, b.power))

def blastOf (grid : Grid) (cols rows : ℤ) (b : DBomb) : List Pos :=
  (computeExplosion grid b.x b.y b.power cols rows).1

/-- Entry `a`'s blast covers entry `b`'s tile (a function of the
immutable shape only). -/
def Covers (grid : Grid) (cols rows : ℤ) (l : List DBomb) (a b : ℕ) : Prop :=
  match shapeAt l a, shapeAt l b with
  | some sa, some sb => (sb.1, sb.2.1) ∈ (computeExplosion grid sa.1 sa.2.1 sa.2.2 cols rows).1
  | _, _ => False

/-- The chain-detonation edge between list indices. -/
def EdgeC (grid : Grid) (cols rows : ℤ) (l : List DBomb) (a b : ℕ) : Prop :=
  a ≠ b ∧ Covers grid cols rows l a b

theorem Covers_congr (grid : Grid) (cols rows : ℤ) (l l2 : List DBomb)
    (h : ∀ i, shapeAt l2 i = shapeAt l i) (a b : ℕ) :
    Covers grid cols rows l2 a b ↔ Covers grid cols rows l a b := by
  unfold Covers
  rw [h a, h b]

theorem Covers_of_get (grid : Grid) (cols rows : ℤ) (l : List DBomb) (a b : ℕ)
    (ba bb : DBomb) (hga : l.get? a = some ba) (hgb : l.get? b = some bb) :
    Covers grid cols rows l a b
    ↔ (bb.x, bb.y) ∈ (computeExplosion grid ba.x ba.y ba.power cols rows).1 := by
  unfold Covers shapeAt
  rw [hga, hgb]
  exact Iff.rfl

theorem get?_some_lt {α : Type} (l : List α) (n : ℕ) (a : α)
    (h : l.get? n = some a) : n < l.length := by
  by_contra hc
  rw [List.get?_eq_none.mpr (Nat.le_of_not_lt hc)] at h
  cases h

/-- `chainStep` with the lets expanded. -/
theorem chainStep_eq (grid : Grid) (cols rows : ℤ) (l : List DBomb) (a b : ℕ) :
    chainStep grid cols rows l a b
    = match l.get? a, l.get? b with
      | some ba, some bb =>
        if a = b then (l, false)
        else if (bb.x, bb.y) ∈ (computeExplosion grid ba.x ba.y ba.power cols rows).1 then
          if min ba.explodeAt bb.explodeAt < bb.explodeAt then
            (l.set b { bb with explodeAt := min ba.explodeAt bb.explodeAt }, true)
          else (l, false)
        else (l, false)
      | _, _ => (l, false) := rfl

/-- Each `chainStep` is either the identity or one strict lowering along
an edge. -/
theorem chainStep_cases (grid : Grid) (cols rows : ℤ) (l : List DBomb) (a b : ℕ) :
    chainStep grid cols rows l a b = (l, false)
    ∨ ∃ ba bb, l.get? a = some ba ∧ l.get? b = some bb ∧ a ≠ b
        ∧ (bb.x, bb.y) ∈ (computeExplosion grid ba.x ba.y ba.power cols rows).1
        ∧ min ba.explodeAt bb.explodeAt < bb.explodeAt
        ∧ chainStep grid cols rows l a b
          = (l.set b { bb with explodeAt := min ba.explodeAt bb.explodeAt }, true) := by
  rw [chainStep_eq]
  cases hga : l.get? a with
  | none => exact Or.inl rfl
  | some ba =>
    cases hgb : l.get? b with
    | none => exact Or.inl rfl
    | some bb =>
      dsimp only
      by_cases hab : a = b
      · rw [if_pos hab]; exact Or.inl rfl
      · rw [if_neg hab]
        by_cases hcov : (bb.x, bb.y) ∈ (computeExplosion grid ba.x ba.y ba.power cols rows).1
        · rw [if_pos hcov]
          by_cases hlt : min ba.explodeAt bb.explodeAt < bb.explodeAt
          · rw [if_pos hlt]
            exact Or.inr ⟨ba, bb, rfl, rfl, hab, hcov, hlt, rfl⟩
          · rw [if_neg hlt]; exact Or.inl rfl
        · rw [if_neg hcov]; exact Or.inl rfl

theorem chainStep_shape (grid : Grid) (cols rows : ℤ) (l : List DBomb) (a b : ℕ) :
    ∀ i, shapeAt (chainStep grid cols rows l a b).1 i = shapeAt l i := by
  intro i
  rcases chainStep_cases grid cols rows l a b with h | ⟨ba, bb, hga, hgb, -, -, -, h⟩
  · rw [h]
  · rw [h]
    unfold shapeAt
    by_cases hib : b = i
    · subst hib
      rw [List.get?_set_eq_of_lt _ (get?_some_lt l b bb hgb), hgb]
      rfl
    · rw [List.get?_set_ne _ _ hib]

theorem chainStep_len (grid : Grid) (cols rows : ℤ) (l : List DBomb) (a b : ℕ) :
    (chainStep grid cols rows l a b).1.length = l.length := by
  rcases chainStep_cases grid cols rows l a b with h | ⟨ba, bb, -, -, -, -, -, h⟩
  · rw [h]
  · rw [h]; exact List.length_set ..

theorem chainStep_time_le (grid : Grid) (cols rows : ℤ) (l : List DBomb) (a b : ℕ) :
    ∀ i, tAt (chainStep grid cols rows l a b).1 i ≤ tAt l i := by
  intro i
  rcases chainStep_cases grid cols rows l a b with h | ⟨ba, bb, hga, hgb, -, -, hlt, h⟩
  · rw [h]
  · rw [h]
    unfold tAt
    by_cases hib : b = i
    · subst hib
      rw [List.get?_set_eq_of_lt _ (get?_some_lt l b bb hgb), hgb]
      simpa using le_of_lt hlt
    · rw [List.get?_set_ne _ _ hib]

theorem chainStep_times_from (grid : Grid) (cols rows : ℤ) (l : List DBomb)
    (a b : ℕ) :
    ∀ i, i < l.length → ∃ j, j < l.length
      ∧ tAt (chainStep grid cols rows l a b).1 i = tAt l j := by
  intro i hi
  rcases chainStep_cases grid cols rows l a b with h | ⟨ba, bb, hga, hgb, -, -, hlt, h⟩
  · rw [h]; exact ⟨i, hi, rfl⟩
  · rw [h]
    by_cases hib : b = i
    · subst hib
      refine ⟨a, get?_some_lt l a ba hga, ?_⟩
      unfold tAt
      rw [List.get?_set_eq_of_lt _ (get?_some_lt l b bb hgb), hga]
      have hab2 : ba.explodeAt < bb.explodeAt := by
        rcases lt_or_le ba.explodeAt bb.explodeAt with h1 | h1
        · exact h1
        · rw [min_eq_right h1] at hlt; exact absurd hlt (lt_irrefl _)
      simp [min_eq_left (le_of_lt hab2)]
    · refine ⟨i, hi, ?_⟩
      unfold tAt
      rw [List.get?_set_ne _ _ hib]

theorem chainStep_flag_false (grid : Grid) (cols rows : ℤ) (l : List DBomb)
    (a b : ℕ) (h : (chainStep grid cols rows l a b).2 = false) :
    (chainStep grid cols rows l a b).1 = l := by
  rcases chainStep_cases grid cols rows l a b with h2 | ⟨ba, bb, hga, hgb, hab, hcov, hlt, h2⟩
  · rw [h2]
  · rw [h2] at h; cases h

theorem chainStep_flag_true (grid : Grid) (cols rows : ℤ) (l : List DBomb)
    (a b : ℕ) (h : (chainStep grid cols rows l a b).2 = true) :
    ∃ i, i < l.length ∧ tAt (chainStep grid cols rows l a b).1 i < tAt l i := by
  rcases chainStep_cases grid cols rows l a b with h2 | ⟨ba, bb, hga, hgb, -, -, hlt, h2⟩
  · rw [h2] at h; cases h
  · refine ⟨b, get?_some_lt l b bb hgb, ?_⟩
    rw [h2]
    unfold tAt
    rw [List.get?_set_eq_of_lt _ (get?_some_lt l b bb hgb), hgb]
    exact hlt

theorem chainStep_flag_false_ineq (grid : Grid) (cols rows : ℤ) (l : List DBomb)
    (a b : ℕ) (ba bb : DBomb) (hga : l.get? a = some ba) (hgb : l.get? b = some bb)
    (hab : a ≠ b) (hcov : Covers grid cols rows l a b)
    (h : (chainStep grid cols rows l a b).2 = false) :
    tAt l b ≤ tAt l a := by
  rw [chainStep_eq, hga, hgb] at h
  dsimp only at h
  rw [if_neg hab,
    if_pos ((Covers_of_get grid cols rows l a b ba bb hga hgb).mp hcov)] at h
  split at h
  · cases h
  · rename_i hnot
    unfold tAt
    rw [hga, hgb]
    show bb.explodeAt ≤ ba.explodeAt
    by_contra hc
    exact hnot (by omega)

/-! ##### One chain-awareness pass -/

/-- The step function folded by `chainPass`. -/
def passStep (grid : Grid) (cols rows : ℤ) (st : List DBomb × Bool)
    (ab : ℕ × ℕ) : List DBomb × Bool :=
  ((chainStep grid cols rows st.1 ab.1 ab.2).1,
    st.2 || (chainStep grid cols rows st.1 ab.1 ab.2).2)

theorem chainPass_eq (grid : Grid) (cols rows : ℤ) (l : List DBomb) :
    chainPass grid cols rows l
    = (pairSeq l.length).foldl (passStep grid cols rows) (l, false) := rfl

theorem pairSeq_mem_aux (n : ℕ) (L : List ℕ) (acc : List (ℕ × ℕ)) (ab : ℕ × ℕ) :
    ab ∈ L.foldr (fun a acc2 => ((List.range n).map (fun b => (a, b))) ++ acc2) acc
    ↔ (ab.1 ∈ L ∧ ab.2 ∈ List.range n) ∨ ab ∈ acc := by
  induction L with
  | nil => simp
  | cons a L ih =>
    simp only [List.foldr_cons, List.mem_append, List.mem_map, List.mem_cons, ih]
    constructor
    · rintro (⟨b, hb, hab⟩ | ⟨h1, h2⟩ | h3)
      · subst hab
        exact Or.inl ⟨Or.inl rfl, hb⟩
      · exact Or.inl ⟨Or.inr h1, h2⟩
      · exact Or.inr h3
    · rintro (⟨h1 | h1, h2⟩ | h3)
      · exact Or.inl ⟨ab.2, h2, by rw [← h1]⟩
      · exact Or.inr (Or.inl ⟨h1, h2⟩)
      · exact Or.inr (Or.inr h3)

theorem pairSeq_mem (n : ℕ) (ab : ℕ × ℕ) :
    ab ∈ pairSeq n ↔ ab.1 < n ∧ ab.2 < n := by
  unfold pairSeq
  rw [pairSeq_mem_aux]
  simp [List.mem_range]

theorem passList_time_le (grid : Grid) (cols rows : ℤ) (ps : List (ℕ × ℕ)) :
    ∀ st i, tAt (ps.foldl (passStep grid cols rows) st).1 i ≤ tAt st.1 i := by
  induction ps with
  | nil => intro st i; exact le_refl _
  | cons x ps ih =>
    intro st i
    rw [List.foldl_cons]
    exact le_trans (ih (passStep grid cols rows st x) i)
      (chainStep_time_le grid cols rows st.1 x.1 x.2 i)

theorem passList_shape (grid : Grid) (cols rows : ℤ) (ps : List (ℕ × ℕ)) :
    ∀ st i, shapeAt (ps.foldl (passStep grid cols rows) st).1 i = shapeAt st.1 i := by
  induction ps with
  | nil => intro st i; rfl
  | cons x ps ih =>
    intro st i
    rw [List.foldl_cons, ih (passStep grid cols rows st x) i]
    exact chainStep_shape grid cols rows st.1 x.1 x.2 i

theorem passList_len (grid : Grid) (cols rows : ℤ) (ps : List (ℕ × ℕ)) :
    ∀ st, (ps.foldl (passStep grid cols rows) st).1.length = st.1.length := by
  induction ps with
  | nil => intro st; rfl
  | cons x ps ih =>
    intro st
    rw [List.foldl_cons, ih (passStep grid cols rows st x)]
    exact chainStep_len grid cols rows st.1 x.1 x.2

theorem passList_flag_mono (grid : Grid) (cols rows : ℤ) (ps : List (ℕ × ℕ)) :
    ∀ st, st.2 = true → (ps.foldl (passStep grid cols rows) st).2 = true := by
  induction ps with
  | nil => intro st h; exact h
  | cons x ps ih =>
    intro st h
    rw [List.foldl_cons]
    exact ih (passStep grid cols rows st x) (by unfold passStep; rw [h]; rfl)

theorem passList_flag_false_id (grid : Grid) (cols rows : ℤ) (ps : List (ℕ × ℕ)) :
    ∀ st, (ps.foldl (passStep grid cols rows) st).2 = false
      → (ps.foldl (passStep grid cols rows) st).1 = st.1 := by
  induction ps with
  | nil => intro st _; rfl
  | cons x ps ih =>
    intro st h
    rw [List.foldl_cons] at h ⊢
    have hstep : (chainStep grid cols rows st.1 x.1 x.2).2 = false := by
      by_contra hc
      rw [passList_flag_mono grid cols rows ps (passStep grid cols rows st x)
        (by unfold passStep; rw [eq_true_of_ne_false hc, Bool.or_true])] at h
      cases h
    rw [ih (passStep grid cols rows st x) h]
    exact chainStep_flag_false grid cols rows st.1 x.1 x.2 hstep

theorem passList_flag_false_steps (grid : Grid) (cols rows : ℤ) (ps : List (ℕ × ℕ)) :
    ∀ st, (ps.foldl (passStep grid cols rows) st).2 = false
      → ∀ ab ∈ ps, (chainStep grid cols rows st.1 ab.1 ab.2).2 = false := by
  induction ps with
  | nil => intro st _ ab hab; cases hab
  | cons x ps ih =>
    intro st h ab hab
    rw [List.foldl_cons] at h
    have hstep : (chainStep grid cols rows st.1 x.1 x.2).2 = false := by
      by_contra hc
      rw [passList_flag_mono grid cols rows ps (passStep grid cols rows st x)
        (by unfold passStep; rw [eq_true_of_ne_false hc, Bool.or_true])] at h
      cases h
    rcases List.mem_cons.mp hab with hx | hmem
    · rw [hx]; exact hstep
    · have hid : (passStep grid cols rows st x).1 = st.1 :=
        chainStep_flag_false grid cols rows st.1 x.1 x.2 hstep
      have := ih (passStep grid cols rows st x) h ab hmem
      rw [hid] at this
      exact this

/-! ##### Termination measure for the chain loop -/

def rankOf (s : List ℤ) (t : ℤ) : ℕ := s.countP (fun v => decide (v < t))

def timesOf (l : List DBomb) : List ℤ := l.map (fun b => b.explodeAt)

def muMeas (s : List ℤ) (l : List DBomb) : ℕ :=
  ∑ i ∈ Finset.range l.length, rankOf s (tAt l i)

theorem rank_mono (s : List ℤ) (t1 t2 : ℤ) (h : t1 ≤ t2) :
    rankOf s t1 ≤ rankOf s t2 := by
  unfold rankOf
  apply List.countP_mono_left
  intro a _ h1
  simp only [decide_eq_true_eq] at h1 ⊢
  omega

theorem rank_strict (s : List ℤ) (t1 t2 : ℤ) (h12 : t1 < t2) (hmem : t1 ∈ s) :
    rankOf s t1 < rankOf s t2 := by
  induction s with
  | nil => cases hmem
  | cons a s ih =>
    unfold rankOf at ih ⊢
    rw [List.countP_cons, List.countP_cons]
    have hmono : s.countP (fun v => decide (v < t1)) ≤ s.countP (fun v => decide (v < t2)) :=
      rank_mono s t1 t2 (le_of_lt h12)
    rcases List.mem_cons.mp hmem with h | h
    · have e1 : (decide (a < t1)) = false := by rw [← h]; simp
      have e2 : (decide (a < t2)) = true := by rw [← h]; simp [h12]
      rw [e1, e2]
      have z1 : (if (false = true) then 1 else 0) = 0 := rfl
      have z2 : (if (true = true) then 1 else 0) = 1 := rfl
      rw [z1, z2]
      omega
    · have hlt := ih h
      have z1 : (if (false = true) then 1 else 0) = 0 := rfl
      have z2 : (if (true = true) then 1 else 0) = 1 := rfl
      cases h1 : decide (a < t1) with
      | false =>
        cases h2 : decide (a < t2) with
        | false => simp only [z1]; omega
        | true => simp only [z1, z2]; omega
      | true =>
        have h2 : decide (a < t2) = true := by
          simp only [decide_eq_true_eq] at h1 ⊢
          omega
        rw [h2]
        simp only [z2]
        omega

theorem rank_le (s : List ℤ) (t : ℤ) : rankOf s t ≤ s.length :=
  List.countP_le_length _

theorem mu_mono (s : List ℤ) (l1 l2 : List DBomb) (hlen : l2.length = l1.length)
    (hle : ∀ i, tAt l2 i ≤ tAt l1 i) : muMeas s l2 ≤ muMeas s l1 := by
  unfold muMeas
  rw [hlen]
  exact Finset.sum_le_sum (fun i _ => rank_mono s _ _ (hle i))

theorem mu_strict (s : List ℤ) (l1 l2 : List DBomb) (hlen : l2.length = l1.length)
    (hle : ∀ i, tAt l2 i ≤ tAt l1 i)
    (hmem : ∀ i, i < l2.length → tAt l2 i ∈ s)
    (i : ℕ) (hi : i < l1.length) (hlt : tAt l2 i < tAt l1 i) :
    muMeas s l2 < muMeas s l1 := by
  unfold muMeas
  rw [hlen]
  refine Finset.sum_lt_sum (fun j _ => rank_mono s _ _ (hle j))
    ⟨i, Finset.mem_range.mpr hi, ?_⟩
  exact rank_strict s _ _ hlt (hmem i (by omega))

theorem mu_le (s : List ℤ) (l : List DBomb) : muMeas s l ≤ l.length * s.length := by
  unfold muMeas
  calc ∑ i ∈ Finset.range l.length, rankOf s (tAt l i)
      ≤ ∑ _i ∈ Finset.range l.length, s.length :=
        Finset.sum_le_sum (fun i _ => rank_le s _)
    _ = l.length * s.length := by rw [Finset.sum_const, Finset.card_range, smul_eq_mul]

theorem mem_timesOf (l : List DBomb) : ∀ i, i < l.length → tAt l i ∈ timesOf l := by
  intro i hi
  unfold tAt timesOf
  rw [List.get?_eq_get hi]
  exact List.mem_map.mpr ⟨l.get ⟨i, hi⟩, List.get_mem l i hi, rfl⟩

theorem chainStep_mem (grid : Grid) (cols rows : ℤ) (l : List DBomb) (a b : ℕ)
    (s : List ℤ) (hmem : ∀ i, i < l.length → tAt l i ∈ s) :
    ∀ i, i < (chainStep grid cols rows l a b).1.length
      → tAt (chainStep grid cols rows l a b).1 i ∈ s := by
  intro i hi
  rw [chainStep_len] at hi
  rcases chainStep_times_from grid cols rows l a b i hi with ⟨j, hj, heq⟩
  rw [heq]
  exact hmem j hj

theorem passList_mem (grid : Grid) (cols rows : ℤ) (s : List ℤ) (ps : List (ℕ × ℕ)) :
    ∀ st, (∀ i, i < st.1.length → tAt st.1 i ∈ s)
      → ∀ i, i < (ps.foldl (passStep grid cols rows) st).1.length
        → tAt (ps.foldl (passStep grid cols rows) st).1 i ∈ s := by
  induction ps with
  | nil => intro st h i hi; exact h i hi
  | cons x ps ih =>
    intro st h i hi
    rw [List.foldl_cons] at hi ⊢
    exact ih (passStep grid cols rows st x)
      (chainStep_mem grid cols rows st.1 x.1 x.2 s h) i hi

theorem passList_mu_lt (grid : Grid) (cols rows : ℤ) (s : List ℤ) (ps : List (ℕ × ℕ)) :
    ∀ st, (∀ i, i < st.1.length → tAt st.1 i ∈ s) → st.2 = false
      → (ps.foldl (passStep grid cols rows) st).2 = true
      → muMeas s (ps.foldl (passStep grid cols rows) st).1 < muMeas s st.1 := by
  induction ps with
  | nil => intro st _ hf ht; rw [List.foldl_nil] at ht; rw [hf] at ht; cases ht
  | cons x ps ih =>
    intro st hmem hf ht
    rw [List.foldl_cons] at ht ⊢
    by_cases hstep : (chainStep grid cols rows st.1 x.1 x.2).2 = true
    · rcases chainStep_flag_true grid cols rows st.1 x.1 x.2 hstep with ⟨i, hi, hlt⟩
      have h1 : muMeas s (passStep grid cols rows st x).1 < muMeas s st.1 := by
        refine mu_strict s st.1 (passStep grid cols rows st x).1
          (chainStep_len grid cols rows st.1 x.1 x.2)
          (chainStep_time_le grid cols rows st.1 x.1 x.2)
          (chainStep_mem grid cols rows st.1 x.1 x.2 s hmem) i hi hlt
      have h2 : muMeas s (ps.foldl (passStep grid cols rows)
            (passStep grid cols rows st x)).1
          ≤ muMeas s (passStep grid cols rows st x).1 :=
        mu_mono s _ _ (passList_len grid cols rows ps (passStep grid cols rows st x))
          (passList_time_le grid cols rows ps (passStep grid cols rows st x))
      exact lt_of_le_of_lt h2 h1
    · have hsf : (chainStep grid cols rows st.1 x.1 x.2).2 = false := by
        cases hflag : (chainStep grid cols rows st.1 x.1 x.2).2
        · rfl
        · exact absurd hflag hstep
      have hid : (passStep grid cols rows st x).1 = st.1 :=
        chainStep_flag_false grid cols rows st.1 x.1 x.2 hsf
      have hflag2 : (passStep grid cols rows st x).2 = false := by
        unfold passStep
        rw [hf, hsf]
        rfl
      have hres := ih (passStep grid cols rows st x)
        (fun i hi => by rw [hid] at hi ⊢; exact hmem i hi) hflag2 ht
      rw [hid] at hres
      exact hres

/-! ##### The chain loop reaches a fixpoint within its fuel -/

theorem chainIter_succ (grid : Grid) (cols rows : ℤ) (fuel : ℕ) (l : List DBomb) :
    chainIter grid cols rows (fuel+1) l
    = if (chainPass grid cols rows l).2 then
        chainIter grid cols rows fuel (chainPass grid cols rows l).1
      else (chainPass grid cols rows l).1 := rfl

theorem chainIter_time_le (grid : Grid) (cols rows : ℤ) :
    ∀ fuel l i, tAt (chainIter grid cols rows fuel l) i ≤ tAt l i := by
  intro fuel
  induction fuel with
  | zero => intro l i; exact le_refl _
  | succ f ih =>
    intro l i
    rw [chainIter_succ]
    have hpass : ∀ j, tAt (chainPass grid cols rows l).1 j ≤ tAt l j := by
      intro j
      rw [chainPass_eq]
      exact passList_time_le grid cols rows (pairSeq l.length) (l, false) j
    split
    · exact le_trans (ih (chainPass grid cols rows l).1 i) (hpass i)
    · exact hpass i

theorem chainIter_shape (grid : Grid) (cols rows : ℤ) :
    ∀ fuel l i, shapeAt (chainIter grid cols rows fuel l) i = shapeAt l i := by
  intro fuel
  induction fuel with
  | zero => intro l i; rfl
  | succ f ih =>
    intro l i
    rw [chainIter_succ]
    have hpass : ∀ j, shapeAt (chainPass grid cols rows l).1 j = shapeAt l j := by
      intro j
      rw [chainPass_eq]
      exact passList_shape grid cols rows (pairSeq l.length) (l, false) j
    split
    · rw [ih (chainPass grid cols rows l).1 i]; exact hpass i
    · exact hpass i

theorem chainIter_len (grid : Grid) (cols rows : ℤ) :
    ∀ fuel l, (chainIter grid cols rows fuel l).length = l.length := by
  intro fuel
  induction fuel with
  | zero => intro l; rfl
  | succ f ih =>
    intro l
    have hpass : (chainPass grid cols rows l).1.length = l.length := by
      rw [chainPass_eq]
      exact passList_len grid cols rows (pairSeq l.length) (l, false)
    rw [chainIter_succ]
    split
    · rw [ih (chainPass grid cols rows l).1]; exact hpass
    · exact hpass

theorem chainIter_fix (grid : Grid) (cols rows : ℤ) (s : List ℤ) :
    ∀ fuel l, (∀ i, i < l.length → tAt l i ∈ s) → muMeas s l < fuel
      → ∀ ab ∈ pairSeq (chainIter grid cols rows fuel l).length,
          (chainStep grid cols rows (chainIter grid cols rows fuel l) ab.1 ab.2).2
            = false := by
  intro fuel
  induction fuel with
  | zero => intro l _ hmu; exact absurd hmu (Nat.not_lt_zero _)
  | succ f ih =>
    intro l hmem hmu
    rw [chainIter_succ]
    by_cases hflag : (chainPass grid cols rows l).2 = true
    · rw [if_pos hflag]
      apply ih
      · intro i hi
        rw [chainPass_eq] at hi ⊢
        exact passList_mem grid cols rows s (pairSeq l.length) (l, false)
          (fun j hj => hmem j hj) i hi
      · have hdrop : muMeas s (chainPass grid cols rows l).1 < muMeas s l := by
          rw [chainPass_eq]
          exact passList_mu_lt grid cols rows s (pairSeq l.length) (l, false)
            (fun j hj => hmem j hj) rfl (by rw [← chainPass_eq]; exact hflag)
        omega
    · rw [if_neg hflag]
      have hff : (chainPass grid cols rows l).2 = false := by
        cases hx : (chainPass grid cols rows l).2
        · rfl
        · exact absurd hx hflag
      have hid : (chainPass grid cols rows l).1 = l := by
        rw [chainPass_eq] at hff ⊢
        exact passList_flag_false_id grid cols rows (pairSeq l.length) (l, false) hff
      rw [hid]
      intro ab hab
      have hsteps := passList_flag_false_steps grid cols rows (pairSeq l.length)
        (l, false) (by rw [← chainPass_eq]; exact hff) ab hab
      exact hsteps

/-! ##### Soundness and completeness of the chain fixpoint -/

theorem shapeAt_some_lt (l : List DBomb) (i : ℕ) (sa : ℤ × ℤ × ℕ)
    (h : shapeAt l i = some sa) : i < l.length := by
  unfold shapeAt at h
  cases hg : l.get? i with
  | none => rw [hg] at h; cases h
  | some b => exact get?_some_lt l i b hg

theorem Covers_bounds (grid : Grid) (cols rows : ℤ) (l : List DBomb) (a b : ℕ)
    (h : Covers grid cols rows l a b) : a < l.length ∧ b < l.length := by
  unfold Covers at h
  split at h
  · rename_i sa sb heqa heqb
    exact ⟨shapeAt_some_lt l a sa heqa, shapeAt_some_lt l b sb heqb⟩
  · cases h

theorem tAt_append (l l2 : List DBomb) (j : ℕ) (hj : j < l.length) :
    tAt (l ++ l2) j = tAt l j := by
  unfold tAt
  rw [List.get?_append hj]

theorem shapeAt_append (l l2 : List DBomb) (j : ℕ) (hj : j < l.length) :
    shapeAt (l ++ l2) j = shapeAt l j := by
  unfold shapeAt
  rw [List.get?_append hj]

theorem Covers_append (grid : Grid) (cols rows : ℤ) (l l2 : List DBomb) (a b : ℕ)
    (h : Covers grid cols rows l a b) : Covers grid cols rows (l ++ l2) a b := by
  obtain ⟨ha, hb⟩ := Covers_bounds grid cols rows l a b h
  unfold Covers at h ⊢
  rw [shapeAt_append l l2 a ha, shapeAt_append l l2 b hb]
  exact h

theorem chainStep_snd (grid : Grid) (cols rows : ℤ) (l0 l : List DBomb) (a b : ℕ)
    (hlen : l.length = l0.length)
    (hshape : ∀ i, shapeAt l i = shapeAt l0 i)
    (hsnd : ∀ i, i < l0.length → ∃ j, j < l0.length
      ∧ Relation.ReflTransGen (EdgeC grid cols rows l0) j i ∧ tAt l i = tAt l0 j) :
    ∀ i, i < l0.length → ∃ j, j < l0.length
      ∧ Relation.ReflTransGen (EdgeC grid cols rows l0) j i
      ∧ tAt (chainStep grid cols rows l a b).1 i = tAt l0 j := by
  intro i hi
  rcases chainStep_cases grid cols rows l a b with h | ⟨ba, bb, hga, hgb, hab, hcov, hlt, h⟩
  · rw [h]; exact hsnd i hi
  · rw [h]
    by_cases hib : b = i
    · subst hib
      have ha0 : a < l0.length := by
        have := get?_some_lt l a ba hga
        omega
      rcases hsnd a ha0 with ⟨j, hj, hanc, heq⟩
      refine ⟨j, hj, ?_, ?_⟩
      · refine Relation.ReflTransGen.tail hanc ?_
        refine ⟨hab, ?_⟩
        exact (Covers_congr grid cols rows l0 l hshape a b).mp
          ((Covers_of_get grid cols rows l a b ba bb hga hgb).mpr hcov)
      · have hmin : min ba.explodeAt bb.explodeAt = ba.explodeAt := by
          rcases lt_or_le ba.explodeAt bb.explodeAt with h1 | h1
          · exact min_eq_left (le_of_lt h1)
          · rw [min_eq_right h1] at hlt; exact absurd hlt (lt_irrefl _)
        have hnew : tAt (l.set b { bb with explodeAt := min ba.explodeAt bb.explodeAt }) b
            = ba.explodeAt := by
          unfold tAt
          rw [List.get?_set_eq_of_lt _ (get?_some_lt l b bb hgb)]
          exact hmin
        rw [hnew]
        have h2 : tAt l a = ba.explodeAt := by
          unfold tAt
          rw [hga]
          rfl
        rw [← h2]
        exact heq
    · rcases hsnd i hi with ⟨j, hj, hanc, heq⟩
      refine ⟨j, hj, hanc, ?_⟩
      unfold tAt
      rw [List.get?_set_ne _ _ hib]
      exact heq

theorem passList_snd (grid : Grid) (cols rows : ℤ) (l0 : List DBomb)
    (ps : List (ℕ × ℕ)) :
    ∀ st, st.1.length = l0.length → (∀ i, shapeAt st.1 i = shapeAt l0 i)
      → (∀ i, i < l0.length → ∃ j, j < l0.length
          ∧ Relation.ReflTransGen (EdgeC grid cols rows l0) j i ∧ tAt st.1 i = tAt l0 j)
      → ∀ i, i < l0.length → ∃ j, j < l0.length
          ∧ Relation.ReflTransGen (EdgeC grid cols rows l0) j i
          ∧ tAt (ps.foldl (passStep grid cols rows) st).1 i = tAt l0 j := by
  induction ps with
  | nil => intro st _ _ hsnd i hi; exact hsnd i hi
  | cons x ps ih =>
    intro st hlen hshape hsnd i hi
    rw [List.foldl_cons]
    refine ih (passStep grid cols rows st x) ?_ ?_ ?_ i hi
    · rw [← hlen]
      exact chainStep_len grid cols rows st.1 x.1 x.2
    · intro j
      rw [← hshape j]
      exact chainStep_shape grid cols rows st.1 x.1 x.2 j
    · exact chainStep_snd grid cols rows l0 st.1 x.1 x.2 hlen hshape hsnd

theorem chainIter_snd (grid : Grid) (cols rows : ℤ) (l0 : List DBomb) :
    ∀ fuel l, l.length = l0.length → (∀ i, shapeAt l i = shapeAt l0 i)
      → (∀ i, i < l0.length → ∃ j, j < l0.length
          ∧ Relation.ReflTransGen (EdgeC grid cols rows l0) j i ∧ tAt l i = tAt l0 j)
      → ∀ i, i < l0.length → ∃ j, j < l0.length
          ∧ Relation.ReflTransGen (EdgeC grid cols rows l0) j i
          ∧ tAt (chainIter grid cols rows fuel l) i = tAt l0 j := by
  intro fuel
  induction fuel with
  | zero => intro l _ _ hsnd i hi; exact hsnd i hi
  | succ f ih =>
    intro l hlen hshape hsnd i hi
    rw [chainIter_succ]
    have hplen : (chainPass grid cols rows l).1.length = l0.length := by
      rw [chainPass_eq, passList_len grid cols rows (pairSeq l.length) (l, false)]
      exact hlen
    have hpshape : ∀ j, shapeAt (chainPass grid cols rows l).1 j = shapeAt l0 j := by
      intro j
      rw [chainPass_eq, passList_shape grid cols rows (pairSeq l.length) (l, false) j]
      exact hshape j
    have hpsnd : ∀ j, j < l0.length → ∃ k, k < l0.length
        ∧ Relation.ReflTransGen (EdgeC grid cols rows l0) k j
        ∧ tAt (chainPass grid cols rows l).1 j = tAt l0 k := by
      intro j hj
      rw [chainPass_eq]
      exact passList_snd grid cols rows l0 (pairSeq l.length) (l, false) hlen hshape hsnd j hj
    split
    · exact ih (chainPass grid cols rows l).1 hplen hpshape hpsnd i hi
    · exact hpsnd i hi

theorem fix_comp (grid : Grid) (cols rows : ℤ) (l m : List DBomb)
    (hlen : m.length = l.length)
    (hshape : ∀ i, shapeAt m i = shapeAt l i)
    (hle : ∀ i, tAt m i ≤ tAt l i)
    (hfix : ∀ ab ∈ pairSeq m.length,
      (chainStep grid cols rows m ab.1 ab.2).2 = false) :
    ∀ i j, Relation.ReflTransGen (EdgeC grid cols rows l) j i
      → tAt m i ≤ tAt l j := by
  have key : ∀ i j, Relation.ReflTransGen (EdgeC grid cols rows l) j i
      → tAt m i ≤ tAt m j := by
    intro i j h
    induction h with
    | refl => exact le_refl _
    | @tail k i2 h1 h2 ih =>
      obtain ⟨hne, hcov⟩ := h2
      obtain ⟨hk, hi2⟩ := Covers_bounds grid cols rows l k i2 hcov
      have hkm : k < m.length := by omega
      have him : i2 < m.length := by omega
      have hcovm : Covers grid cols rows m k i2 :=
        (Covers_congr grid cols rows l m hshape k i2).mpr hcov
      have hflag := hfix (k, i2) ((pairSeq_mem m.length (k, i2)).mpr ⟨hkm, him⟩)
      have hgk := List.get?_eq_get hkm
      have hgi := List.get?_eq_get him
      have hineq := chainStep_flag_false_ineq grid cols rows m k i2
        (m.get ⟨k, hkm⟩) (m.get ⟨i2, him⟩) hgk hgi hne hcovm hflag
      exact le_trans hineq ih
  intro i j h
  exact le_trans (key i j h) (hle j)

/-- Appending one bomb can only lower every original bomb's chained
detonation time. -/
theorem chain_new_le_old (grid : Grid) (cols rows : ℤ) (L : List DBomb) (c : DBomb)
    (f1 f2 : ℕ) (h2 : muMeas (timesOf (L ++ [c])) (L ++ [c]) < f2) :
    ∀ i, i < L.length → tAt (chainIter grid cols rows f2 (L ++ [c])) i
      ≤ tAt (chainIter grid cols rows f1 L) i := by
  intro i hi
  rcases chainIter_snd grid cols rows L f1 L rfl (fun _ => rfl)
      (fun j hj => ⟨j, hj, Relation.ReflTransGen.refl, rfl⟩) i hi
    with ⟨j, hj, hanc, heq⟩
  rw [heq]
  have hanc2 : Relation.ReflTransGen (EdgeC grid cols rows (L ++ [c])) j i :=
    Relation.ReflTransGen.mono
      (fun a b hab => ⟨hab.1, Covers_append grid cols rows L [c] a b hab.2⟩) hanc
  have hcomp := fix_comp grid cols rows (L ++ [c]) (chainIter grid cols rows f2 (L ++ [c]))
    (chainIter_len grid cols rows f2 (L ++ [c]))
    (chainIter_shape grid cols rows f2 (L ++ [c]))
    (chainIter_time_le grid cols rows f2 (L ++ [c]))
    (by
      have := chainIter_fix grid cols rows (timesOf (L ++ [c])) f2 (L ++ [c])
        (mem_timesOf (L ++ [c])) h2
      exact this)
    i j hanc2
  rwa [tAt_append L [c] j hj] at hcomp

/-! ##### Pointwise characterization of the stamping fold -/

/-- The per-tile stamp update (`if (existing === undefined || bomb.explodeAt <
existing)`-style min, as written in the code). -/
def mSt (v : ℤ) (o : Option ℤ) : Option ℤ :=
  match o with
  | none => some v
  | some w => if w > v then some v else some w

def dmUpd (v : ℤ) (t : Pos) (dm : ℤ → ℤ → Option ℤ) : ℤ → ℤ → Option ℤ :=
  fun y x => if y = t.2 ∧ x = t.1 then mSt v (dm t.2 t.1) else dm y x

/-- The inner `tiles.forEach` fold of `buildDangerMap`. -/
def dmInner (v : ℤ) (tiles : List Pos) (dm : ℤ → ℤ → Option ℤ) : ℤ → ℤ → Option ℤ :=
  tiles.foldl
    (fun dm2 t =>
      fun y x =>
        if y = t.2 ∧ x = t.1 then
          match dm2 t.2 t.1 with
          | none => some v
          | some w => if w > v then some v else some w
        else dm2 y x)
    dm

/-- The outer `bombList.forEach` fold of `buildDangerMap`. -/
def dmOuter (grid : Grid) (cols rows : ℤ) (L : List DBomb)
    (dm : ℤ → ℤ → Option ℤ) : ℤ → ℤ → Option ℤ :=
  L.foldl
    (fun dm b =>
      dmInner b.explodeAt (computeExplosion grid b.x b.y b.power cols rows).1 dm)
    dm

theorem buildDangerMap_eq (cfg : BotCfg) (cols rows : ℤ) (grid : Grid)
    (bombs : List BombRec) :
    buildDangerMap cfg cols rows grid bombs
    = dmOuter grid cols rows
        (if cfg.chainAwareness then
          chainIter grid cols rows
            ((dangerBombList bombs).length * (dangerBombList bombs).length + 1)
            (dangerBombList bombs)
         else dangerBombList bombs)
        (fun _ _ => none) := rfl

/-- The stamping of one bomb, seen from a fixed tile `(x, y)`. -/
def stampStep (grid : Grid) (cols rows : ℤ) (x y : ℤ) (o : Option ℤ)
    (b : DBomb) : Option ℤ :=
  if (x, y) ∈ (computeExplosion grid b.x b.y b.power cols rows).1 then
    mSt b.explodeAt o
  else o

def stampFold (grid : Grid) (cols rows : ℤ) (x y : ℤ) (L : List DBomb) : Option ℤ :=
  L.foldl (stampStep grid cols rows x y) none

theorem dmInner_nil (v : ℤ) (dm : ℤ → ℤ → Option ℤ) : dmInner v [] dm = dm := rfl

theorem dmInner_cons (v : ℤ) (t : Pos) (ts : List Pos) (dm : ℤ → ℤ → Option ℤ) :
    dmInner v (t :: ts) dm = dmInner v ts (dmUpd v t dm) := rfl

theorem dmUpd_at (v : ℤ) (t : Pos) (dm : ℤ → ℤ → Option ℤ) :
    dmUpd v t dm t.2 t.1 = mSt v (dm t.2 t.1) := by
  unfold dmUpd
  rw [if_pos ⟨rfl, rfl⟩]

theorem dmUpd_ne (v : ℤ) (t : Pos) (dm : ℤ → ℤ → Option ℤ) (y x : ℤ)
    (h : ¬(y = t.2 ∧ x = t.1)) : dmUpd v t dm y x = dm y x := by
  unfold dmUpd
  rw [if_neg h]

theorem mSt_idem (v : ℤ) (o : Option ℤ) : mSt v (mSt v o) = mSt v o := by
  unfold mSt
  cases o with
  | none =>
    dsimp only
    rw [if_neg (lt_irrefl v)]
  | some w =>
    dsimp only
    by_cases h : w > v
    · rw [if_pos h]
      dsimp only
      rw [if_neg (lt_irrefl v)]
    · rw [if_neg h]
      dsimp only
      rw [if_neg h]

theorem dmInner_at (v : ℤ) (tiles : List Pos) :
    ∀ dm y x, dmInner v tiles dm y x
      = if (x, y) ∈ tiles then mSt v (dm y x) else dm y x := by
  induction tiles with
  | nil =>
    intro dm y x
    rw [dmInner_nil, if_neg (List.not_mem_nil _)]
  | cons t ts ih =>
    intro dm y x
    rw [dmInner_cons, ih (dmUpd v t dm) y x]
    by_cases ht : y = t.2 ∧ x = t.1
    · obtain ⟨h1, h2⟩ := ht
      subst h1
      subst h2
      have hcons : (t.1, t.2) ∈ t :: ts := by
        rw [Prod.mk.eta]
        exact List.mem_cons_self t ts
      rw [if_pos hcons]
      by_cases hmem : (t.1, t.2) ∈ ts
      · rw [if_pos hmem, dmUpd_at, mSt_idem]
      · rw [if_neg hmem, dmUpd_at]
    · have hne : (x, y) ≠ t := by
        intro hcontra
        apply ht
        rw [← hcontra]
        exact ⟨rfl, rfl⟩
      have hiff : ((x, y) ∈ t :: ts) ↔ ((x, y) ∈ ts) := by
        rw [List.mem_cons]
        constructor
        · rintro (h | h)
          · exact absurd h hne
          · exact h
        · exact Or.inr
      rw [dmUpd_ne v t dm y x ht]
      by_cases hmem : (x, y) ∈ ts
      · rw [if_pos hmem, if_pos (hiff.mpr hmem)]
      · rw [if_neg hmem, if_neg (fun hc => hmem (hiff.mp hc))]

theorem dmOuter_at (grid : Grid) (cols rows : ℤ) (L : List DBomb) :
    ∀ dm y x, dmOuter grid cols rows L dm y x
      = L.foldl (stampStep grid cols rows x y) (dm y x) := by
  induction L with
  | nil => intro dm y x; rfl
  | cons b L ih =>
    intro dm y x
    have hcons : dmOuter grid cols rows (b :: L) dm
        = dmOuter grid cols rows L
            (dmInner b.explodeAt (computeExplosion grid b.x b.y b.power cols rows).1 dm)
        := rfl
    rw [hcons, ih, List.foldl_cons]
    have hin : dmInner b.explodeAt (computeExplosion grid b.x b.y b.power cols rows).1
          dm y x
        = stampStep grid cols rows x y (dm y x) b := by
      rw [dmInner_at]
      unfold stampStep
      rfl
    rw [hin]

theorem buildDangerMap_at (cfg : BotCfg) (cols rows : ℤ) (grid : Grid)
    (bombs : List BombRec) (y x : ℤ) :
    buildDangerMap cfg cols rows grid bombs y x
    = stampFold grid cols rows x y
        (if cfg.chainAwareness then
          chainIter grid cols rows
            ((dangerBombList bombs).length * (dangerBombList bombs).length + 1)
            (dangerBombList bombs)
         else dangerBombList bombs) := by
  rw [buildDangerMap_eq, dmOuter_at]
  rfl

/-! ##### Monotonicity of the stamp under bomb addition -/

/-- `o2` dominates `o1`: every stamp of `o1` is matched by an equal or
earlier stamp in `o2`. -/
def OptLE (o2 o1 : Option ℤ) : Prop :=
  ∀ t, o1 = some t → ∃ t2, t2 ≤ t ∧ o2 = some t2

theorem OptLE_refl (o : Option ℤ) : OptLE o o := fun t h => ⟨t, le_refl t, h⟩

theorem OptLE_trans (o3 o2 o1 : Option ℤ) (h32 : OptLE o3 o2) (h21 : OptLE o2 o1) :
    OptLE o3 o1 := by
  intro t h1
  obtain ⟨t2, ht2, h2⟩ := h21 t h1
  obtain ⟨t3, ht3, h3⟩ := h32 t2 h2
  exact ⟨t3, le_trans ht3 ht2, h3⟩

theorem stampStep_lower (grid : Grid) (cols rows : ℤ) (x y : ℤ) (o : Option ℤ)
    (b : DBomb) : OptLE (stampStep grid cols rows x y o b) o := by
  unfold stampStep
  by_cases hmem : (x, y) ∈ (computeExplosion grid b.x b.y b.power cols rows).1
  · rw [if_pos hmem]
    intro t h1
    rw [h1]
    unfold mSt
    dsimp only
    by_cases hgt : t > b.explodeAt
    · exact ⟨b.explodeAt, le_of_lt hgt, by rw [if_pos hgt]⟩
    · exact ⟨t, le_refl t, by rw [if_neg hgt]⟩
  · rw [if_neg hmem]
    exact OptLE_refl o

theorem stampStep_mono (grid : Grid) (cols rows : ℤ) (x y : ℤ)
    (o2 o1 : Option ℤ) (b2 b1 : DBomb)
    (hx : b2.x = b1.x) (hy : b2.y = b1.y) (hp : b2.power = b1.power)
    (he : b2.explodeAt ≤ b1.explodeAt) (h : OptLE o2 o1) :
    OptLE (stampStep grid cols rows x y o2 b2) (stampStep grid cols rows x y o1 b1) := by
  unfold stampStep
  rw [hx, hy, hp]
  by_cases hmem : (x, y) ∈ (computeExplosion grid b1.x b1.y b1.power cols rows).1
  · rw [if_pos hmem, if_pos hmem]
    intro t h1
    unfold mSt at h1 ⊢
    cases ho1 : o1 with
    | none =>
      rw [ho1] at h1
      dsimp only at h1
      injection h1 with h1e
      cases ho2 : o2 with
      | none => exact ⟨b2.explodeAt, by omega, rfl⟩
      | some w2 =>
        dsimp only
        by_cases hgt : w2 > b2.explodeAt
        · exact ⟨b2.explodeAt, by omega, by rw [if_pos hgt]⟩
        · exact ⟨w2, by omega, by rw [if_neg hgt]⟩
    | some w1 =>
      rw [ho1] at h1
      dsimp only at h1
      obtain ⟨w2, hw2, ho2⟩ := h w1 ho1
      rw [ho2]
      dsimp only
      by_cases hg1 : w1 > b1.explodeAt
      · rw [if_pos hg1] at h1
        injection h1 with h1e
        by_cases hg2 : w2 > b2.explodeAt
        · exact ⟨b2.explodeAt, by omega, by rw [if_pos hg2]⟩
        · exact ⟨w2, by omega, by rw [if_neg hg2]⟩
      · rw [if_neg hg1] at h1
        injection h1 with h1e
        by_cases hg2 : w2 > b2.explodeAt
        · exact ⟨b2.explodeAt, by omega, by rw [if_pos hg2]⟩
        · exact ⟨w2, by omega, by rw [if_neg hg2]⟩
  · rw [if_neg hmem, if_neg hmem]
    exact h

theorem stampList_mono (grid : Grid) (cols rows : ℤ) (x y : ℤ)
    (l2 l1 : List DBomb)
    (hf : List.Forall₂ (fun b2 b1 => b2.x = b1.x ∧ b2.y = b1.y
        ∧ b2.power = b1.power ∧ b2.explodeAt ≤ b1.explodeAt) l2 l1) :
    ∀ o2 o1, OptLE o2 o1
      → OptLE (l2.foldl (stampStep grid cols rows x y) o2)
          (l1.foldl (stampStep grid cols rows x y) o1) := by
  induction hf with
  | nil => intro o2 o1 h; exact h
  | @cons b2 b1 t2 t1 hb hrest ih =>
    intro o2 o1 h
    rw [List.foldl_cons, List.foldl_cons]
    exact ih (stampStep grid cols rows x y o2 b2) (stampStep grid cols rows x y o1 b1)
      (stampStep_mono grid cols rows x y o2 o1 b2 b1 hb.1 hb.2.1 hb.2.2.1 hb.2.2.2 h)

theorem stampList_lower (grid : Grid) (cols rows : ℤ) (x y : ℤ) (l : List DBomb) :
    ∀ o, OptLE (l.foldl (stampStep grid cols rows x y) o) o := by
  induction l with
  | nil => intro o; exact OptLE_refl o
  | cons b l ih =>
    intro o
    rw [List.foldl_cons]
    exact OptLE_trans _ _ _ (ih (stampStep grid cols rows x y o b))
      (stampStep_lower grid cols rows x y o b)

theorem stampFold_mono (grid : Grid) (cols rows : ℤ) (x y : ℤ)
    (l2 l1 : List DBomb) (hlen : l1.length ≤ l2.length)
    (hshape : ∀ i, i < l1.length → shapeAt l2 i = shapeAt l1 i)
    (htime : ∀ i, i < l1.length → tAt l2 i ≤ tAt l1 i) :
    OptLE (stampFold grid cols rows x y l2) (stampFold grid cols rows x y l1) := by
  have hsplit : l2.take l1.length ++ l2.drop l1.length = l2 :=
    List.take_append_drop _ _
  unfold stampFold
  rw [← hsplit, List.foldl_append]
  refine OptLE_trans _ _ _ (stampList_lower grid cols rows x y (l2.drop l1.length) _) ?_
  refine stampList_mono grid cols rows x y (l2.take l1.length) l1 ?_ none none
    (OptLE_refl none)
  rw [List.forall₂_iff_get]
  constructor
  · rw [List.length_take]
    omega
  · intro i h1 h2
    have hn : i < l1.length := h2
    have hg2 : l2.get? i = some ((l2.take l1.length).get ⟨i, h1⟩) := by
      rw [← List.get?_take hn]
      exact List.get?_eq_get h1
    have hg1 : l1.get? i = some (l1.get ⟨i, h2⟩) := List.get?_eq_get h2
    have hsh := hshape i hn
    unfold shapeAt at hsh
    rw [hg2, hg1] at hsh
    have hsh2 : ((l2.take l1.length).get ⟨i, h1⟩).x = (l1.get ⟨i, h2⟩).x
        ∧ ((l2.take l1.length).get ⟨i, h1⟩).y = (l1.get ⟨i, h2⟩).y
        ∧ ((l2.take l1.length).get ⟨i, h1⟩).power = (l1.get ⟨i, h2⟩).power := by
      have := Option.some.inj hsh
      simp only [Prod.mk.injEq] at this
      exact this
    have hti := htime i hn
    unfold tAt at hti
    rw [hg2, hg1] at hti
    exact ⟨hsh2.1, hsh2.2.1, hsh2.2.2, hti⟩

/-- C6: the hazard map is monotonic under bomb addition — for every
difficulty config, grid and bomb set, building the danger map for the set
plus one extra bomb yields, at every tile, a stamp that is either
unchanged, newly added where there was none, or an earlier timestamp than
before; never a removed stamp and never a later timestamp. -/
theorem claim_C6 (cfg : BotCfg) (cols rows : ℤ) (grid : Grid)
    (bombs : List BombRec) (c : BombRec) (y x t : ℤ)
    (h : buildDangerMap cfg cols rows grid bombs y x = some t) :
    ∃ t2, t2 ≤ t ∧ buildDangerMap cfg cols rows grid (bombs ++ [c]) y x = some t2 := by
  rw [buildDangerMap_at] at h ⊢
  have hdl : dangerBombList (bombs ++ [c])
      = dangerBombList bombs ++ [⟨c.x, c.y, c.explodeAt, DEFAULT_POWER⟩] := by
    unfold dangerBombList
    rw [List.map_append]
    rfl
  by_cases hca : cfg.chainAwareness = true
  · rw [if_pos hca] at h ⊢
    rw [hdl]
    refine stampFold_mono grid cols rows x y _ _ ?_ ?_ ?_ t h
    · rw [chainIter_len grid cols rows, chainIter_len grid cols rows,
        List.length_append]
      exact Nat.le_add_right _ _
    · intro i hi
      rw [chainIter_len grid cols rows] at hi
      rw [chainIter_shape grid cols rows, chainIter_shape grid cols rows]
      exact shapeAt_append _ _ i hi
    · intro i hi
      rw [chainIter_len grid cols rows] at hi
      refine chain_new_le_old grid cols rows (dangerBombList bombs)
        (⟨c.x, c.y, c.explodeAt, DEFAULT_POWER⟩ : DBomb) _ _ ?_ i hi
      have hle := mu_le
        (timesOf (dangerBombList bombs ++ [(⟨c.x, c.y, c.explodeAt, DEFAULT_POWER⟩ : DBomb)]))
        (dangerBombList bombs ++ [(⟨c.x, c.y, c.explodeAt, DEFAULT_POWER⟩ : DBomb)])
      have hlt : (timesOf (dangerBombList bombs
            ++ [(⟨c.x, c.y, c.explodeAt, DEFAULT_POWER⟩ : DBomb)])).length
          = (dangerBombList bombs ++ [(⟨c.x, c.y, c.explodeAt, DEFAULT_POWER⟩ : DBomb)]).length :=
        List.length_map _ _
      rw [hlt] at hle
      exact Nat.lt_succ_of_le hle
  · rw [if_neg hca] at h ⊢
    rw [hdl]
    refine stampFold_mono grid cols rows x y _ _ ?_ ?_ ?_ t h
    · rw [List.length_append]
      exact Nat.le_add_right _ _
    · intro i hi
      exact shapeAt_append _ _ i hi
    · intro i hi
      rw [tAt_append _ _ i hi]

theorem claim_C6_witness :
    buildDangerMap mediumCfg 7 7 (fun _ _ => EMPTY)
        [⟨1, 1, "p1", 3000⟩] 1 1 = some 3000
    ∧ ∃ t2, t2 ≤ 3000 ∧ buildDangerMap mediumCfg 7 7 (fun _ _ => EMPTY)
        ([⟨1, 1, "p1", 3000⟩] ++ [⟨3, 1, "p2", 1000⟩]) 1 1 = some t2 :=
  ⟨by decide,
    claim_C6 mediumCfg 7 7 (fun _ _ => EMPTY) [⟨1, 1, "p1", 3000⟩]
      ⟨3, 1, "p2", 1000⟩ 1 1 3000 (by decide)⟩

/-! ### GameRoom (server) embedding

MapSchema maps are assoc lists in insertion order; `Date.now()` is the
explicit `now` parameter; the un-fueled `detonateBomb` recursion carries a
fuel argument (callers pass one more than the live bomb count). -/

def alookup {α : Type} (l : List (String × α)) (k : String) : Option α :=
  (l.find? (fun kv => decide (kv.1 = k))).map Prod.snd

/-- `obj[k] = v` on a plain-object map (insert or overwrite). -/
def aupd {α : Type} (l : List (String × α)) (k : String) (v : α) :
    List (String × α) :=
  if l.any (fun kv => decide (kv.1 = k)) then
    l.map (fun kv => if kv.1 = k then (k, v) else kv)
  else l ++ [(k, v)]

/-- `map.delete(k)`. -/
def adel {α : Type} (l : List (String × α)) (k : String) : List (String × α) :=
  l.filter (fun kv => decide (¬ kv.1 = k))

/-- In-place mutation of the entry under `k`. -/
def amod {α : Type} (l : List (String × α)) (k : String) (f : α → α) :
    List (String × α) :=
  l.map (fun kv => if kv.1 = k then (kv.1, f kv.2) else kv)

structure RQEntry where
  entityId : String
  respawnAt : ℤ
  isNpc : Bool
deriving DecidableEq

structure RoomState where
  status : String
  result : String
  gameMode : String
  killTarget : ℤ
  roomCols : ℤ
  roomRows : ℤ
  grid : Grid
  stateMap : ℤ → ℕ
  hiddenPowerups : Grid
  blockCount : ℤ
  lateGameActive : Bool
  lateGameStartedAt : ℤ
  players : List (String × Ent)
  npcs : List (String × Ent)
  bombs : List (String × BombRec)
  respawnQueue : List RQEntry
  playerLastMove : List (String × ℤ)
  npcLastMove : List (String × ℤ)
  moveDelay : ℤ
  bombIdCounter : ℕ
  events : List String

def updEnt (s : RoomState) (id2 : String) (isNpc : Bool) (f : Ent → Ent) :
    RoomState :=
  if isNpc then { s with npcs := amod s.npcs id2 f }
  else { s with players := amod s.players id2 f }

/-- `players.get(k) || npcs.get(k)` mutation target. -/
def updEither (s : RoomState) (id2 : String) (f : Ent → Ent) : RoomState :=
  match alookup s.players id2 with
  | some _ => { s with players := amod s.players id2 f }
  | none =>
    match alookup s.npcs id2 with
    | some _ => { s with npcs := amod s.npcs id2 f }
    | none => s

def addEv (s : RoomState) (e : String) : RoomState :=
  { s with events := s.events ++ [e] }

/-- `applyPowerup` helper. -/
def applyPowerup (e : Ent) (tileType : ℕ) : Ent :=
  if tileType = POWERUP_FLAMETHROWER then { e with powerupType := 1, powerupUses := 3 }
  else if tileType = POWERUP_RAYGUN then { e with powerupType := 2, powerupUses := 3 }
  else if tileType = POWERUP_SHIELD then { e with hasShield := true }
  else e

def gridSet (g : Grid) (y x : ℤ) (v : ℕ) : Grid :=
  fun y2 x2 => if y2 = y ∧ x2 = x then v else g y2 x2

def flatSet (m : ℤ → ℕ) (i : ℤ) (v : ℕ) : ℤ → ℕ :=
  fun j => if j = i then v else m j

/-- `GameRoom.killEntity`. -/
def killEntity (s : RoomState) (entityId : String) (isNpc : Bool)
    (killerId : Option String) (now : ℤ) : RoomState :=
  match (if isNpc then alookup s.npcs entityId else alookup s.players entityId) with
  | none => s
  | some e =>
    if e.invincibleUntil > now then s
    else if e.hasShield then
      addEv (updEnt s entityId isNpc (fun e0 => { e0 with hasShield := false }))
        "shieldAbsorb"
    else
      let s1 := updEnt s entityId isNpc (fun e0 => { e0 with alive := false })
      let s2 :=
        match killerId with
        | some k =>
          if k ≠ entityId then
            updEither s1 k (fun e0 => { e0 with kills := e0.kills + 1 })
          else s1
        | none => s1
      if s.gameMode = "classic" then
        updEnt s2 entityId isNpc (fun e0 => { e0 with lives := 0 })
      else
        let s3 := updEnt s2 entityId isNpc (fun e0 => { e0 with lives := e0.lives - 1 })
        if e.lives - 1 ≤ 0 then s3
        else
          let delay : ℤ := if s.gameMode = "kills" then 1500 else 2000
          let s4 := updEnt s3 entityId isNpc
            (fun e0 => { e0 with respawnAt := now + delay })
          { s4 with respawnQueue := s4.respawnQueue ++ [⟨entityId, now + delay, isNpc⟩] }

/-- One entry of the respawn filter in `GameRoom.tick`. -/
def respawnStep (now : ℤ) (acc : RoomState × List RQEntry) (entry : RQEntry) :
    RoomState × List RQEntry :=
  if now ≥ entry.respawnAt then
    match (if entry.isNpc then alookup acc.1.npcs entry.entityId
           else alookup acc.1.players entry.entityId) with
    | some e =>
      if e.alive = false ∧ e.lives > 0 then
        (updEnt acc.1 entry.entityId entry.isNpc
          (fun e0 => { e0 with
            alive := true
            x := e0.spawnX
            y := e0.spawnY
            respawnAt := 0
            hasShield := false
            powerupType := 0
            powerupUses := 0
            bombsAvailable := MAX_BOMBS
            invincibleUntil := now + 1500 }), acc.2)
      else (acc.1, acc.2)
    | none => (acc.1, acc.2)
  else (acc.1, acc.2 ++ [entry])

/-- The respawn-processing block of `GameRoom.tick`. -/
def processRespawns (s : RoomState) (now : ℤ) : RoomState :=
  let r := s.respawnQueue.foldl (respawnStep now) (s, [])
  { r.1 with respawnQueue := r.2 }

def dirDelta (dir : String) : Option (ℤ × ℤ) :=
  if dir = "up" then some (0, -1)
  else if dir = "down" then some (0, 1)
  else if dir = "left" then some (-1, 0)
  else if dir = "right" then some (1, 0)
  else none

/-- `GameRoom.handleMove`. -/
def handleMove (s : RoomState) (sessionId dir : String) (now : ℤ) : RoomState :=
  if s.status ≠ "playing" then s else
  match alookup s.players sessionId with
  | none => s
  | some p =>
    if p.alive = false then s else
    if now - (alookup s.playerLastMove sessionId).getD 0 < s.moveDelay then s else
    match dirDelta dir with
    | none => s
    | some d =>
      let s1 := updEnt s sessionId false (fun e0 => { e0 with facing := dir })
      let nx := p.x + d.1
      let ny := p.y + d.2
      if nx < 0 ∨ nx ≥ s1.roomCols ∨ ny < 0 ∨ ny ≥ s1.roomRows then s1 else
      if s1.grid ny nx = WALL ∨ s1.grid ny nx = BLOCK then s1 else
      if s1.bombs.any (fun kv => decide (kv.2.x = nx ∧ kv.2.y = ny)) then s1 else
      let s2 := updEnt s1 sessionId false (fun e0 => { e0 with x := nx, y := ny })
      let s3 := { s2 with playerLastMove := aupd s2.playerLastMove sessionId now }
      let tileAtNew := s3.grid ny nx
      if 3 ≤ tileAtNew ∧ tileAtNew ≤ 5 then
        let s4 := updEnt s3 sessionId false (fun e0 => applyPowerup e0 tileAtNew)
        { s4 with
          grid := gridSet s4.grid ny nx EMPTY
          stateMap := flatSet s4.stateMap (ny * s4.roomCols + nx) EMPTY }
      else s3

/-- `GameRoom.handleNpcMove`. -/
def handleNpcMove (s : RoomState) (npcId dir : String) (now : ℤ) : RoomState :=
  match alookup s.npcs npcId with
  | none => s
  | some p =>
    if now - (alookup s.npcLastMove npcId).getD 0 < s.moveDelay then s else
    match dirDelta dir with
    | none => s
    | some d =>
      let s1 := updEnt s npcId true (fun e0 => { e0 with facing := dir })
      let nx := p.x + d.1
      let ny := p.y + d.2
      if nx < 0 ∨ nx ≥ s1.roomCols ∨ ny < 0 ∨ ny ≥ s1.roomRows then s1 else
      if s1.grid ny nx = WALL ∨ s1.grid ny nx = BLOCK then s1 else
      if s1.bombs.any (fun kv => decide (kv.2.x = nx ∧ kv.2.y = ny)) then s1 else
      let s2 := updEnt s1 npcId true (fun e0 => { e0 with x := nx, y := ny })
      let s3 := { s2 with npcLastMove := aupd s2.npcLastMove npcId now }
      let tileAtNew := s3.grid ny nx
      if 3 ≤ tileAtNew ∧ tileAtNew ≤ 5 then
        let s4 := updEnt s3 npcId true (fun e0 => applyPowerup e0 tileAtNew)
        { s4 with
          grid := gridSet s4.grid ny nx EMPTY
          stateMap := flatSet s4.stateMap (ny * s4.roomCols + nx) EMPTY }
      else s3

def bombKey (n : ℕ) : String := "b" ++ toString n

/-- `GameRoom.handleBomb`. -/
def handleBomb (s : RoomState) (sessionId : String) (now : ℤ) : RoomState :=
  if s.status ≠ "playing" then s else
  match alookup s.players sessionId with
  | none => s
  | some p =>
    if p.alive = false then s else
    if p.bombsAvailable ≤ 0 then s else
    if s.bombs.any (fun kv => decide (kv.2.x = p.x ∧ kv.2.y = p.y)) then s else
    let s1 := { s with
      bombs := s.bombs ++ [(bombKey s.bombIdCounter,
        (⟨p.x, p.y, sessionId, now + BOMB_FUSE⟩ : BombRec))]
      bombIdCounter := s.bombIdCounter + 1 }
    updEnt s1 sessionId false (fun e0 => { e0 with bombsAvailable := e0.bombsAvailable - 1 })

/-- `GameRoom.handleNpcBomb`. -/
def handleNpcBomb (s : RoomState) (npcId : String) (now : ℤ) : RoomState :=
  match alookup s.npcs npcId with
  | none => s
  | some p =>
    if p.bombsAvailable ≤ 0 then s else
    if s.bombs.any (fun kv => decide (kv.2.x = p.x ∧ kv.2.y = p.y)) then s else
    let s1 := { s with
      bombs := s.bombs ++ [(bombKey s.bombIdCounter,
        (⟨p.x, p.y, npcId, now + BOMB_FUSE⟩ : BombRec))]
      bombIdCounter := s.bombIdCounter + 1 }
    updEnt s1 npcId true (fun e0 => { e0 with bombsAvailable := e0.bombsAvailable - 1 })

/-- The block-destruction step of `detonateBomb` / `fireWeapon`. -/
def destroyTile (st : RoomState) (d : Pos) : RoomState :=
  if st.hiddenPowerups d.2 d.1 > 0 then
    { st with
      grid := gridSet st.grid d.2 d.1 (st.hiddenPowerups d.2 d.1)
      stateMap := flatSet st.stateMap (d.2 * st.roomCols + d.1)
        (st.hiddenPowerups d.2 d.1)
      hiddenPowerups := gridSet st.hiddenPowerups d.2 d.1 0 }
  else
    { st with
      grid := gridSet st.grid d.2 d.1 EMPTY
      stateMap := flatSet st.stateMap (d.2 * st.roomCols + d.1) EMPTY }

def creditOwner (st : RoomState) (ownerId : String) : RoomState :=
  updEither st ownerId (fun e0 => { e0 with bombsAvailable := e0.bombsAvailable + 1 })

/-- The blast-kill forEach of `detonateBomb` / `fireWeapon` over one map's
keys (entities are re-read from the evolving state, as a live forEach does;
`excludeId` is `fireWeapon`'s shooter skip). -/
def killEntitiesOnTiles (s : RoomState) (keys : List String) (isNpc : Bool)
    (tiles : List Pos) (killerId : Option String) (excludeId : Option String)
    (now : ℤ) : RoomState :=
  keys.foldl
    (fun st k =>
      if excludeId = some k then st
      else
        match (if isNpc then alookup st.npcs k else alookup st.players k) with
        | some p =>
          if p.alive ∧ tiles.any (fun t => decide (t.1 = p.x ∧ t.2 = p.y)) then
            killEntity st k isNpc killerId now
          else st
        | none => st) s

/-- `owner ? owner.power : DEFAULT_POWER` of `detonateBomb`. -/
def ownerPower (s : RoomState) (oid : String) : ℕ :=
  match alookup s.players oid with
  | some o => o.power
  | none =>
    match alookup s.npcs oid with
    | some o => o.power
    | none => DEFAULT_POWER

/-- The blast of a bomb in the room. -/
def blastOfRoom (s : RoomState) (bomb : BombRec) : List Pos × List Pos :=
  computeExplosion s.grid bomb.x bomb.y (ownerPower s bomb.ownerId)
    s.roomCols s.roomRows

/-- `detonateBomb` up to (and including) the explosion broadcast: block
destruction, late-game trigger and blast kills. -/
def detonatePre (now : ℤ) (s : RoomState) (bomb : BombRec) : RoomState :=
  let r := blastOfRoom s bomb
  let s1 := r.2.foldl destroyTile s
  let s2 := { s1 with blockCount := s1.blockCount - r.2.length }
  let s3 := if s2.blockCount ≤ 0 ∧ s2.lateGameActive = false then
      { s2 with lateGameActive := true, lateGameStartedAt := now } else s2
  let s4 := killEntitiesOnTiles s3 (s3.players.map Prod.fst) false r.1
    (some bomb.ownerId) none now
  let s5 := killEntitiesOnTiles s4 (s4.npcs.map Prod.fst) true r.1
    (some bomb.ownerId) none now
  addEv s5 "explosion"

/-- `chainsToExplode` of `detonateBomb`. -/
def detonateChainIds (now : ℤ) (s : RoomState) (bomb : BombRec) : List String :=
  ((detonatePre now s bomb).bombs.filter
    (fun kv => (blastOfRoom s bomb).1.any
      (fun t => decide (t.1 = kv.2.x ∧ t.2 = kv.2.y)))).map Prod.fst

/-- `GameRoom.detonateBomb`, with an explicit recursion fuel. -/
def detonateFuel (now : ℤ) : ℕ → RoomState → BombRec → RoomState
  | 0, s, _ => s
  | fuel+1, s, bomb =>
    (detonateChainIds now s bomb).foldl
      (fun st id2 =>
        match alookup st.bombs id2 with
        | some cb =>
          detonateFuel now fuel
            { creditOwner st cb.ownerId with
              bombs := adel (creditOwner st cb.ownerId).bombs id2 } cb
        | none => st) (detonatePre now s bomb)

/-- One chain-detonation iteration (`bombs.get`, credit, delete, recurse). -/
def chainStepF (now : ℤ) (fuel : ℕ) (st : RoomState) (id2 : String) : RoomState :=
  match alookup st.bombs id2 with
  | some cb =>
    detonateFuel now fuel
      { creditOwner st cb.ownerId with
        bombs := adel (creditOwner st cb.ownerId).bombs id2 } cb
  | none => st

/-- `GameRoom.fireWeapon` (chain detonations carry adequate fuel). -/
def fireWeapon (s : RoomState) (entityId : String) (isNpc : Bool) (now : ℤ) :
    RoomState :=
  match (if isNpc then alookup s.npcs entityId else alookup s.players entityId) with
  | none => s
  | some e =>
    let ro : Option ((List Pos × List Pos) × String) :=
      if e.powerupType = 1 then
        some (computeFlamethrowerShot s.grid e.x e.y e.facing s.roomCols s.roomRows,
          "flamethrower")
      else if e.powerupType = 2 then
        some (computeRaygunShot s.grid e.x e.y e.facing s.roomCols s.roomRows,
          "raygun")
      else none
    match ro with
    | none => s
    | some rw =>
      let s1 := updEnt s entityId isNpc (fun e0 =>
        if e0.powerupUses - 1 ≤ 0 then
          { e0 with powerupType := 0, powerupUses := 0 }
        else { e0 with powerupUses := e0.powerupUses - 1 })
      let s2 := rw.1.2.foldl destroyTile s1
      let s3 := { s2 with blockCount := s2.blockCount - rw.1.2.length }
      let s4 := if s3.blockCount ≤ 0 ∧ s3.lateGameActive = false then
          { s3 with lateGameActive := true, lateGameStartedAt := now } else s3
      let s5 := killEntitiesOnTiles s4 (s4.players.map Prod.fst) false rw.1.1
        (some entityId) (some entityId) now
      let s6 := killEntitiesOnTiles s5 (s5.npcs.map Prod.fst) true rw.1.1
        (some entityId) (some entityId) now
      let chains := (s6.bombs.filter
        (fun kv => rw.1.1.any (fun t => decide (t.1 = kv.2.x ∧ t.2 = kv.2.y)))).map
          Prod.fst
      let s7 := addEv s6 "weaponFire"
      chains.foldl (chainStepF now s7.bombs.length) s7

/-- `GameRoom.handleWeaponFire`. -/
def handleWeaponFire (s : RoomState) (sessionId : String) (now : ℤ) : RoomState :=
  if s.status ≠ "playing" then s else
  match alookup s.players sessionId with
  | none => s
  | some p =>
    if p.alive = false then s else
    if p.powerupType = 0 ∨ p.powerupUses ≤ 0 then s else
    fireWeapon s sessionId false now

/-- `GameRoom.handleNpcWeaponFire`. -/
def handleNpcWeaponFire (s : RoomState) (npcId : String) (now : ℤ) : RoomState :=
  match alookup s.npcs npcId with
  | none => s
  | some npc0 =>
    if npc0.alive = false then s else
    if npc0.powerupType = 0 ∨ npc0.powerupUses ≤ 0 then s else
    fireWeapon s npcId true now

/-- The `"fire"` dispatch of `updateBots` (facing set, then fire). -/
def npcFire (s : RoomState) (npcId dir : String) (now : ℤ) : RoomState :=
  match alookup s.npcs npcId with
  | none => s
  | some _ =>
    handleNpcWeaponFire (updEnt s npcId true (fun e0 => { e0 with facing := dir }))
      npcId now

/-- One expired-bomb iteration of `GameRoom.tick` (detonate while the bomb
is still in the map, then credit the owner and delete it). -/
def tickStep (now : ℤ) (st : RoomState) (id2 : String) : RoomState :=
  match alookup st.bombs id2 with
  | none => st
  | some bomb =>
    let st1 := detonateFuel now (st.bombs.length + 1) st bomb
    let st2 := creditOwner st1 bomb.ownerId
    { st2 with bombs := adel st2.bombs id2 }

/-- The bomb-timer block of `GameRoom.tick`. -/
def tickBombs (s : RoomState) (now : ℤ) : RoomState :=
  ((s.bombs.filter (fun kv => decide (now ≥ kv.2.explodeAt))).map Prod.fst).foldl
    (tickStep now) s

/-! ##### Bombs are only appended by the bomb handlers and deleted by
detonation; everything else leaves them alone -/

theorem updEnt_bombs (s : RoomState) (id2 : String) (n : Bool) (f : Ent → Ent) :
    (updEnt s id2 n f).bombs = s.bombs := by
  unfold updEnt
  split <;> rfl

theorem updEither_bombs (s : RoomState) (id2 : String) (f : Ent → Ent) :
    (updEither s id2 f).bombs = s.bombs := by
  unfold updEither
  repeat' split
  all_goals rfl

theorem addEv_bombs (s : RoomState) (e : String) : (addEv s e).bombs = s.bombs := rfl

theorem creditOwner_bombs (s : RoomState) (oid : String) :
    (creditOwner s oid).bombs = s.bombs := updEither_bombs s oid _

theorem destroyTile_bombs (s : RoomState) (d : Pos) :
    (destroyTile s d).bombs = s.bombs := by
  unfold destroyTile
  split <;> rfl

theorem destroyFold_bombs (ds : List Pos) :
    ∀ s, ((ds.foldl destroyTile s).bombs) = s.bombs := by
  induction ds with
  | nil => intro s; rfl
  | cons d ds ih =>
    intro s
    rw [List.foldl_cons, ih (destroyTile s d)]
    exact destroyTile_bombs s d

theorem killEntity_bombs (s : RoomState) (id2 : String) (n : Bool)
    (kid : Option String) (now : ℤ) : (killEntity s id2 n kid now).bombs = s.bombs := by
  unfold killEntity
  repeat' split
  all_goals simp only [addEv_bombs, updEnt_bombs, updEither_bombs]

theorem killEntitiesOnTiles_bombs (isNpc : Bool) (tiles : List Pos)
    (kid ex : Option String) (now : ℤ) : ∀ (keys : List String) (s : RoomState),
    (killEntitiesOnTiles s keys isNpc tiles kid ex now).bombs = s.bombs := by
  intro keys
  induction keys with
  | nil => intro s; rfl
  | cons k ks ih =>
    intro s
    have hcons : killEntitiesOnTiles s (k :: ks) isNpc tiles kid ex now
        = killEntitiesOnTiles
            (if ex = some k then s
             else
               match (if isNpc then alookup s.npcs k else alookup s.players k) with
               | some p =>
                 if p.alive ∧ tiles.any (fun t => decide (t.1 = p.x ∧ t.2 = p.y)) then
                   killEntity s k isNpc kid now
                 else s
               | none => s) ks isNpc tiles kid ex now := rfl
    rw [hcons, ih]
    repeat' split
    all_goals (first | rfl | exact killEntity_bombs s k isNpc kid now)

theorem detonatePre_bombs (now : ℤ) (s : RoomState) (bomb : BombRec) :
    (detonatePre now s bomb).bombs = s.bombs := by
  unfold detonatePre
  rw [addEv_bombs, killEntitiesOnTiles_bombs, killEntitiesOnTiles_bombs]
  split
  · exact destroyFold_bombs _ s
  · exact destroyFold_bombs _ s

theorem detonateFuel_succ (now : ℤ) (fuel : ℕ) (s : RoomState) (bomb : BombRec) :
    detonateFuel now (fuel+1) s bomb
    = (detonateChainIds now s bomb).foldl (chainStepF now fuel)
        (detonatePre now s bomb) := rfl

theorem adel_length_lt {α : Type} (l : List (String × α)) (k : String) (v : α)
    (h : alookup l k = some v) : (adel l k).length < l.length := by
  induction l with
  | nil => simp [alookup] at h
  | cons a l ih =>
    unfold adel at ih ⊢
    rw [List.filter_cons]
    by_cases hk : a.1 = k
    · rw [if_neg (by simp [hk])]
      have := List.length_filter_le (fun kv => decide (¬ kv.1 = k)) l
      simp only [List.length_cons]
      omega
    · rw [if_pos (by simp [hk])]
      have h2 : alookup l k = some v := by
        unfold alookup at h ⊢
        rw [List.find?_cons_of_neg] at h
        · exact h
        · simp [hk]
      have := ih h2
      simp only [List.length_cons]
      omega

theorem chainFold_sublist_of (now : ℤ) (fuel : ℕ)
    (h : ∀ s2 b2, ((detonateFuel now fuel s2 b2).bombs).Sublist s2.bombs) :
    ∀ (ids : List String) (st : RoomState),
      ((ids.foldl (chainStepF now fuel) st).bombs).Sublist st.bombs := by
  intro ids
  induction ids with
  | nil => intro st; exact List.Sublist.refl _
  | cons id2 ids ih =>
    intro st
    rw [List.foldl_cons]
    refine List.Sublist.trans (ih (chainStepF now fuel st id2)) ?_
    unfold chainStepF
    split
    · rename_i cb hcb
      refine List.Sublist.trans (h _ cb) ?_
      show ((adel (creditOwner st cb.ownerId).bombs id2)).Sublist st.bombs
      rw [creditOwner_bombs]
      exact List.filter_sublist _
    · exact List.Sublist.refl _

theorem detonate_bombs_sublist (now : ℤ) :
    ∀ (fuel : ℕ) (s : RoomState) (b : BombRec),
      ((detonateFuel now fuel s b).bombs).Sublist s.bombs := by
  intro fuel
  induction fuel with
  | zero => intro s b; exact List.Sublist.refl _
  | succ f ih =>
    intro s b
    rw [detonateFuel_succ]
    have h1 := chainFold_sublist_of now f (fun s2 b2 => ih s2 b2)
      (detonateChainIds now s b) (detonatePre now s b)
    rw [detonatePre_bombs] at h1
    exact h1

theorem chainStepF_bombs_sublist (now : ℤ) (fuel : ℕ) (st : RoomState)
    (id2 : String) : ((chainStepF now fuel st id2).bombs).Sublist st.bombs := by
  unfold chainStepF
  split
  · rename_i cb hcb
    refine List.Sublist.trans (detonate_bombs_sublist now fuel _ cb) ?_
    show ((adel (creditOwner st cb.ownerId).bombs id2)).Sublist st.bombs
    rw [creditOwner_bombs]
    exact List.filter_sublist _
  · exact List.Sublist.refl _

theorem chainFold_congr (now : ℤ) (n : ℕ)
    (hIH : ∀ (s2 : RoomState) (b2 : BombRec) (f1 f2 : ℕ), s2.bombs.length < n
      → s2.bombs.length < f1 → s2.bombs.length < f2
      → detonateFuel now f1 s2 b2 = detonateFuel now f2 s2 b2) :
    ∀ (ids : List String) (st : RoomState) (g1 g2 : ℕ), st.bombs.length ≤ n
      → n ≤ g1 → n ≤ g2
      → ids.foldl (chainStepF now g1) st = ids.foldl (chainStepF now g2) st := by
  intro ids
  induction ids with
  | nil => intro st g1 g2 _ _ _; rfl
  | cons id2 ids ih =>
    intro st g1 g2 hst hg1 hg2
    rw [List.foldl_cons, List.foldl_cons]
    have hstep : chainStepF now g1 st id2 = chainStepF now g2 st id2 := by
      unfold chainStepF
      split
      · rename_i cb hcb
        have hlt : (adel (creditOwner st cb.ownerId).bombs id2).length
            < st.bombs.length := by
          rw [creditOwner_bombs]
          exact adel_length_lt st.bombs id2 cb hcb
        refine hIH _ cb g1 g2 ?_ ?_ ?_
        · show (adel (creditOwner st cb.ownerId).bombs id2).length < n
          omega
        · show (adel (creditOwner st cb.ownerId).bombs id2).length < g1
          omega
        · show (adel (creditOwner st cb.ownerId).bombs id2).length < g2
          omega
      · rfl
    rw [hstep]
    refine ih (chainStepF now g2 st id2) g1 g2 ?_ hg1 hg2
    have hsub := (chainStepF_bombs_sublist now g2 st id2).length_le
    omega

theorem detonateFuel_congr (now : ℤ) :
    ∀ (n : ℕ) (s : RoomState) (b : BombRec) (f1 f2 : ℕ), s.bombs.length ≤ n
      → s.bombs.length < f1 → s.bombs.length < f2
      → detonateFuel now f1 s b = detonateFuel now f2 s b := by
  intro n
  induction n with
  | zero =>
    intro s b f1 f2 hn h1 h2
    cases f1 with
    | zero => exact absurd h1 (Nat.not_lt_zero _)
    | succ g1 =>
      cases f2 with
      | zero => exact absurd h2 (Nat.not_lt_zero _)
      | succ g2 =>
        rw [detonateFuel_succ, detonateFuel_succ]
        refine chainFold_congr now 0
          (fun s2 b2 fa fb ha _ _ => absurd ha (Nat.not_lt_zero _))
          (detonateChainIds now s b) (detonatePre now s b) g1 g2 ?_ ?_ ?_
        · rw [detonatePre_bombs]; omega
        · omega
        · omega
  | succ n ih =>
    intro s b f1 f2 hn h1 h2
    cases f1 with
    | zero => exact absurd h1 (Nat.not_lt_zero _)
    | succ g1 =>
      cases f2 with
      | zero => exact absurd h2 (Nat.not_lt_zero _)
      | succ g2 =>
        rw [detonateFuel_succ, detonateFuel_succ]
        refine chainFold_congr now s.bombs.length
          (fun s2 b2 fa fb ha hb hc => ih s2 b2 fa fb (by omega) hb hc)
          (detonateChainIds now s b) (detonatePre now s b) g1 g2 ?_ ?_ ?_
        · rw [detonatePre_bombs]
        · omega
        · omega

/-- C5: detonating a bomb terminates for every finite bomb set — the
remove-before-recurse chain recursion is insensitive to any recursion
budget of at least one more than the number of live bombs (so the
unbounded JS recursion is well-defined even with cyclic blast overlaps),
and detonation never adds bombs: the surviving bomb list is a sublist of
the original. -/
theorem claim_C5 (now : ℤ) (s : RoomState) (b : BombRec) (fuel : ℕ)
    (h : s.bombs.length + 1 ≤ fuel) :
    detonateFuel now fuel s b = detonateFuel now (s.bombs.length + 1) s b
    ∧ ((detonateFuel now fuel s b).bombs).Sublist s.bombs := by
  constructor
  · exact detonateFuel_congr now s.bombs.length s b fuel (s.bombs.length + 1)
      (le_refl _) (by omega) (by omega)
  · exact detonate_bombs_sublist now fuel s b

def wEntR : Ent :=
  ⟨1, 1, true, 1, 2, 0, 0, 0, false, "down", 1, 0, 0, 1, 1, 0, "medium", 0⟩

/-- A room with two live bombs whose blasts overlap cyclically. -/
def cexRoomC5 : RoomState :=
  ⟨"playing", "", "classic", 3, 7, 7, fun _ _ => EMPTY, fun _ => EMPTY,
    fun _ _ => 0, 0, false, 0, [("p1", wEntR)], [],
    [("b0", ⟨1, 1, "p1", 0⟩), ("b1", ⟨2, 1, "p1", 0⟩)], [], [], [], 120, 2, []⟩

theorem claim_C5_witness :
    cexRoomC5.bombs.length + 1 ≤ 9
    ∧ (detonateFuel 0 9 cexRoomC5 ⟨1, 1, "p1", 0⟩
        = detonateFuel 0 (cexRoomC5.bombs.length + 1) cexRoomC5 ⟨1, 1, "p1", 0⟩
      ∧ ((detonateFuel 0 9 cexRoomC5 ⟨1, 1, "p1", 0⟩).bombs).Sublist
          cexRoomC5.bombs) :=
  ⟨by decide, claim_C5 0 cexRoomC5 ⟨1, 1, "p1", 0⟩ 9 (by decide)⟩

/-! ##### Invalid-request handling (C2) -/

theorem updEnt_roomCols (s : RoomState) (id2 : String) (n : Bool) (f : Ent → Ent) :
    (updEnt s id2 n f).roomCols = s.roomCols := by
  unfold updEnt
  split <;> rfl

theorem updEnt_roomRows (s : RoomState) (id2 : String) (n : Bool) (f : Ent → Ent) :
    (updEnt s id2 n f).roomRows = s.roomRows := by
  unfold updEnt
  split <;> rfl

theorem updEnt_grid (s : RoomState) (id2 : String) (n : Bool) (f : Ent → Ent) :
    (updEnt s id2 n f).grid = s.grid := by
  unfold updEnt
  split <;> rfl

theorem handleMove_eq_s (s : RoomState) (sid dir : String) (now : ℤ)
    (h : s.status ≠ "playing"
      ∨ alookup s.players sid = none
      ∨ (∃ p, alookup s.players sid = some p
          ∧ (p.alive = false
            ∨ now - (alookup s.playerLastMove sid).getD 0 < s.moveDelay))
      ∨ dirDelta dir = none) :
    handleMove s sid dir now = s := by
  unfold handleMove
  by_cases h1 : s.status ≠ "playing"
  · rw [if_pos h1]
  · rw [if_neg h1]
    cases hfind : alookup s.players sid with
    | none => rfl
    | some p =>
      dsimp only
      by_cases h2 : p.alive = false
      · rw [if_pos h2]
      · rw [if_neg h2]
        by_cases h3 : now - (alookup s.playerLastMove sid).getD 0 < s.moveDelay
        · rw [if_pos h3]
        · rw [if_neg h3]
          cases hd : dirDelta dir with
          | none => rfl
          | some d =>
            exfalso
            rcases h with hA | hB | ⟨p2, hp2, hC⟩ | hD
            · exact h1 hA
            · rw [hB] at hfind; cases hfind
            · rw [hp2] at hfind
              injection hfind with he
              rcases hC with hC1 | hC2
              · rw [he] at hC1; exact h2 hC1
              · exact h3 hC2
            · rw [hD] at hd; cases hd

theorem handleBomb_eq_s (s : RoomState) (sid : String) (now : ℤ)
    (h : s.status ≠ "playing"
      ∨ alookup s.players sid = none
      ∨ (∃ p, alookup s.players sid = some p
          ∧ (p.alive = false ∨ p.bombsAvailable ≤ 0
            ∨ s.bombs.any (fun kv => decide (kv.2.x = p.x ∧ kv.2.y = p.y)) = true))) :
    handleBomb s sid now = s := by
  unfold handleBomb
  by_cases h1 : s.status ≠ "playing"
  · rw [if_pos h1]
  · rw [if_neg h1]
    cases hfind : alookup s.players sid with
    | none => rfl
    | some p =>
      dsimp only
      by_cases h2 : p.alive = false
      · rw [if_pos h2]
      · rw [if_neg h2]
        by_cases h3 : p.bombsAvailable ≤ 0
        · rw [if_pos h3]
        · rw [if_neg h3]
          by_cases h4 : s.bombs.any (fun kv => decide (kv.2.x = p.x ∧ kv.2.y = p.y)) = true
          · rw [if_pos h4]
          · exfalso
            rcases h with hA | hB | ⟨p2, hp2, hC⟩
            · exact h1 hA
            · rw [hB] at hfind; cases hfind
            · rw [hp2] at hfind
              injection hfind with he
              subst he
              rcases hC with hC1 | hC2 | hC3
              · exact h2 hC1
              · exact h3 hC2
              · exact h4 hC3

theorem handleWeaponFire_eq_s (s : RoomState) (sid : String) (now : ℤ)
    (h : s.status ≠ "playing"
      ∨ alookup s.players sid = none
      ∨ (∃ p, alookup s.players sid = some p
          ∧ (p.alive = false ∨ p.powerupType = 0 ∨ p.powerupUses ≤ 0))) :
    handleWeaponFire s sid now = s := by
  unfold handleWeaponFire
  by_cases h1 : s.status ≠ "playing"
  · rw [if_pos h1]
  · rw [if_neg h1]
    cases hfind : alookup s.players sid with
    | none => rfl
    | some p =>
      dsimp only
      by_cases h2 : p.alive = false
      · rw [if_pos h2]
      · rw [if_neg h2]
        by_cases h3 : p.powerupType = 0 ∨ p.powerupUses ≤ 0
        · rw [if_pos h3]
        · exfalso
          rcases h with hA | hB | ⟨p2, hp2, hC⟩
          · exact h1 hA
          · rw [hB] at hfind; cases hfind
          · rw [hp2] at hfind
            injection hfind with he
            subst he
            rcases hC with hC1 | hC2
            · exact h2 hC1
            · exact h3 hC2

theorem handleMove_facing_only (s : RoomState) (sid dir : String) (now : ℤ)
    (p : Ent) (d : ℤ × ℤ)
    (hstat : s.status = "playing") (hfind : alookup s.players sid = some p)
    (halive : p.alive = true)
    (hrate : ¬(now - (alookup s.playerLastMove sid).getD 0 < s.moveDelay))
    (hd : dirDelta dir = some d)
    (hblock : (p.x + d.1 < 0 ∨ p.x + d.1 ≥ s.roomCols ∨ p.y + d.2 < 0
        ∨ p.y + d.2 ≥ s.roomRows)
      ∨ (s.grid (p.y + d.2) (p.x + d.1) = WALL
        ∨ s.grid (p.y + d.2) (p.x + d.1) = BLOCK)
      ∨ s.bombs.any (fun kv =>
          decide (kv.2.x = p.x + d.1 ∧ kv.2.y = p.y + d.2)) = true) :
    handleMove s sid dir now
      = updEnt s sid false (fun e0 => { e0 with facing := dir }) := by
  unfold handleMove
  rw [if_neg (not_not_intro hstat), hfind]
  dsimp only
  rw [if_neg (by rw [halive]; simp), if_neg hrate, hd]
  dsimp only
  simp only [updEnt_roomCols, updEnt_roomRows, updEnt_grid, updEnt_bombs]
  by_cases hc1 : p.x + d.1 < 0 ∨ p.x + d.1 ≥ s.roomCols ∨ p.y + d.2 < 0
      ∨ p.y + d.2 ≥ s.roomRows
  · rw [if_pos hc1]
  · rw [if_neg hc1]
    by_cases hc2 : s.grid (p.y + d.2) (p.x + d.1) = WALL
        ∨ s.grid (p.y + d.2) (p.x + d.1) = BLOCK
    · rw [if_pos hc2]
    · rw [if_neg hc2]
      have hc3 : s.bombs.any (fun kv =>
          decide (kv.2.x = p.x + d.1 ∧ kv.2.y = p.y + d.2)) = true := by
        rcases hblock with hb | hb | hb
        · exact absurd hb hc1
        · exact absurd hb hc2
        · exact hb
      rw [if_pos hc3]

/-- C2 (amended): all currently-invalid inbound requests are silent no-ops
with ONE exception — a move request with a valid direction that is merely
blocked (out of bounds, wall/block, or bomb in the way) still mutates the
acting player's facing before the validity checks; every other invalid
case (not playing, unknown player, dead player, rate-limited move,
unparsable direction, exhausted bomb allowance, occupied tile, firing
without a charge) leaves the room state — events included — exactly
unchanged. -/
theorem claim_C2_amended (s : RoomState) (sid dir : String) (now : ℤ) :
    (s.status ≠ "playing" →
      handleMove s sid dir now = s ∧ handleBomb s sid now = s
        ∧ handleWeaponFire s sid now = s)
    ∧ (alookup s.players sid = none →
      handleMove s sid dir now = s ∧ handleBomb s sid now = s
        ∧ handleWeaponFire s sid now = s)
    ∧ ∀ p, alookup s.players sid = some p →
        (p.alive = false →
          handleMove s sid dir now = s ∧ handleBomb s sid now = s
            ∧ handleWeaponFire s sid now = s)
        ∧ (now - (alookup s.playerLastMove sid).getD 0 < s.moveDelay →
            handleMove s sid dir now = s)
        ∧ (dirDelta dir = none → handleMove s sid dir now = s)
        ∧ (p.bombsAvailable ≤ 0 → handleBomb s sid now = s)
        ∧ (s.bombs.any (fun kv => decide (kv.2.x = p.x ∧ kv.2.y = p.y)) = true →
            handleBomb s sid now = s)
        ∧ ((p.powerupType = 0 ∨ p.powerupUses ≤ 0) → handleWeaponFire s sid now = s)
        ∧ ∀ d, s.status = "playing" → p.alive = true
            → ¬(now - (alookup s.playerLastMove sid).getD 0 < s.moveDelay)
            → dirDelta dir = some d
            → ((p.x + d.1 < 0 ∨ p.x + d.1 ≥ s.roomCols ∨ p.y + d.2 < 0
                  ∨ p.y + d.2 ≥ s.roomRows)
                ∨ (s.grid (p.y + d.2) (p.x + d.1) = WALL
                  ∨ s.grid (p.y + d.2) (p.x + d.1) = BLOCK)
                ∨ s.bombs.any (fun kv =>
                    decide (kv.2.x = p.x + d.1 ∧ kv.2.y = p.y + d.2)) = true)
            → handleMove s sid dir now
              = updEnt s sid false (fun e0 => { e0 with facing := dir }) := by
  refine ⟨?_, ?_, ?_⟩
  · intro h
    exact ⟨handleMove_eq_s s sid dir now (Or.inl h),
      handleBomb_eq_s s sid now (Or.inl h),
      handleWeaponFire_eq_s s sid now (Or.inl h)⟩
  · intro h
    exact ⟨handleMove_eq_s s sid dir now (Or.inr (Or.inl h)),
      handleBomb_eq_s s sid now (Or.inr (Or.inl h)),
      handleWeaponFire_eq_s s sid now (Or.inr (Or.inl h))⟩
  · intro p hp
    refine ⟨?_, ?_, ?_, ?_, ?_, ?_, ?_⟩
    · intro h
      exact ⟨handleMove_eq_s s sid dir now (Or.inr (Or.inr (Or.inl ⟨p, hp, Or.inl h⟩))),
        handleBomb_eq_s s sid now (Or.inr (Or.inr ⟨p, hp, Or.inl h⟩)),
        handleWeaponFire_eq_s s sid now (Or.inr (Or.inr ⟨p, hp, Or.inl h⟩))⟩
    · intro h
      exact handleMove_eq_s s sid dir now (Or.inr (Or.inr (Or.inl ⟨p, hp, Or.inr h⟩)))
    · intro h
      exact handleMove_eq_s s sid dir now (Or.inr (Or.inr (Or.inr h)))
    · intro h
      exact handleBomb_eq_s s sid now (Or.inr (Or.inr ⟨p, hp, Or.inr (Or.inl h)⟩))
    · intro h
      exact handleBomb_eq_s s sid now (Or.inr (Or.inr ⟨p, hp, Or.inr (Or.inr h)⟩))
    · intro h
      rcases h with h | h
      · exact handleWeaponFire_eq_s s sid now (Or.inr (Or.inr ⟨p, hp, Or.inr (Or.inl h)⟩))
      · exact handleWeaponFire_eq_s s sid now (Or.inr (Or.inr ⟨p, hp, Or.inr (Or.inr h)⟩))
    · intro d hstat halive hrate hd hblock
      exact handleMove_facing_only s sid dir now p d hstat hp halive hrate hd hblock

/-- A playing room whose single player stands at (1,1) facing down on a
bordered empty grid. -/
def cexRoomC2 : RoomState :=
  ⟨"playing", "", "classic", 3, 7, 7,
    (fun y x => if y = 0 ∨ y = 6 ∨ x = 0 ∨ x = 6 then WALL else EMPTY),
    fun _ => EMPTY, fun _ _ => 0, 0, false, 0, [("p1", wEntR)], [], [], [], [], [],
    120, 0, []⟩

/-- C2 counterexample: a wall-blocked move is rejected (the player does not
move) yet the player's facing direction changes — the room state is NOT
left entirely unchanged, contradicting the claim as stated. -/
theorem claim_C2_counterexample :
    cexRoomC2.status = "playing"
    ∧ (alookup cexRoomC2.players "p1").map Ent.facing = some "down"
    ∧ cexRoomC2.grid 0 1 = WALL
    ∧ (alookup (handleMove cexRoomC2 "p1" "up" 1000).players "p1").map Ent.x = some 1
    ∧ (alookup (handleMove cexRoomC2 "p1" "up" 1000).players "p1").map Ent.y = some 1
    ∧ (alookup (handleMove cexRoomC2 "p1" "up" 1000).players "p1").map Ent.facing
        = some "up" := by
  decide

theorem claim_C2_witness :
    (handleMove cexRoomC2 "p1" "up" 1000
      = updEnt cexRoomC2 "p1" false (fun e0 => { e0 with facing := "up" }))
    ∧ handleMove cexRoomC2 "p1" "diagonal" 1000 = cexRoomC2
    ∧ handleBomb cexRoomC2 "p2" 1000 = cexRoomC2 := by
  refine ⟨?_, ?_, ?_⟩
  · exact ((claim_C2_amended cexRoomC2 "p1" "up" 1000).2.2 wEntR (by decide)).2.2.2.2.2.2
      (0, -1) (by decide) (by decide) (by decide) (by decide) (by decide)
  · exact ((claim_C2_amended cexRoomC2 "p1" "diagonal" 1000).2.2 wEntR (by decide)).2.2.1
      (by decide)
  · exact ((claim_C2_amended cexRoomC2 "p2" "up" 1000).2.1 (by decide)).2.1

/-! ##### Assoc-map lookup algebra (C7) -/

theorem alookup_amod {α : Type} (l : List (String × α)) (k k2 : String) (f : α → α) :
    alookup (amod l k f) k2
    = (alookup l k2).map (fun v => if k2 = k then f v else v) := by
  induction l with
  | nil => rfl
  | cons a l ih =>
    unfold alookup amod at ih ⊢
    rw [List.map_cons]
    by_cases h2 : a.1 = k2
    · rw [List.find?_cons_of_pos _ (by split <;> simp [h2]),
        List.find?_cons_of_pos _ (by simp [h2])]
      have hval : (if a.1 = k then (a.1, f a.2) else a).2
          = if k2 = k then f a.2 else a.2 := by
        rw [← h2]
        split <;> rfl
      dsimp only [Option.map]
      rw [hval]
    · rw [List.find?_cons_of_neg _ (by split <;> simp [h2]),
        List.find?_cons_of_neg _ (by simp [h2])]
      exact ih

theorem alookup_amod_ne {α : Type} (l : List (String × α)) (k k2 : String)
    (f : α → α) (h : k2 ≠ k) : alookup (amod l k f) k2 = alookup l k2 := by
  rw [alookup_amod]
  cases h3 : alookup l k2 with
  | none => rfl
  | some v =>
    dsimp only [Option.map]
    rw [if_neg h]

theorem alookup_amod_self {α : Type} (l : List (String × α)) (k : String)
    (f : α → α) (v : α) (h : alookup l k = some v) :
    alookup (amod l k f) k = some (f v) := by
  rw [alookup_amod, h]
  dsimp only [Option.map]
  rw [if_pos rfl]

theorem alookup_amod_map {α β : Type} (l : List (String × α)) (k k2 : String)
    (f : α → α) (g : α → β) (hg : ∀ v, g (f v) = g v) :
    ((alookup (amod l k f) k2).map g) = (alookup l k2).map g := by
  rw [alookup_amod]
  cases h3 : alookup l k2 with
  | none => rfl
  | some v =>
    dsimp only [Option.map]
    by_cases h4 : k2 = k
    · rw [if_pos h4, hg v]
    · rw [if_neg h4]

def alookupE (s : RoomState) (id2 : String) (isNpc : Bool) : Option Ent :=
  if isNpc then alookup s.npcs id2 else alookup s.players id2

theorem alookupE_updEnt_self (s : RoomState) (id2 : String) (isNpc : Bool)
    (f : Ent → Ent) (v : Ent) (h : alookupE s id2 isNpc = some v) :
    alookupE (updEnt s id2 isNpc f) id2 isNpc = some (f v) := by
  unfold alookupE at h ⊢
  unfold updEnt
  cases isNpc with
  | false =>
    rw [if_neg (by simp)] at h ⊢
    rw [if_neg (by simp)]
    exact alookup_amod_self s.players id2 f v h
  | true =>
    rw [if_pos rfl] at h ⊢
    rw [if_pos rfl]
    exact alookup_amod_self s.npcs id2 f v h

theorem updEither_players_ne (s : RoomState) (k k2 : String) (f : Ent → Ent)
    (h : k2 ≠ k) : alookup (updEither s k f).players k2 = alookup s.players k2 := by
  unfold updEither
  repeat' split
  all_goals (first | exact alookup_amod_ne s.players k k2 f h | rfl)

theorem updEither_npcs_ne (s : RoomState) (k k2 : String) (f : Ent → Ent)
    (h : k2 ≠ k) : alookup (updEither s k f).npcs k2 = alookup s.npcs k2 := by
  unfold updEither
  repeat' split
  all_goals (first | exact alookup_amod_ne s.npcs k k2 f h | rfl)

theorem alookupE_updEither_ne (s : RoomState) (id2 k : String) (isNpc : Bool)
    (f : Ent → Ent) (h : id2 ≠ k) :
    alookupE (updEither s k f) id2 isNpc = alookupE s id2 isNpc := by
  unfold alookupE
  cases isNpc with
  | false =>
    rw [if_neg (by simp), if_neg (by simp)]
    exact updEither_players_ne s k id2 f h
  | true =>
    rw [if_pos rfl, if_pos rfl]
    exact updEither_npcs_ne s k id2 f h

theorem updEnt_players_false (s : RoomState) (id2 : String) (f : Ent → Ent) :
    (updEnt s id2 false f).players = amod s.players id2 f := rfl

theorem updEnt_players_true (s : RoomState) (id2 : String) (f : Ent → Ent) :
    (updEnt s id2 true f).players = s.players := rfl

theorem updEnt_queue (s : RoomState) (id2 : String) (n : Bool) (f : Ent → Ent) :
    (updEnt s id2 n f).respawnQueue = s.respawnQueue := by
  unfold updEnt
  split <;> rfl

theorem updEither_queue (s : RoomState) (k : String) (f : Ent → Ent) :
    (updEither s k f).respawnQueue = s.respawnQueue := by
  unfold updEither
  repeat' split
  all_goals rfl

theorem updEnt_events (s : RoomState) (id2 : String) (n : Bool) (f : Ent → Ent) :
    (updEnt s id2 n f).events = s.events := by
  unfold updEnt
  split <;> rfl

theorem updEither_events (s : RoomState) (k : String) (f : Ent → Ent) :
    (updEither s k f).events = s.events := by
  unfold updEither
  repeat' split
  all_goals rfl

theorem alookupE_set_queue (s : RoomState) (q : List RQEntry) (id2 : String)
    (isNpc : Bool) :
    alookupE { s with respawnQueue := q } id2 isNpc = alookupE s id2 isNpc := rfl

theorem killEntity_victim (s : RoomState) (id2 : String) (isNpc : Bool)
    (kid : Option String) (now : ℤ) (e : Ent)
    (hfind : alookupE s id2 isNpc = some e) (hinv : ¬ e.invincibleUntil > now)
    (hsh : e.hasShield = false) :
    alookupE (killEntity s id2 isNpc kid now) id2 isNpc
    = some (if s.gameMode = "classic" then { e with alive := false, lives := 0 }
        else if e.lives - 1 ≤ 0 then { e with alive := false, lives := e.lives - 1 }
        else { e with
            alive := false
            lives := e.lives - 1
            respawnAt := now + (if s.gameMode = "kills" then 1500 else 2000) }) := by
  have hfind2 := hfind
  unfold alookupE at hfind2
  unfold killEntity
  rw [hfind2]
  dsimp only
  rw [if_neg hinv, if_neg (by simp [hsh])]
  have hs1 : alookupE (updEnt s id2 isNpc (fun e0 => { e0 with alive := false }))
      id2 isNpc = some { e with alive := false } :=
    alookupE_updEnt_self s id2 isNpc _ e hfind
  cases kid with
  | none =>
    dsimp only
    by_cases hgm : s.gameMode = "classic"
    · rw [if_pos hgm, if_pos hgm]
      rw [alookupE_updEnt_self _ id2 isNpc _ _ hs1]
    · rw [if_neg hgm, if_neg hgm]
      by_cases hlv : e.lives - 1 ≤ 0
      · rw [if_pos hlv, if_pos hlv]
        rw [alookupE_updEnt_self _ id2 isNpc _ _ hs1]
      · rw [if_neg hlv, if_neg hlv]
        rw [alookupE_set_queue]
        rw [alookupE_updEnt_self _ id2 isNpc _ _ (alookupE_updEnt_self _ id2 isNpc _ _ hs1)]
  | some k =>
    dsimp only
    by_cases hk : k ≠ id2
    · rw [if_pos hk]
      have hs2 : alookupE (updEither
          (updEnt s id2 isNpc (fun e0 => { e0 with alive := false })) k
          (fun e0 => { e0 with kills := e0.kills + 1 })) id2 isNpc
          = some { e with alive := false } := by
        rw [alookupE_updEither_ne _ id2 k isNpc _ (fun h => hk h.symm)]
        exact hs1
      by_cases hgm : s.gameMode = "classic"
      · rw [if_pos hgm, if_pos hgm]
        rw [alookupE_updEnt_self _ id2 isNpc _ _ hs2]
      · rw [if_neg hgm, if_neg hgm]
        by_cases hlv : e.lives - 1 ≤ 0
        · rw [if_pos hlv, if_pos hlv]
          rw [alookupE_updEnt_self _ id2 isNpc _ _ hs2]
        · rw [if_neg hlv, if_neg hlv]
          rw [alookupE_set_queue]
          rw [alookupE_updEnt_self _ id2 isNpc _ _ (alookupE_updEnt_self _ id2 isNpc _ _ hs2)]
    · rw [if_neg hk]
      by_cases hgm : s.gameMode = "classic"
      · rw [if_pos hgm, if_pos hgm]
        rw [alookupE_updEnt_self _ id2 isNpc _ _ hs1]
      · rw [if_neg hgm, if_neg hgm]
        by_cases hlv : e.lives - 1 ≤ 0
        · rw [if_pos hlv, if_pos hlv]
          rw [alookupE_updEnt_self _ id2 isNpc _ _ hs1]
        · rw [if_neg hlv, if_neg hlv]
          rw [alookupE_set_queue]
          rw [alookupE_updEnt_self _ id2 isNpc _ _ (alookupE_updEnt_self _ id2 isNpc _ _ hs1)]

theorem killEntity_inv_eq (s : RoomState) (id2 : String) (isNpc : Bool)
    (kid : Option String) (now : ℤ) (e : Ent)
    (hfind : alookupE s id2 isNpc = some e) (hinv : e.invincibleUntil > now) :
    killEntity s id2 isNpc kid now = s := by
  unfold alookupE at hfind
  unfold killEntity
  rw [hfind]
  dsimp only
  rw [if_pos hinv]

theorem killEntity_shield_eq (s : RoomState) (id2 : String) (isNpc : Bool)
    (kid : Option String) (now : ℤ) (e : Ent)
    (hfind : alookupE s id2 isNpc = some e) (hinv : ¬ e.invincibleUntil > now)
    (hsh : e.hasShield = true) :
    killEntity s id2 isNpc kid now
    = addEv (updEnt s id2 isNpc (fun e0 => { e0 with hasShield := false }))
        "shieldAbsorb" := by
  unfold alookupE at hfind
  unfold killEntity
  rw [hfind]
  dsimp only
  rw [if_neg hinv, if_pos hsh]

theorem killEntity_queue (s : RoomState) (id2 : String) (isNpc : Bool)
    (kid : Option String) (now : ℤ) (e : Ent)
    (hfind : alookupE s id2 isNpc = some e) (hinv : ¬ e.invincibleUntil > now)
    (hsh : e.hasShield = false) :
    (killEntity s id2 isNpc kid now).respawnQueue
    = if s.gameMode = "classic" then s.respawnQueue
      else if e.lives - 1 ≤ 0 then s.respawnQueue
      else s.respawnQueue
        ++ [⟨id2, now + (if s.gameMode = "kills" then 1500 else 2000), isNpc⟩] := by
  unfold alookupE at hfind
  unfold killEntity
  rw [hfind]
  dsimp only
  rw [if_neg hinv, if_neg (by simp [hsh])]
  cases kid with
  | none =>
    dsimp only
    repeat' split
    all_goals simp only [updEnt_queue, updEither_queue]
  | some k =>
    dsimp only
    repeat' split
    all_goals simp only [updEnt_queue, updEither_queue]

theorem killEntity_events_kill (s : RoomState) (id2 : String) (isNpc : Bool)
    (kid : Option String) (now : ℤ) (e : Ent)
    (hfind : alookupE s id2 isNpc = some e) (hinv : ¬ e.invincibleUntil > now)
    (hsh : e.hasShield = false) :
    (killEntity s id2 isNpc kid now).events = s.events := by
  unfold alookupE at hfind
  unfold killEntity
  rw [hfind]
  dsimp only
  rw [if_neg hinv, if_neg (by simp [hsh])]
  cases kid with
  | none =>
    dsimp only
    repeat' split
    all_goals simp only [updEnt_events, updEither_events]
  | some k =>
    dsimp only
    repeat' split
    all_goals simp only [updEnt_events, updEither_events]

theorem killEntity_credit (s : RoomState) (id2 : String) (isNpc : Bool)
    (now : ℤ) (e : Ent) (k : String) (ke : Ent)
    (hfind : alookupE s id2 isNpc = some e) (hinv : ¬ e.invincibleUntil > now)
    (hsh : e.hasShield = false) (hne : k ≠ id2)
    (hke : alookup s.players k = some ke) :
    alookup (killEntity s id2 isNpc (some k) now).players k
    = some { ke with kills := ke.kills + 1 } := by
  unfold alookupE at hfind
  unfold killEntity
  rw [hfind]
  dsimp only
  rw [if_neg hinv, if_neg (by simp [hsh])]
  rw [if_pos hne]
  have h1 : alookup (updEnt s id2 isNpc (fun e0 => { e0 with alive := false })).players k
      = some ke := by
    cases isNpc with
    | true => rw [updEnt_players_true]; exact hke
    | false =>
      rw [updEnt_players_false, alookup_amod_ne _ _ _ _ hne]
      exact hke
  have h2 : alookup (updEither
      (updEnt s id2 isNpc (fun e0 => { e0 with alive := false })) k
      (fun e0 => { e0 with kills := e0.kills + 1 })).players k
      = some { ke with kills := ke.kills + 1 } := by
    unfold updEither
    rw [h1]
    dsimp only
    exact alookup_amod_self _ k _ ke h1
  repeat' split
  all_goals (
    cases isNpc with
    | true => simp only [updEnt_players_true]; exact h2
    | false =>
      simp only [updEnt_players_false, alookup_amod_ne _ _ _ _ hne]
      exact h2)

theorem killEntity_nocredit (s : RoomState) (id2 : String) (isNpc : Bool)
    (kid : Option String) (now : ℤ) (e : Ent)
    (hfind : alookupE s id2 isNpc = some e) (hinv : ¬ e.invincibleUntil > now)
    (hsh : e.hasShield = false) (hkid : kid = none ∨ kid = some id2) :
    ∀ k2, (alookup (killEntity s id2 isNpc kid now).players k2).map Ent.kills
      = (alookup s.players k2).map Ent.kills := by
  intro k2
  unfold alookupE at hfind
  unfold killEntity
  rw [hfind]
  dsimp only
  rw [if_neg hinv, if_neg (by simp [hsh])]
  rcases hkid with h | h
  · subst h
    dsimp only
    repeat' split
    all_goals (
      cases isNpc with
      | true => simp only [updEnt_players_true]
      | false =>
        simp only [updEnt_players_false, alookup_amod]
        cases alookup s.players k2 with
        | none => rfl
        | some v =>
          dsimp only [Option.map]
          repeat' split
          all_goals rfl)
  · subst h
    dsimp only
    rw [if_neg (show ¬(id2 ≠ id2) from fun hh => hh rfl)]
    repeat' split
    all_goals (
      cases isNpc with
      | true => simp only [updEnt_players_true]
      | false =>
        simp only [updEnt_players_false, alookup_amod]
        cases alookup s.players k2 with
        | none => rfl
        | some v =>
          dsimp only [Option.map]
          repeat' split
          all_goals rfl)

theorem processRespawns_single (s : RoomState) (now : ℤ) (entry : RQEntry)
    (e2 : Ent) (hq : s.respawnQueue = [entry]) (hdue : now ≥ entry.respawnAt)
    (hfind : alookupE s entry.entityId entry.isNpc = some e2)
    (halive : e2.alive = false) (hlives : e2.lives > 0) :
    alookupE (processRespawns s now) entry.entityId entry.isNpc
      = some { e2 with
          alive := true
          x := e2.spawnX
          y := e2.spawnY
          respawnAt := 0
          hasShield := false
          powerupType := 0
          powerupUses := 0
          bombsAvailable := MAX_BOMBS
          invincibleUntil := now + 1500 }
    ∧ (processRespawns s now).respawnQueue = [] := by
  have hfind2 := hfind
  unfold alookupE at hfind2
  unfold processRespawns
  rw [hq, List.foldl_cons, List.foldl_nil]
  unfold respawnStep
  rw [if_pos hdue]
  dsimp only
  rw [hfind2]
  dsimp only
  rw [if_pos ⟨halive, hlives⟩]
  dsimp only
  constructor
  · rw [alookupE_set_queue]
    exact alookupE_updEnt_self s entry.entityId entry.isNpc _ e2 hfind
  · rfl

/-- C7: killing a combatant is a no-op inside its invincibility window; a
shield absorbs the kill (shield consumed, alive and lives untouched, a
shield-absorb event emitted); otherwise the victim is marked dead, the
killer's kill counter is credited exactly when a killer distinct from the
victim is named and found, classic (LastStanding) mode forces lives to 0
with no respawn scheduled, and other modes decrement lives and — when
lives remain — schedule a respawn after 1500 ms in kills (FirstToKills)
mode and 2000 ms otherwise; processing a due respawn entry revives the
entity at its spawn point with shield and powerup cleared, the bomb
allowance restored and a 1500 ms invincibility window. -/
theorem claim_C7 (s : RoomState) (id2 : String) (isNpc : Bool)
    (kid : Option String) (now : ℤ) (e : Ent)
    (hfind : alookupE s id2 isNpc = some e) :
    (e.invincibleUntil > now → killEntity s id2 isNpc kid now = s)
    ∧ (¬ e.invincibleUntil > now → e.hasShield = true →
        alookupE (killEntity s id2 isNpc kid now) id2 isNpc
            = some { e with hasShield := false }
          ∧ (killEntity s id2 isNpc kid now).respawnQueue = s.respawnQueue
          ∧ (killEntity s id2 isNpc kid now).events = s.events ++ ["shieldAbsorb"])
    ∧ (¬ e.invincibleUntil > now → e.hasShield = false →
        alookupE (killEntity s id2 isNpc kid now) id2 isNpc
            = some (if s.gameMode = "classic" then
                { e with alive := false, lives := 0 }
              else if e.lives - 1 ≤ 0 then
                { e with alive := false, lives := e.lives - 1 }
              else { e with
                  alive := false
                  lives := e.lives - 1
                  respawnAt := now + (if s.gameMode = "kills" then 1500 else 2000) })
          ∧ (killEntity s id2 isNpc kid now).respawnQueue
            = (if s.gameMode = "classic" then s.respawnQueue
               else if e.lives - 1 ≤ 0 then s.respawnQueue
               else s.respawnQueue
                 ++ [⟨id2, now + (if s.gameMode = "kills" then 1500 else 2000), isNpc⟩])
          ∧ (killEntity s id2 isNpc kid now).events = s.events
          ∧ (∀ k ke, kid = some k → k ≠ id2 → alookup s.players k = some ke →
              alookup (killEntity s id2 isNpc kid now).players k
                = some { ke with kills := ke.kills + 1 })
          ∧ ((kid = none ∨ kid = some id2) →
              ∀ k2, (alookup (killEntity s id2 isNpc kid now).players k2).map Ent.kills
                = (alookup s.players k2).map Ent.kills))
    ∧ (∀ entry e2, s.respawnQueue = [entry] → now ≥ entry.respawnAt
        → alookupE s entry.entityId entry.isNpc = some e2
        → e2.alive = false → e2.lives > 0 →
        alookupE (processRespawns s now) entry.entityId entry.isNpc
            = some { e2 with
                alive := true
                x := e2.spawnX
                y := e2.spawnY
                respawnAt := 0
                hasShield := false
                powerupType := 0
                powerupUses := 0
                bombsAvailable := MAX_BOMBS
                invincibleUntil := now + 1500 }
          ∧ (processRespawns s now).respawnQueue = []) := by
  refine ⟨?_, ?_, ?_, ?_⟩
  · intro hinv
    exact killEntity_inv_eq s id2 isNpc kid now e hfind hinv
  · intro hinv hsh
    rw [killEntity_shield_eq s id2 isNpc kid now e hfind hinv hsh]
    refine ⟨?_, ?_, ?_⟩
    · exact alookupE_updEnt_self s id2 isNpc _ e hfind
    · exact updEnt_queue s id2 isNpc _
    · exact congrArg (· ++ ["shieldAbsorb"]) (updEnt_events s id2 isNpc _)
  · intro hinv hsh
    refine ⟨killEntity_victim s id2 isNpc kid now e hfind hinv hsh,
      killEntity_queue s id2 isNpc kid now e hfind hinv hsh,
      killEntity_events_kill s id2 isNpc kid now e hfind hinv hsh,
      ?_, ?_⟩
    · intro k ke hk hne hke
      subst hk
      exact killEntity_credit s id2 isNpc now e k ke hfind hinv hsh hne hke
    · intro hkid k2
      exact killEntity_nocredit s id2 isNpc kid now e hfind hinv hsh hkid k2
  · intro entry e2 hq hdue hf2 ha hl
    exact processRespawns_single s now entry e2 hq hdue hf2 ha hl

def wEntC7 : Ent :=
  ⟨2, 2, true, 1, 2, 0, 0, 0, false, "down", 2, 0, 0, 2, 2, 0, "medium", 0⟩

def cexRoomC7 : RoomState :=
  ⟨"playing", "", "lives", 3, 7, 7, fun _ _ => EMPTY, fun _ => EMPTY,
    fun _ _ => 0, 0, false, 0, [("p1", wEntC7), ("p2", wEntC7)], [], [], [], [], [],
    120, 0, []⟩

def wEntC7inv : Ent := { wEntC7 with invincibleUntil := 99999 }

def cexRoomC7inv : RoomState := { cexRoomC7 with players := [("p1", wEntC7inv)] }

def wEntC7dead : Ent := { wEntC7 with alive := false, lives := 1 }

def cexRoomC7resp : RoomState :=
  { cexRoomC7 with
    players := [("p1", wEntC7dead)]
    respawnQueue := [⟨"p1", 500, false⟩] }

theorem claim_C7_witness :
    killEntity cexRoomC7inv "p1" false none 1000 = cexRoomC7inv
    ∧ (processRespawns cexRoomC7resp 1000).respawnQueue = []
    ∧ (killEntity cexRoomC7 "p1" false (some "p2") 1000).respawnQueue
        = (if cexRoomC7.gameMode = "classic" then cexRoomC7.respawnQueue
           else if wEntC7.lives - 1 ≤ 0 then cexRoomC7.respawnQueue
           else cexRoomC7.respawnQueue
             ++ [⟨"p1", 1000 + (if cexRoomC7.gameMode = "kills" then 1500 else 2000),
               false⟩]) := by
  refine ⟨?_, ?_, ?_⟩
  · exact (claim_C7 cexRoomC7inv "p1" false none 1000 wEntC7inv (by decide)).1 (by decide)
  · exact ((claim_C7 cexRoomC7resp "p1" false none 1000 wEntC7dead (by decide)).2.2.2
      ⟨"p1", 500, false⟩ wEntC7dead (by decide) (by decide) (by decide) (by decide)
      (by decide)).2
  · exact ((claim_C7 cexRoomC7 "p1" false (some "p2") 1000 wEntC7 (by decide)).2.2.1
      (by decide) (by decide)).2.1

/-! ##### The live bombs occupy pairwise distinct tiles (C10) -/

def BombsDistinct (s : RoomState) : Prop :=
  s.bombs.Pairwise (fun a b => ¬(a.2.x = b.2.x ∧ a.2.y = b.2.y))

theorem BombsDistinct_of_sublist (s s2 : RoomState)
    (hsub : s2.bombs.Sublist s.bombs) (h : BombsDistinct s) : BombsDistinct s2 :=
  List.Pairwise.sublist hsub h

theorem handleMove_bombs (s : RoomState) (sid dir : String) (now : ℤ) :
    (handleMove s sid dir now).bombs = s.bombs := by
  unfold handleMove
  dsimp only
  repeat' split
  all_goals simp only [updEnt_bombs]

theorem handleNpcMove_bombs (s : RoomState) (nid dir : String) (now : ℤ) :
    (handleNpcMove s nid dir now).bombs = s.bombs := by
  unfold handleNpcMove
  dsimp only
  repeat' split
  all_goals simp only [updEnt_bombs]

theorem processRespawns_bombs (s : RoomState) (now : ℤ) :
    (processRespawns s now).bombs = s.bombs := by
  unfold processRespawns
  dsimp only
  have key : ∀ (q : List RQEntry) (acc : RoomState × List RQEntry),
      ((q.foldl (respawnStep now) acc).1).bombs = acc.1.bombs := by
    intro q
    induction q with
    | nil => intro acc; rfl
    | cons entry q ih =>
      intro acc
      rw [List.foldl_cons, ih (respawnStep now acc entry)]
      unfold respawnStep
      repeat' split
      all_goals simp only [updEnt_bombs]
  exact key s.respawnQueue (s, [])

theorem handleBomb_distinct (s : RoomState) (sid : String) (now : ℤ)
    (h : BombsDistinct s) : BombsDistinct (handleBomb s sid now) := by
  unfold handleBomb
  repeat' split
  any_goals exact h
  rename_i p hfind hav hocc
  unfold BombsDistinct
  rw [updEnt_bombs]
  dsimp only
  rw [List.pairwise_append]
  refine ⟨h, by simp, ?_⟩
  intro a ha b2 hb2
  rw [List.mem_singleton] at hb2
  subst hb2
  rw [List.any_eq_true] at hocc
  push_neg at hocc
  have hnot := hocc a ha
  intro hcontra
  exact hnot (decide_eq_true hcontra)

theorem handleNpcBomb_distinct (s : RoomState) (nid : String) (now : ℤ)
    (h : BombsDistinct s) : BombsDistinct (handleNpcBomb s nid now) := by
  unfold handleNpcBomb
  repeat' split
  any_goals exact h
  rename_i p hfind hav hocc
  unfold BombsDistinct
  rw [updEnt_bombs]
  dsimp only
  rw [List.pairwise_append]
  refine ⟨h, by simp, ?_⟩
  intro a ha b2 hb2
  rw [List.mem_singleton] at hb2
  subst hb2
  rw [List.any_eq_true] at hocc
  push_neg at hocc
  have hnot := hocc a ha
  intro hcontra
  exact hnot (decide_eq_true hcontra)

theorem fireWeapon_bombs_sublist (s : RoomState) (id2 : String) (isNpc : Bool)
    (now : ℤ) : ((fireWeapon s id2 isNpc now).bombs).Sublist s.bombs := by
  unfold fireWeapon
  dsimp only
  repeat' split
  any_goals exact List.Sublist.refl _
  all_goals (
    refine List.Sublist.trans
      (chainFold_sublist_of now _ (fun s2 b2 => detonate_bombs_sublist now _ s2 b2) _ _) ?_
    rw [addEv_bombs, killEntitiesOnTiles_bombs, killEntitiesOnTiles_bombs]
    dsimp only
    try rw [destroyFold_bombs]
    try rw [updEnt_bombs]
    try exact List.Sublist.refl _)

theorem handleWeaponFire_bombs_sublist (s : RoomState) (sid : String) (now : ℤ) :
    ((handleWeaponFire s sid now).bombs).Sublist s.bombs := by
  unfold handleWeaponFire
  repeat' split
  any_goals exact List.Sublist.refl _
  exact fireWeapon_bombs_sublist s sid false now

theorem handleNpcWeaponFire_bombs_sublist (s : RoomState) (nid : String) (now : ℤ) :
    ((handleNpcWeaponFire s nid now).bombs).Sublist s.bombs := by
  unfold handleNpcWeaponFire
  repeat' split
  any_goals exact List.Sublist.refl _
  exact fireWeapon_bombs_sublist s nid true now

theorem npcFire_bombs_sublist (s : RoomState) (nid dir : String) (now : ℤ) :
    ((npcFire s nid dir now).bombs).Sublist s.bombs := by
  unfold npcFire
  split
  · exact List.Sublist.refl _
  · have h1 := handleNpcWeaponFire_bombs_sublist
      (updEnt s nid true (fun e0 => { e0 with facing := dir })) nid now
    rw [updEnt_bombs] at h1
    exact h1

theorem tickStep_bombs_sublist (now : ℤ) (st : RoomState) (id2 : String) :
    ((tickStep now st id2).bombs).Sublist st.bombs := by
  unfold tickStep
  split
  · exact List.Sublist.refl _
  · rename_i bomb hb
    dsimp only
    show ((adel (creditOwner (detonateFuel now (st.bombs.length + 1) st bomb)
        bomb.ownerId).bombs id2)).Sublist st.bombs
    rw [creditOwner_bombs]
    exact List.Sublist.trans (List.filter_sublist _)
      (detonate_bombs_sublist now _ st bomb)

theorem tickBombs_bombs_sublist (s : RoomState) (now : ℤ) :
    ((tickBombs s now).bombs).Sublist s.bombs := by
  unfold tickBombs
  have key : ∀ (ids : List String) (st : RoomState),
      ((ids.foldl (tickStep now) st).bombs).Sublist st.bombs := by
    intro ids
    induction ids with
    | nil => intro st; exact List.Sublist.refl _
    | cons id2 ids ih =>
      intro st
      rw [List.foldl_cons]
      exact List.Sublist.trans (ih (tickStep now st id2))
        (tickStep_bombs_sublist now st id2)
  exact key _ s

/-- One state transition of the embedded room: a player or NPC request
handler, the expired-bomb block, or respawn processing. -/
inductive RStep : RoomState → RoomState → Prop where
  | pmove : ∀ (s : RoomState) (sid dir : String) (now : ℤ),
      RStep s (handleMove s sid dir now)
  | pbomb : ∀ (s : RoomState) (sid : String) (now : ℤ),
      RStep s (handleBomb s sid now)
  | pfire : ∀ (s : RoomState) (sid : String) (now : ℤ),
      RStep s (handleWeaponFire s sid now)
  | nmove : ∀ (s : RoomState) (nid dir : String) (now : ℤ),
      RStep s (handleNpcMove s nid dir now)
  | nbomb : ∀ (s : RoomState) (nid : String) (now : ℤ),
      RStep s (handleNpcBomb s nid now)
  | nfire : ∀ (s : RoomState) (nid dir : String) (now : ℤ),
      RStep s (npcFire s nid dir now)
  | timers : ∀ (s : RoomState) (now : ℤ), RStep s (tickBombs s now)
  | respawns : ∀ (s : RoomState) (now : ℤ), RStep s (processRespawns s now)

def ReachableRoom (s0 s : RoomState) : Prop := Relation.ReflTransGen RStep s0 s

/-- C10: in every room state reachable from a bomb-free start, all live
bombs occupy pairwise distinct tiles — the two bomb handlers refuse to
place on an occupied tile, and every other transition only deletes bombs
or leaves them alone. -/
theorem claim_C10 (s0 s : RoomState) (hinit : s0.bombs = [])
    (hreach : ReachableRoom s0 s) : BombsDistinct s := by
  have h0 : BombsDistinct s0 := by
    unfold BombsDistinct
    rw [hinit]
    exact List.Pairwise.nil
  induction hreach with
  | refl => exact h0
  | tail h1 h2 ih =>
    cases h2 with
    | pmove sid dir now =>
      unfold BombsDistinct
      rw [handleMove_bombs]
      exact ih
    | pbomb sid now => exact handleBomb_distinct _ sid now ih
    | pfire sid now =>
      exact BombsDistinct_of_sublist _ _ (handleWeaponFire_bombs_sublist _ sid now) ih
    | nmove nid dir now =>
      unfold BombsDistinct
      rw [handleNpcMove_bombs]
      exact ih
    | nbomb nid now => exact handleNpcBomb_distinct _ nid now ih
    | nfire nid dir now =>
      exact BombsDistinct_of_sublist _ _ (npcFire_bombs_sublist _ nid dir now) ih
    | timers now =>
      exact BombsDistinct_of_sublist _ _ (tickBombs_bombs_sublist _ now) ih
    | respawns now =>
      unfold BombsDistinct
      rw [processRespawns_bombs]
      exact ih

theorem claim_C10_witness :
    cexRoomC7.bombs = [] ∧ BombsDistinct (handleBomb cexRoomC7 "p1" 0) :=
  ⟨rfl, claim_C10 cexRoomC7 (handleBomb cexRoomC7 "p1" 0) rfl
    (Relation.ReflTransGen.single (RStep.pbomb cexRoomC7 "p1" 0))⟩

/-! ### BFS reachability (C4) -/

section BfsCorrect

variable (cols rows : ℤ) (grid : Grid) (S : Finset Pos)

/-- A tile the BFS may step onto. -/
def okCell (p : Pos) : Prop :=
  inB cols rows p.1 p.2 = true ∧ isPassable (grid p.2 p.1) = true ∧ p ∉ S

def nbr (p : Pos) (d : DirE) : Pos := (p.1 + d.dx, p.2 + d.dy)

/-- A passable route of a given length: every tile after the start is in
bounds, passable and bomb-free, and consecutive tiles are `DIRS`
neighbours. -/
inductive ReachN : Pos → ℕ → Pos → Prop where
  | zero : ∀ p, ReachN p 0 p
  | step : ∀ p n q d, ReachN p n q → d ∈ DIRS → okCell cols rows grid S (nbr q d)
      → ReachN p (n+1) (nbr q d)

theorem reachN_zero_inv (p q : Pos) (h : ReachN cols rows grid S p 0 q) : q = p := by
  cases h
  rfl

theorem reachN_succ_inv (p q : Pos) (n : ℕ)
    (h : ReachN cols rows grid S p (n+1) q) :
    ∃ q2 d, d ∈ DIRS ∧ q = nbr q2 d ∧ okCell cols rows grid S q
      ∧ ReachN cols rows grid S p n q2 := by
  cases h with
  | step n2 q2 d h1 hd hok => exact ⟨q2, d, hd, rfl, hok, h1⟩

theorem reachN_append (p : Pos) :
    ∀ k q r2, ReachN cols rows grid S q k r2
      → ∀ n, ReachN cols rows grid S p n q → ReachN cols rows grid S p (n + k) r2 := by
  intro k q r2 h
  induction h with
  | zero => intro n hn; exact hn
  | step k2 q3 d h1 hd hok ih =>
    intro n hn
    exact ReachN.step p (n + k2) q3 d (ih n hn) hd hok

/-- The minimal route length. -/
def DistN (p q : Pos) (n : ℕ) : Prop :=
  ReachN cols rows grid S p n q ∧ ∀ m, ReachN cols rows grid S p m q → n ≤ m

theorem distN_exists (p q : Pos) (h : ∃ n, ReachN cols rows grid S p n q) :
    ∃ n, DistN cols rows grid S p q n := by
  classical
  refine ⟨Nat.find h, Nat.find_spec h, ?_⟩
  intro m hm
  exact Nat.find_min' h hm

theorem distN_unique (p q : Pos) (n n2 : ℕ) (h1 : DistN cols rows grid S p q n)
    (h2 : DistN cols rows grid S p q n2) : n = n2 :=
  le_antisymm (h1.2 n2 h2.1) (h2.2 n h1.1)

theorem distN_zero (p : Pos) : DistN cols rows grid S p p 0 :=
  ⟨ReachN.zero p, fun m _ => Nat.zero_le m⟩

theorem distN_zero_inv (p q : Pos) (h : DistN cols rows grid S p q 0) : q = p :=
  reachN_zero_inv cols rows grid S p q h.1

theorem distN_ne_start (p q : Pos) (n : ℕ) (h : DistN cols rows grid S p q (n+1)) :
    q ≠ p := by
  intro he
  subst he
  have := h.2 0 (ReachN.zero q)
  omega

theorem distN_succ_decomp (p q : Pos) (n : ℕ)
    (h : DistN cols rows grid S p q (n+1)) :
    ∃ q2 d, d ∈ DIRS ∧ q = nbr q2 d ∧ okCell cols rows grid S q
      ∧ DistN cols rows grid S p q2 n := by
  obtain ⟨q2, d, hd, hq, hok, hreach⟩ := reachN_succ_inv cols rows grid S p q n h.1
  obtain ⟨m, hm⟩ := distN_exists cols rows grid S p q2 ⟨n, hreach⟩
  have hmn : m ≤ n := hm.2 n hreach
  have hq2 : ReachN cols rows grid S p (m+1) q := by
    rw [hq]
    exact ReachN.step p m q2 d hm.1 hd (hq ▸ hok)
  have hge : n + 1 ≤ m + 1 := h.2 (m+1) hq2
  have hmn2 : m = n := by omega
  subst hmn2
  exact ⟨q2, d, hd, hq, hok, hm⟩

theorem okCell_of_distN_succ (p q : Pos) (n : ℕ)
    (h : DistN cols rows grid S p q (n+1)) : okCell cols rows grid S q := by
  obtain ⟨-, -, -, -, hok, -⟩ := distN_succ_decomp cols rows grid S p q n h
  exact hok

theorem distN_step_le (p q q2 : Pos) (n m : ℕ) (d : DirE)
    (h : DistN cols rows grid S p q n) (hd : d ∈ DIRS)
    (hok : okCell cols rows grid S (nbr q d))
    (h2 : DistN cols rows grid S p (nbr q d) m) : m ≤ n + 1 :=
  h2.2 (n+1) (ReachN.step p n q d h.1 hd hok)

end BfsCorrect

section BfsCorrect2

variable (cols rows : ℤ) (grid : Grid) (S : Finset Pos) (goal : ℤ → ℤ → Bool)

def posOf (b : BNode) : Pos := (b.x, b.y)

/-- A legal first step out of `start`. -/
def stepOKFor (start : Pos) (st : BStep) : Prop :=
  ∃ d ∈ DIRS, st.dir = d.name ∧ (st.x, st.y) = nbr start d
    ∧ okCell cols rows grid S (st.x, st.y)

/-- What the BFS queue stores: the start node, or a node whose recorded
first step begins a minimal route to the node's tile. -/
def NodeOK (start : Pos) (b : BNode) : Prop :=
  (b.firstStep = none ∧ posOf b = start)
  ∨ ∃ st m, b.firstStep = some st ∧ stepOKFor cols rows grid S start st
      ∧ DistN cols rows grid S start (posOf b) (m+1)
      ∧ ReachN cols rows grid S (st.x, st.y) m (posOf b)

/-- The queue splits into the current BFS level and the next one. -/
def LevelsOK (start : Pos) (V : Finset Pos) (Q Q1 Q2 : List BNode) (dl : ℕ) : Prop :=
  Q = Q1 ++ Q2
  ∧ (∀ b ∈ Q1, DistN cols rows grid S start (posOf b) dl)
  ∧ (∀ b ∈ Q2, DistN cols rows grid S start (posOf b) (dl+1))
  ∧ (∀ p n, DistN cols rows grid S start p n → n ≤ dl → p ∈ V)
  ∧ (∀ p n, DistN cols rows grid S start p n → n < dl → p ∉ Q.map posOf)
  ∧ (∀ p, DistN cols rows grid S start p (dl+1) → p ∉ V
      → ∃ b ∈ Q1, ∃ d ∈ DIRS, p = nbr (posOf b) d)

/-- The loop invariant of `BotBrain.bfs`. -/
structure BfsInv (start : Pos) (fuel : ℕ) (V : Finset Pos) (Q : List BNode) :
    Prop where
  startV : start ∈ V
  vOK : ∀ p ∈ V, p = start
      ∨ (okCell cols rows grid S p ∧ ∃ n, ReachN cols rows grid S start n p)
  qV : ∀ b ∈ Q, posOf b ∈ V
  qOK : ∀ b ∈ Q, NodeOK cols rows grid S start b
  procGoal : ∀ p ∈ V, p ∉ Q.map posOf → p ≠ start → goal p.1 p.2 = false
  procClosed : ∀ p ∈ V, p ∉ Q.map posOf → ∀ d ∈ DIRS,
      okCell cols rows grid S (nbr p d) → nbr p d ∈ V
  levels : ∃ dl Q1 Q2, LevelsOK cols rows grid S start V Q Q1 Q2 dl
  fuelB : Q.length + (cols.toNat * rows.toNat + 1 - V.card) ≤ fuel
  cardB : V.card ≤ cols.toNat * rows.toNat + 1

/-- One neighbour examination of the BFS loop. -/
def expandOne (cur : BNode) (st : Finset Pos × List BNode) (d : DirE) :
    Finset Pos × List BNode :=
  let nx := cur.x + d.dx
  let ny := cur.y + d.dy
  if inB cols rows nx ny = true ∧ (nx, ny) ∉ st.1
     ∧ isPassable (grid ny nx) = true ∧ (nx, ny) ∉ S then
    (insert (nx, ny) st.1,
     st.2 ++ [⟨nx, ny, some (cur.firstStep.getD ⟨nx, ny, d.name⟩)⟩])
  else st

theorem bfsAux_nil (fuel : ℕ) (V : Finset Pos) :
    bfsAux cols rows grid S goal fuel V [] = none := by
  cases fuel <;> rfl

theorem bfsAux_zero (V : Finset Pos) (cur : BNode) (queue : List BNode) :
    bfsAux cols rows grid S goal 0 V (cur :: queue) = none := rfl

theorem bfsAux_succ (fuel : ℕ) (V : Finset Pos) (cur : BNode) (queue : List BNode) :
    bfsAux cols rows grid S goal (fuel+1) V (cur :: queue)
    = if cur.firstStep ≠ none ∧ goal cur.x cur.y = true then cur.firstStep
      else bfsAux cols rows grid S goal fuel
        (DIRS.foldl (expandOne cols rows grid S cur) (V, queue)).1
        (DIRS.foldl (expandOne cols rows grid S cur) (V, queue)).2 := rfl

theorem card_bound (start : Pos) (V : Finset Pos)
    (h : ∀ p ∈ V, p = start ∨ inB cols rows p.1 p.2 = true) :
    V.card ≤ cols.toNat * rows.toNat + 1 := by
  classical
  have hsub : V ⊆ insert start ((Finset.Ico (0:ℤ) cols) ×ˢ (Finset.Ico (0:ℤ) rows)) := by
    intro p hp
    rcases h p hp with h1 | h1
    · rw [h1]
      exact Finset.mem_insert_self _ _
    · refine Finset.mem_insert_of_mem ?_
      rw [Finset.mem_product, Finset.mem_Ico, Finset.mem_Ico]
      have h2 := inB_iff.mp h1
      exact ⟨⟨h2.1, h2.2.1⟩, h2.2.2.1, h2.2.2.2⟩
  calc V.card ≤ (insert start ((Finset.Ico (0:ℤ) cols) ×ˢ (Finset.Ico (0:ℤ) rows))).card :=
        Finset.card_le_card hsub
    _ ≤ ((Finset.Ico (0:ℤ) cols) ×ˢ (Finset.Ico (0:ℤ) rows)).card + 1 :=
        Finset.card_insert_le _ _
    _ = cols.toNat * rows.toNat + 1 := by
        rw [Finset.card_product, Int.card_Ico, Int.card_Ico, sub_zero, sub_zero]

end BfsCorrect2

section BfsCorrect3

variable (cols rows : ℤ) (grid : Grid) (S : Finset Pos) (goal : ℤ → ℤ → Bool)

/-- The mid-expansion invariant while one popped node's neighbours are
examined. -/
structure MInv (start : Pos) (cur : BNode) (dl : ℕ) (V : Finset Pos)
    (rest : List BNode) (st : Finset Pos × List BNode) : Prop where
  vsub : V ⊆ st.1
  vnew : ∀ p ∈ st.1, p ∈ V
      ∨ ((∃ d ∈ DIRS, p = nbr (posOf cur) d) ∧ okCell cols rows grid S p
          ∧ DistN cols rows grid S start p (dl+1) ∧ p ∈ st.2.map posOf)
  qeq : ∃ N, st.2 = rest ++ N
      ∧ ∀ b ∈ N, NodeOK cols rows grid S start b
          ∧ DistN cols rows grid S start (posOf b) (dl+1) ∧ posOf b ∈ st.1
  vOK2 : ∀ p ∈ st.1, p = start
      ∨ (okCell cols rows grid S p ∧ ∃ n, ReachN cols rows grid S start n p)
  cnt : st.2.length + (cols.toNat * rows.toNat + 1 - st.1.card)
      ≤ rest.length + (cols.toNat * rows.toNat + 1 - V.card)
  qv2 : ∀ b ∈ st.2, posOf b ∈ st.1

theorem expandOne_mono (cur : BNode) (st : Finset Pos × List BNode) (d : DirE) :
    st.1 ⊆ (expandOne cols rows grid S cur st d).1 := by
  unfold expandOne
  dsimp only
  split
  · exact Finset.subset_insert _ _
  · exact Finset.Subset.refl _

theorem expandOne_cover (cur : BNode) (st : Finset Pos × List BNode) (d : DirE)
    (hok : okCell cols rows grid S (nbr (posOf cur) d)) :
    nbr (posOf cur) d ∈ (expandOne cols rows grid S cur st d).1 := by
  unfold expandOne
  dsimp only
  split
  · exact Finset.mem_insert_self _ _
  · rename_i hc
    by_cases hv : ((cur.x + d.dx, cur.y + d.dy) : Pos) ∈ st.1
    · exact hv
    · exact absurd ⟨hok.1, hv, hok.2.1, hok.2.2⟩ hc

theorem expand_pres (start : Pos) (cur : BNode) (dl : ℕ) (V : Finset Pos)
    (rest : List BNode) (st : Finset Pos × List BNode) (d : DirE) (hd : d ∈ DIRS)
    (hcurD : DistN cols rows grid S start (posOf cur) dl)
    (hcurN : NodeOK cols rows grid S start cur)
    (hVc : ∀ p n, DistN cols rows grid S start p n → n ≤ dl → p ∈ V)
    (hm : MInv cols rows grid S start cur dl V rest st) :
    MInv cols rows grid S start cur dl V rest
      (expandOne cols rows grid S cur st d) := by
  unfold expandOne
  dsimp only
  split
  case isFalse => exact hm
  case isTrue hc =>
  have hokp : okCell cols rows grid S ((cur.x + d.dx, cur.y + d.dy) : Pos) :=
    ⟨hc.1, hc.2.2.1, hc.2.2.2⟩
  have hpreach : ReachN cols rows grid S start (dl+1)
      ((cur.x + d.dx, cur.y + d.dy) : Pos) :=
    ReachN.step start dl (posOf cur) d hcurD.1 hd hokp
  have hpV : ((cur.x + d.dx, cur.y + d.dy) : Pos) ∉ V :=
    fun hpv => hc.2.1 (hm.vsub hpv)
  have hdist : DistN cols rows grid S start ((cur.x + d.dx, cur.y + d.dy) : Pos)
      (dl+1) := by
    obtain ⟨n0, hn0⟩ := distN_exists cols rows grid S start _ ⟨dl+1, hpreach⟩
    have h1 : ¬ n0 ≤ dl := fun hle => hpV (hVc _ n0 hn0 hle)
    have h2 := hn0.2 (dl+1) hpreach
    have h3 : n0 = dl + 1 := by omega
    subst h3
    exact hn0
  have hnodeOK : NodeOK cols rows grid S start
      (⟨cur.x + d.dx, cur.y + d.dy,
        some (cur.firstStep.getD ⟨cur.x + d.dx, cur.y + d.dy, d.name⟩)⟩ : BNode) := by
    rcases hcurN with ⟨hfs, hpos⟩ | ⟨st0, m, hfs, hstOK, hposD, hstR⟩
    · have hdl0 : dl = 0 := by
        have h1 := hcurD
        rw [hpos] at h1
        exact distN_unique cols rows grid S start start dl 0 h1
          (distN_zero cols rows grid S start)
      refine Or.inr ⟨⟨cur.x + d.dx, cur.y + d.dy, d.name⟩, dl, ?_, ?_, ?_, ?_⟩
      · rw [hfs]
        rfl
      · refine ⟨d, hd, rfl, ?_, hokp⟩
        rw [← hpos]
        rfl
      · exact hdist
      · rw [hdl0]
        exact ReachN.zero _
    · have hmdl : m + 1 = dl :=
        distN_unique cols rows grid S start (posOf cur) (m+1) dl hposD hcurD
      refine Or.inr ⟨st0, dl, ?_, hstOK, hdist, ?_⟩
      · rw [hfs]
        rfl
      · have h4 : ReachN cols rows grid S (st0.x, st0.y) (m+1)
            ((cur.x + d.dx, cur.y + d.dy) : Pos) :=
          ReachN.step (st0.x, st0.y) m (posOf cur) d hstR hd hokp
        rw [← hmdl]
        exact h4
  obtain ⟨N, hNeq, hNok⟩ := hm.qeq
  have hcardnew : st.1.card + 1 ≤ cols.toNat * rows.toNat + 1 := by
    have h5 : (insert ((cur.x + d.dx, cur.y + d.dy) : Pos) st.1).card
        ≤ cols.toNat * rows.toNat + 1 := by
      refine card_bound cols rows start _ ?_
      intro p hp
      rcases Finset.mem_insert.mp hp with h6 | h6
      · subst h6
        exact Or.inr hokp.1
      · rcases hm.vOK2 p h6 with h7 | h7
        · exact Or.inl h7
        · exact Or.inr h7.1.1
    rw [Finset.card_insert_of_not_mem hc.2.1] at h5
    exact h5
  refine ⟨?_, ?_, ?_, ?_, ?_, ?_⟩
  · exact subset_trans hm.vsub (Finset.subset_insert _ _)
  · intro p hp
    rcases Finset.mem_insert.mp hp with h6 | h6
    · subst h6
      refine Or.inr ⟨⟨d, hd, rfl⟩, hokp, hdist, ?_⟩
      rw [List.map_append, List.mem_append]
      exact Or.inr (by simp [posOf])
    · rcases hm.vnew p h6 with h7 | h7
      · exact Or.inl h7
      · refine Or.inr ⟨h7.1, h7.2.1, h7.2.2.1, ?_⟩
        rw [List.map_append, List.mem_append]
        exact Or.inl h7.2.2.2
  · refine ⟨N ++ [⟨cur.x + d.dx, cur.y + d.dy,
      some (cur.firstStep.getD ⟨cur.x + d.dx, cur.y + d.dy, d.name⟩)⟩], ?_, ?_⟩
    · rw [hNeq, List.append_assoc]
    · intro b hb
      rcases List.mem_append.mp hb with h6 | h6
      · obtain ⟨h7, h8, h9⟩ := hNok b h6
        exact ⟨h7, h8, Finset.mem_insert_of_mem h9⟩
      · rw [List.mem_singleton] at h6
        subst h6
        exact ⟨hnodeOK, hdist, Finset.mem_insert_self _ _⟩
  · intro p hp
    rcases Finset.mem_insert.mp hp with h6 | h6
    · subst h6
      exact Or.inr ⟨hokp, dl+1, hpreach⟩
    · exact hm.vOK2 p h6
  · have h8 := hm.cnt
    rw [List.length_append, Finset.card_insert_of_not_mem hc.2.1]
    simp only [List.length_singleton]
    omega
  · intro b hb
    rcases List.mem_append.mp hb with h6 | h6
    · exact Finset.mem_insert_of_mem (hm.qv2 b h6)
    · rw [List.mem_singleton] at h6
      subst h6
      exact Finset.mem_insert_self _ _

end BfsCorrect3

section BfsCorrect4

variable (cols rows : ℤ) (grid : Grid) (S : Finset Pos) (goal : ℤ → ℤ → Bool)

theorem levels_renorm (start : Pos) (V : Finset Pos) (Q Q2 : List BNode) (dl : ℕ)
    (hL : LevelsOK cols rows grid S start V Q [] Q2 dl)
    (hclosed : ∀ p ∈ V, p ∉ Q.map posOf → ∀ d ∈ DIRS,
      okCell cols rows grid S (nbr p d) → nbr p d ∈ V) :
    LevelsOK cols rows grid S start V Q Q2 [] (dl+1) := by
  obtain ⟨hQ, h1, h2, h3, h4, h5⟩ := hL
  have hQ2 : Q = Q2 := by simpa using hQ
  subst hQ2
  have hc4 : ∀ p n, DistN cols rows grid S start p n → n ≤ dl + 1 → p ∈ V := by
    intro p n hD hle
    by_cases hn : n ≤ dl
    · exact h3 p n hD hn
    · have hn2 : n = dl + 1 := by omega
      subst hn2
      by_contra hpV
      obtain ⟨b, hb, -⟩ := h5 p hD hpV
      cases hb
  refine ⟨by simp, h2, by simp, hc4, ?_, ?_⟩
  · intro p n hD hlt hmem
    by_cases hn : n < dl
    · exact h4 p n hD hn hmem
    · have hn2 : n = dl := by omega
      subst hn2
      obtain ⟨b, hbQ, hbp⟩ := List.mem_map.mp hmem
      have hbd := h2 b hbQ
      rw [hbp] at hbd
      have := distN_unique cols rows grid S start p n (n+1) hD hbd
      omega
  · intro p hD hpV
    obtain ⟨q, d, hd, hpq, hok, hq⟩ :=
      distN_succ_decomp cols rows grid S start p (dl+1) hD
    have hqV : q ∈ V := hc4 q (dl+1) hq (le_refl _)
    by_cases hqQ : q ∈ Q.map posOf
    · obtain ⟨b, hbQ, hbp⟩ := List.mem_map.mp hqQ
      refine ⟨b, hbQ, d, hd, ?_⟩
      rw [hbp, ← hpq]
    · exfalso
      apply hpV
      have := hclosed q hqV hqQ d hd (by rw [← hpq]; exact hok)
      rw [← hpq] at this
      exact this

theorem bfsInv_empty (start : Pos) (fuel : ℕ) (V : Finset Pos)
    (inv : BfsInv cols rows grid S goal start fuel V []) :
    ∀ n q, ReachN cols rows grid S start n q → goal q.1 q.2 = true
      → q ≠ start → False := by
  have hall : ∀ (n : ℕ) (q : Pos), ReachN cols rows grid S start n q → q ∈ V := by
    intro n q h
    induction h with
    | zero => exact inv.startV
    | step n2 q2 d h1 hd hok ih => exact inv.procClosed q2 ih (by simp) d hd hok
  intro n q hr hg hq
  have h2 := inv.procGoal q (hall n q hr) (by simp) hq
  rw [hg] at h2
  cases h2

theorem expand_assemble (start : Pos) (fuel : ℕ) (V : Finset Pos)
    (cur : BNode) (Q1t Q2 : List BNode) (dl : ℕ)
    (inv : BfsInv cols rows grid S goal start (fuel+1) V (cur :: (Q1t ++ Q2)))
    (hL : LevelsOK cols rows grid S start V (cur :: (Q1t ++ Q2)) (cur :: Q1t) Q2 dl)
    (hnotret : ¬(cur.firstStep ≠ none ∧ goal cur.x cur.y = true))
    (st : Finset Pos × List BNode)
    (hm : MInv cols rows grid S start cur dl V (Q1t ++ Q2) st)
    (hcov : ∀ d ∈ DIRS, okCell cols rows grid S (nbr (posOf cur) d)
      → nbr (posOf cur) d ∈ st.1) :
    BfsInv cols rows grid S goal start fuel st.1 st.2 := by
  obtain ⟨N, hNeq, hNok⟩ := hm.qeq
  have hrestQ : ∀ b ∈ Q1t ++ Q2, b ∈ cur :: (Q1t ++ Q2) :=
    fun b hb => List.mem_cons_of_mem cur hb
  have hpQold : ∀ p, p ≠ posOf cur → p ∉ st.2.map posOf
      → p ∉ (cur :: (Q1t ++ Q2)).map posOf := by
    intro p hpc hnq hmem
    rw [List.map_cons, List.mem_cons] at hmem
    rcases hmem with h6 | h6
    · exact hpc h6
    · apply hnq
      rw [hNeq, List.map_append, List.mem_append]
      exact Or.inl h6
  refine ⟨hm.vsub inv.startV, hm.vOK2, hm.qv2, ?_, ?_, ?_, ?_, ?_, ?_⟩
  · intro b hb
    rw [hNeq] at hb
    rcases List.mem_append.mp hb with h6 | h6
    · exact inv.qOK b (hrestQ b h6)
    · exact (hNok b h6).1
  · intro p hp hnq hns
    rcases hm.vnew p hp with hpV | hnew
    · by_cases hpc : p = posOf cur
      · cases hfs : cur.firstStep with
        | none =>
          rcases inv.qOK cur (List.mem_cons_self cur _) with ⟨hfs2, hpos⟩
            | ⟨st0, m, hfs2, -, -, -⟩
          · exact absurd (hpc.trans hpos) hns
          · rw [hfs] at hfs2
            cases hfs2
        | some st0 =>
          have hng : ¬(goal cur.x cur.y = true) := by
            intro hg
            exact hnotret ⟨by rw [hfs]; exact Option.some_ne_none st0, hg⟩
          subst hpc
          cases hgoal : goal (posOf cur).1 (posOf cur).2 with
          | false => rfl
          | true => exact absurd hgoal hng
      · exact inv.procGoal p hpV (hpQold p hpc hnq) hns
    · exact absurd hnew.2.2.2 hnq
  · intro p hp hnq d hd hok
    rcases hm.vnew p hp with hpV | hnew
    · by_cases hpc : p = posOf cur
      · subst hpc
        exact hcov d hd hok
      · exact hm.vsub (inv.procClosed p hpV (hpQold p hpc hnq) d hd hok)
    · exact absurd hnew.2.2.2 hnq
  · refine ⟨dl, Q1t, Q2 ++ N, ?_, ?_, ?_, ?_, ?_, ?_⟩
    · rw [hNeq, List.append_assoc]
    · intro b hb
      exact hL.2.1 b (List.mem_cons_of_mem cur hb)
    · intro b hb
      rcases List.mem_append.mp hb with h6 | h6
      · exact hL.2.2.1 b h6
      · exact (hNok b h6).2.1
    · intro p n hD hle
      exact hm.vsub (hL.2.2.2.1 p n hD hle)
    · intro p n hD hlt hmem
      rw [hNeq, List.map_append, List.mem_append] at hmem
      rcases hmem with h6 | h6
      · refine hL.2.2.2.2.1 p n hD hlt ?_
        rw [List.map_cons, List.mem_cons]
        exact Or.inr h6
      · obtain ⟨b, hbN, hbp⟩ := List.mem_map.mp h6
        have hbd := (hNok b hbN).2.1
        rw [hbp] at hbd
        have := distN_unique cols rows grid S start p n (dl+1) hD hbd
        omega
    · intro p hD hpS
      have hpV : p ∉ V := fun hv => hpS (hm.vsub hv)
      obtain ⟨b, hb, d, hd, hpeq⟩ := hL.2.2.2.2.2 p hD hpV
      rcases List.mem_cons.mp hb with h6 | h6
      · exfalso
        apply hpS
        have hok := okCell_of_distN_succ cols rows grid S start p dl hD
        have := hcov d hd (by rw [h6] at hpeq; rw [← hpeq]; exact hok)
        rw [h6] at hpeq
        rw [← hpeq] at this
        exact this
      · exact ⟨b, h6, d, hd, hpeq⟩
  · have h8 := hm.cnt
    have h9 := inv.fuelB
    simp only [List.length_cons] at h9
    omega
  · refine card_bound cols rows start _ ?_
    intro p hp
    rcases hm.vOK2 p hp with h6 | h6
    · exact Or.inl h6
    · exact Or.inr h6.1.1

end BfsCorrect4

section BfsCorrect5

variable (cols rows : ℤ) (grid : Grid) (S : Finset Pos) (goal : ℤ → ℤ → Bool)

theorem mInv_base (start : Pos) (cur : BNode) (dl : ℕ) (V : Finset Pos)
    (rest : List BNode) (hv : ∀ b ∈ rest, posOf b ∈ V)
    (hvOK : ∀ p ∈ V, p = start
      ∨ (okCell cols rows grid S p ∧ ∃ n, ReachN cols rows grid S start n p)) :
    MInv cols rows grid S start cur dl V rest (V, rest) := by
  refine ⟨Finset.Subset.refl V, fun p hp => Or.inl hp,
    ⟨[], (List.append_nil rest).symm, fun b hb => absurd hb (List.not_mem_nil b)⟩,
    hvOK, le_refl _, hv⟩

theorem levels_head (start : Pos) (V : Finset Pos) (cur : BNode)
    (rest : List BNode) (dl0 : ℕ) (Q1 Q2 : List BNode)
    (hL0 : LevelsOK cols rows grid S start V (cur :: rest) Q1 Q2 dl0)
    (hclosed : ∀ p ∈ V, p ∉ (cur :: rest).map posOf → ∀ d ∈ DIRS,
      okCell cols rows grid S (nbr p d) → nbr p d ∈ V) :
    ∃ dl Q1t Q2b, rest = Q1t ++ Q2b
      ∧ LevelsOK cols rows grid S start V (cur :: rest) (cur :: Q1t) Q2b dl := by
  cases Q1 with
  | nil =>
    have hQ2 : Q2 = cur :: rest := by
      have h1 := hL0.1
      simpa using h1.symm
    subst hQ2
    have hL1 := levels_renorm cols rows grid S start V (cur :: rest) _ dl0 hL0 hclosed
    exact ⟨dl0 + 1, rest, [], (List.append_nil rest).symm, hL1⟩
  | cons c1 Q1t =>
    have h1 := hL0.1
    rw [List.cons_append] at h1
    injection h1 with h2 h3
    subst h2
    exact ⟨dl0, Q1t, Q2, h3, hL0⟩

theorem bfsAux_correct (start : Pos) :
    ∀ (fuel : ℕ) (V : Finset Pos) (Q : List BNode),
      BfsInv cols rows grid S goal start fuel V Q →
      (bfsAux cols rows grid S goal fuel V Q = none →
        ∀ n q, ReachN cols rows grid S start n q → goal q.1 q.2 = true
          → q ≠ start → False)
      ∧ (∀ st0, bfsAux cols rows grid S goal fuel V Q = some st0 →
          stepOKFor cols rows grid S start st0
          ∧ ∃ m q, DistN cols rows grid S start q (m+1) ∧ goal q.1 q.2 = true
              ∧ ReachN cols rows grid S (st0.x, st0.y) m q
              ∧ ∀ n2 q2, ReachN cols rows grid S start n2 q2
                  → goal q2.1 q2.2 = true → q2 ≠ start → m + 1 ≤ n2) := by
  intro fuel
  induction fuel with
  | zero =>
    intro V Q inv
    constructor
    · intro hnone
      cases Q with
      | nil => exact bfsInv_empty cols rows grid S goal start 0 V inv
      | cons cur rest =>
        intro n q hr hg hq
        have h1 := inv.fuelB
        simp only [List.length_cons] at h1
        omega
    · intro st0 hsome
      cases Q with
      | nil =>
        rw [bfsAux_nil] at hsome
        cases hsome
      | cons cur rest =>
        rw [bfsAux_zero] at hsome
        cases hsome
  | succ f ih =>
    intro V Q inv
    cases Q with
    | nil =>
      constructor
      · intro _
        exact bfsInv_empty cols rows grid S goal start (f+1) V inv
      · intro st0 hsome
        rw [bfsAux_nil] at hsome
        cases hsome
    | cons cur rest =>
      obtain ⟨dl0, Q1, Q2, hL0⟩ := inv.levels
      obtain ⟨dl, Q1t, Q2b, hrest, hL⟩ :=
        levels_head cols rows grid S start V cur rest dl0 Q1 Q2 hL0 inv.procClosed
      subst hrest
      rw [bfsAux_succ]
      by_cases hret : cur.firstStep ≠ none ∧ goal cur.x cur.y = true
      · rw [if_pos hret]
        constructor
        · intro hnone
          exact absurd hnone hret.1
        · intro st0 hsome
          rcases inv.qOK cur (List.mem_cons_self cur _) with ⟨hfs, hpos⟩
            | ⟨st1, m, hfs, hstOK, hposD, hstR⟩
          · exact absurd hfs hret.1
          · rw [hfs] at hsome
            injection hsome with he
            subst he
            have hcurD : DistN cols rows grid S start (posOf cur) dl :=
              hL.2.1 cur (List.mem_cons_self cur _)
            have hmdl : m + 1 = dl :=
              distN_unique cols rows grid S start (posOf cur) (m+1) dl hposD hcurD
            refine ⟨hstOK, m, posOf cur, hposD, hret.2, hstR, ?_⟩
            intro n2 q2 hr2 hg2 hq2
            by_contra hlt
            obtain ⟨n0, hn0⟩ := distN_exists cols rows grid S start q2 ⟨n2, hr2⟩
            have hn0le : n0 ≤ n2 := hn0.2 n2 hr2
            have hn0lt : n0 < dl := by omega
            have hq2V : q2 ∈ V := hL.2.2.2.1 q2 n0 hn0 (by omega)
            have hq2nQ : q2 ∉ (cur :: (Q1t ++ Q2b)).map posOf :=
              hL.2.2.2.2.1 q2 n0 hn0 hn0lt
            have h2 := inv.procGoal q2 hq2V hq2nQ hq2
            rw [hg2] at h2
            cases h2
      · rw [if_neg hret]
        have hfold : DIRS.foldl (expandOne cols rows grid S cur) (V, Q1t ++ Q2b)
            = expandOne cols rows grid S cur
                (expandOne cols rows grid S cur
                  (expandOne cols rows grid S cur
                    (expandOne cols rows grid S cur (V, Q1t ++ Q2b) ⟨0, -1, "up"⟩)
                    ⟨0, 1, "down"⟩)
                  ⟨-1, 0, "left"⟩)
                ⟨1, 0, "right"⟩ := rfl
        rw [hfold]
        have hcurD : DistN cols rows grid S start (posOf cur) dl :=
          hL.2.1 cur (List.mem_cons_self cur _)
        have hcurN := inv.qOK cur (List.mem_cons_self cur _)
        have hVc := hL.2.2.2.1
        have hm0 : MInv cols rows grid S start cur dl V (Q1t ++ Q2b)
            (V, Q1t ++ Q2b) :=
          mInv_base cols rows grid S start cur dl V (Q1t ++ Q2b)
            (fun b hb => inv.qV b (List.mem_cons_of_mem cur hb)) inv.vOK
        have hm1 := expand_pres cols rows grid S start cur dl V (Q1t ++ Q2b)
          (V, Q1t ++ Q2b) ⟨0, -1, "up"⟩ (by decide) hcurD hcurN hVc hm0
        have hm2 := expand_pres cols rows grid S start cur dl V (Q1t ++ Q2b)
          _ ⟨0, 1, "down"⟩ (by decide) hcurD hcurN hVc hm1
        have hm3 := expand_pres cols rows grid S start cur dl V (Q1t ++ Q2b)
          _ ⟨-1, 0, "left"⟩ (by decide) hcurD hcurN hVc hm2
        have hm4 := expand_pres cols rows grid S start cur dl V (Q1t ++ Q2b)
          _ ⟨1, 0, "right"⟩ (by decide) hcurD hcurN hVc hm3
        have hcov : ∀ d ∈ DIRS, okCell cols rows grid S (nbr (posOf cur) d)
            → nbr (posOf cur) d
              ∈ (expandOne cols rows grid S cur
                  (expandOne cols rows grid S cur
                    (expandOne cols rows grid S cur
                      (expandOne cols rows grid S cur (V, Q1t ++ Q2b) ⟨0, -1, "up"⟩)
                      ⟨0, 1, "down"⟩)
                    ⟨-1, 0, "left"⟩)
                  ⟨1, 0, "right"⟩).1 := by
          intro d hd hok
          simp only [DIRS, List.mem_cons, List.not_mem_nil, or_false] at hd
          rcases hd with h | h | h | h
          · subst h
            exact expandOne_mono cols rows grid S cur _ _
              (expandOne_mono cols rows grid S cur _ _
                (expandOne_mono cols rows grid S cur _ _
                  (expandOne_cover cols rows grid S cur _ _ hok)))
          · subst h
            exact expandOne_mono cols rows grid S cur _ _
              (expandOne_mono cols rows grid S cur _ _
                (expandOne_cover cols rows grid S cur _ _ hok))
          · subst h
            exact expandOne_mono cols rows grid S cur _ _
              (expandOne_cover cols rows grid S cur _ _ hok)
          · subst h
            exact expandOne_cover cols rows grid S cur _ _ hok
        have hinv2 := expand_assemble cols rows grid S goal start f V cur Q1t Q2b dl
          inv hL hret _ hm4 hcov
        exact ih _ _ hinv2

end BfsCorrect5

section BfsCorrect6

variable (cols rows : ℤ) (grid : Grid) (S : Finset Pos) (goal : ℤ → ℤ → Bool)

theorem bfsInv_init (start : Pos) :
    BfsInv cols rows grid S goal start (cols.toNat * rows.toNat + 1) {start}
      [⟨start.1, start.2, none⟩] := by
  refine ⟨Finset.mem_singleton_self start, ?_, ?_, ?_, ?_, ?_, ?_, ?_, ?_⟩
  · intro p hp
    exact Or.inl (Finset.mem_singleton.mp hp)
  · intro b hb
    have hb2 := List.mem_singleton.mp hb
    subst hb2
    exact Finset.mem_singleton_self start
  · intro b hb
    have hb2 := List.mem_singleton.mp hb
    subst hb2
    exact Or.inl ⟨rfl, rfl⟩
  · intro p hp hnq hne
    exact absurd (Finset.mem_singleton.mp hp) hne
  · intro p hp hnq d hd hok
    exfalso
    apply hnq
    rw [Finset.mem_singleton.mp hp]
    exact List.mem_singleton.mpr rfl
  · refine ⟨0, [⟨start.1, start.2, none⟩], [], (List.append_nil _).symm, ?_, ?_, ?_, ?_, ?_⟩
    · intro b hb
      have hb2 := List.mem_singleton.mp hb
      subst hb2
      exact distN_zero cols rows grid S start
    · intro b hb
      exact absurd hb (List.not_mem_nil b)
    · intro p n hdn hle
      have hn0 : n = 0 := Nat.le_zero.mp hle
      subst hn0
      rw [distN_zero_inv cols rows grid S start p hdn]
      exact Finset.mem_singleton_self start
    · intro p n hdn hlt
      exact absurd hlt (Nat.not_lt_zero n)
    · intro p hdn hpV
      obtain ⟨q2, d, hd, hpq, hok, hd0⟩ :=
        distN_succ_decomp cols rows grid S start p 0 hdn
      have hq2 : q2 = start := distN_zero_inv cols rows grid S start q2 hd0
      refine ⟨⟨start.1, start.2, none⟩, List.mem_singleton.mpr rfl, d, hd, ?_⟩
      rw [hpq, hq2]
      rfl
  · simp only [List.length_cons, List.length_nil, Finset.card_singleton]
    omega
  · rw [Finset.card_singleton]
    omega

end BfsCorrect6

/-- All-wall 3×3 grid except the single interior tile (1, 1). -/
def wGridC4 : Grid := fun y x => if y = 1 ∧ x = 1 then EMPTY else WALL

/-- Goal predicate satisfied exactly at tile (1, 1). -/
def wGoalC4 : ℤ → ℤ → Bool := fun x y => decide (x = 1 ∧ y = 1)

/-- C4 counterexample: with the goal satisfied only at the start tile,
`BotBrain.bfs` returns "no path" even though a trivial passable route
(of length 0, from the start to itself) to a goal-satisfying tile
exists: the loop only goal-tests nodes carrying a recorded first step,
and the start node carries none. -/
theorem claim_C4_counterexample :
    botBfs (mkBotBrain "n" "easy" 3 3) wGridC4 1 1 [] wGoalC4 = none
    ∧ wGoalC4 1 1 = true
    ∧ okCell 3 3 wGridC4 (buildBombSet []) (1, 1)
    ∧ ReachN 3 3 wGridC4 (buildBombSet []) (1, 1) 0 (1, 1) :=
  ⟨by decide, by decide, ⟨by decide, by decide, by decide⟩, ReachN.zero (1, 1)⟩

/-- C4: `BotBrain.bfs` (Wall, Block and bomb tiles impassable) returns
"no path" iff no passable route from the start to a goal tile OTHER THAN
THE START ITSELF exists; when it returns a first step, that step is a
legal move out of the start lying on a route of minimal length to a
nearest goal tile.  The original claim, which counts the start tile as a
satisfying destination, is refuted by `claim_C4_counterexample`: the
loop requires a recorded first step before goal-testing a node, so the
start node is never goal-tested. -/
theorem claim_C4_amended (s : BotState) (grid : Grid) (startX startY : ℤ)
    (bombs : List BombRec) (goal : ℤ → ℤ → Bool) :
    (botBfs s grid startX startY bombs goal = none
      ↔ ¬ ∃ n q, ReachN s.cols s.rows grid (buildBombSet bombs) (startX, startY) n q
          ∧ goal q.1 q.2 = true ∧ q ≠ (startX, startY))
    ∧ (∀ st, botBfs s grid startX startY bombs goal = some st →
        stepOKFor s.cols s.rows grid (buildBombSet bombs) (startX, startY) st
        ∧ ∃ m q,
            DistN s.cols s.rows grid (buildBombSet bombs) (startX, startY) q (m+1)
            ∧ goal q.1 q.2 = true
            ∧ ReachN s.cols s.rows grid (buildBombSet bombs) (st.x, st.y) m q
            ∧ ∀ n2 q2,
                ReachN s.cols s.rows grid (buildBombSet bombs) (startX, startY) n2 q2
                → goal q2.1 q2.2 = true → q2 ≠ (startX, startY) → m + 1 ≤ n2) := by
  have h := bfsAux_correct s.cols s.rows grid (buildBombSet bombs) goal
    (startX, startY) (s.cols.toNat * s.rows.toNat + 1) {(startX, startY)}
    [⟨startX, startY, none⟩]
    (bfsInv_init s.cols s.rows grid (buildBombSet bombs) goal (startX, startY))
  constructor
  · constructor
    · intro hnone hex
      obtain ⟨n, q, hr, hg, hq⟩ := hex
      exact h.1 hnone n q hr hg hq
    · intro hnex
      cases hres : botBfs s grid startX startY bombs goal with
      | none => rfl
      | some st =>
        obtain ⟨hstOK, m, q, hdist, hg, hrq, hmin⟩ := h.2 st hres
        exact absurd ⟨m + 1, q, hdist.1, hg,
          distN_ne_start s.cols s.rows grid (buildBombSet bombs)
            (startX, startY) q m hdist⟩ hnex
  · intro st hres
    exact h.2 st hres

/-- C4 witness: on the all-wall-but-start grid with an unsatisfiable
goal, the amended characterisation yields "no path". -/
theorem claim_C4_witness :
    botBfs (mkBotBrain "n" "easy" 3 3) wGridC4 1 1 [] (fun _ _ => false) = none :=
  (claim_C4_amended (mkBotBrain "n" "easy" 3 3) wGridC4 1 1 []
      (fun _ _ => false)).1.mpr
    (fun ⟨n, q, hr, hg, hq⟩ => Bool.noConfusion hg)

end BombIt
